import Mathlib

/-!
The lnproxy http-relay: a verification development.

A shallow embedding of `cmd/http-relay/main.go` together with the parts of the Go
standard library that the file calls (`strings.TrimSpace`, `encoding/json`,
`encoding/hex`, `encoding/base64`, `strconv.ParseUint`, `flag`).

Conventions of the embedding:

* a Go `string` is a list of Unicode code points (`Str`), i.e. well-formed UTF-8 text;
  the strings that `OpenCircuit` hands to the request handler are also given as bytes
  (namespace `Wire`), and the handler on text is shown to be the handler on bytes at
  the UTF-8 encoding of the text;
* a Go `[]byte` is a list of natural numbers below 256 (`Bytes`); a nil slice is
  `none`, an empty non-nil slice is `some []`;
* a `uint64` is a natural number below `2 ^ 64`;
* the operating system (environment, file system, command line) and the packages the
  file imports from outside the standard library are explicit arguments;
* `log.Println` lines go to the process log and are left out; `log.Fatalln` and
  `os.Exit` are the only ways the start-up sequence ends early and appear as results.
-/

namespace LnproxyRelay

/-- Go `string`: a sequence of Unicode code points. -/
abbrev Str := List Char

/-- Go `[]byte` contents. -/
abbrev Bytes := List Nat

deriving instance DecidableEq for Except

/-! ## `unicode.IsSpace` and `strings.TrimSpace` -/

/-- Mirror of `unicode.IsSpace`: the Latin-1 cases are listed in the function itself, the
others are the `White_Space` range table. -/
def isSpaceRune (c : Char) : Bool :=
  let r := c.toNat
  if r ≤ 0xFF then
    r = 0x09 || r = 0x0A || r = 0x0B || r = 0x0C || r = 0x0D || r = 0x20 || r = 0x85 || r = 0xA0
  else
    r = 0x1680 || (0x2000 ≤ r && r ≤ 0x200A) || r = 0x2028 || r = 0x2029 || r = 0x202F
      || r = 0x205F || r = 0x3000

/-- Mirror of `strings.TrimSpace` on a text: the longest prefix and then the longest
suffix of white-space runes are cut off. The function on the bytes of a string, which
need not be UTF-8, is `Wire.TrimSpace`. -/
def TrimSpace (s : Str) : Str :=
  ((s.dropWhile isSpaceRune).reverse.dropWhile isSpaceRune).reverse

/-! ## `encoding/json`: writing strings -/

/-- The lower-case hexadecimal digit of a value below 16 (`"0123456789abcdef"[n]`). -/
def hexDigit (n : Nat) : Char :=
  "0123456789abcdef".toList.getD n '0'

/-- Mirror of the table `htmlSafeSet`: the ASCII characters that `appendString` copies
unchanged when HTML escaping is on. -/
def htmlSafe (c : Char) : Bool :=
  0x20 ≤ c.toNat && c.toNat < 0x80 && c != '"' && c != '\\' && c != '<' && c != '>' && c != '&'

/-- One code point of a string as `appendString` (with `escapeHTML` set, the default of
`json.Encoder`) writes it. What `appendString` writes for a byte that is no UTF-8
encoding is in `Wire.appendLoop`. -/
def appendChar (c : Char) : Str :=
  if c.toNat < 0x80 then
    if htmlSafe c then [c]
    else if c = '\\' || c = '"' then ['\\', c]
    else if c.toNat = 0x08 then ['\\', 'b']
    else if c.toNat = 0x0C then ['\\', 'f']
    else if c = '\n' then ['\\', 'n']
    else if c = '\r' then ['\\', 'r']
    else if c = '\t' then ['\\', 't']
    else ['\\', 'u', '0', '0', hexDigit (c.toNat / 16), hexDigit (c.toNat % 16)]
  else if c.toNat = 0x2028 || c.toNat = 0x2029 then
    ['\\', 'u', '2', '0', '2', hexDigit (c.toNat % 16)]
  else [c]

/-- Mirror of `appendString` on a text: a JSON string literal. -/
def appendString (s : Str) : Str :=
  '"' :: (s.flatMap appendChar ++ ['"'])

/-- A Go struct value with string fields, seen by `encoding/json`: the fields in
declaration order, each with the key of its `json:"..."` tag. -/
abbrev JsonFields := List (Str × Str)

/-- The members of a JSON object, comma separated. -/
def encodeMembers : JsonFields → Str
  | [] => []
  | [(k, v)] => appendString k ++ ':' :: appendString v
  | (k, v) :: rest => appendString k ++ ':' :: appendString v ++ ',' :: encodeMembers rest

/-- Mirror of `(*json.Encoder).Encode` on a struct of string fields: the object, then a
newline. -/
def Encode (fields : JsonFields) : Str :=
  '{' :: (encodeMembers fields ++ ['}', '\n'])

/-! ## `encoding/json`: the scanner (`scanner.go`) -/

/-- The op codes a scanner step returns. -/
inductive ScanOp
  | scanContinue | scanBeginLiteral | scanBeginObject | scanObjectKey | scanObjectValue
  | scanEndObject | scanBeginArray | scanArrayValue | scanEndArray | scanSkipSpace
  | scanEnd | scanError
  deriving DecidableEq, Repr

/-- The entries of the scanner's parse stack. -/
inductive ParseState
  | parseObjectKey | parseObjectValue | parseArrayValue
  deriving DecidableEq, Repr

/-- The scanner's state functions, one constructor for each `stateXxx` of `scanner.go`. -/
inductive StepFn
  | stateBeginValue | stateBeginValueOrEmpty | stateBeginStringOrEmpty | stateBeginString
  | stateEndValue | stateEndTop | stateInString | stateInStringEsc | stateInStringEscU
  | stateInStringEscU1 | stateInStringEscU12 | stateInStringEscU123 | stateNeg | state1
  | state0 | stateDot | stateDot0 | stateE | stateESign | stateE0 | stateT | stateTr
  | stateTru | stateF | stateFa | stateFal | stateFals | stateN | stateNu | stateNul
  | stateError
  deriving DecidableEq, Repr

/-- The scanner: its next state function and its parse stack (innermost entry first). -/
structure Scanner where
  step : StepFn
  parseState : List ParseState
  deriving DecidableEq, Repr

/-- Nesting bound of `scanner.go`. -/
def maxNestingDepth : Nat := 10000

/-- Mirror of `isSpace` of `scanner.go`. -/
def isSpaceJson (c : Char) : Bool :=
  c = ' ' || c = '\t' || c = '\r' || c = '\n'

/-- Hexadecimal digit test used in the `\u` escape states. -/
def isHexChar (c : Char) : Bool :=
  ('0' ≤ c && c ≤ '9') || ('a' ≤ c && c ≤ 'f') || ('A' ≤ c && c ≤ 'F')

/-- Decimal digit test. -/
def isDigit (c : Char) : Bool := '0' ≤ c && c ≤ '9'

namespace Scanner

/-- Mirror of `reset`. -/
def reset : Scanner := ⟨StepFn.stateBeginValue, []⟩

/-- Mirror of `(*scanner).error`: the scanner is stuck in `stateError`. -/
def error (s : Scanner) : ScanOp × Scanner :=
  (ScanOp.scanError, { s with step := StepFn.stateError })

/-- Mirror of `pushParseState`, called with the next state function already stored. -/
def pushParseState (s : Scanner) (newParseState : ParseState) (successState : ScanOp) :
    ScanOp × Scanner :=
  let s1 := { s with parseState := newParseState :: s.parseState }
  if s1.parseState.length ≤ maxNestingDepth then (successState, s1) else s1.error

/-- Mirror of `popParseState`. -/
def popParseState (s : Scanner) : Scanner :=
  let rest := s.parseState.tail
  if rest.length = 0 then ⟨StepFn.stateEndTop, rest⟩ else ⟨StepFn.stateEndValue, rest⟩

/-- Mirror of `stateEndTop`: a byte after the top-level value ends the scan; a
non-space byte is only remembered as an error for a later call. -/
def stateEndTop (s : Scanner) (c : Char) : ScanOp × Scanner :=
  if !isSpaceJson c then (ScanOp.scanEnd, (s.error).2) else (ScanOp.scanEnd, s)

/-- Mirror of `stateEndValue`. -/
def stateEndValue (s : Scanner) (c : Char) : ScanOp × Scanner :=
  match s.parseState with
  | [] => stateEndTop { s with step := StepFn.stateEndTop } c
  | ps :: rest =>
    if isSpaceJson c then (ScanOp.scanSkipSpace, { s with step := StepFn.stateEndValue })
    else match ps with
      | ParseState.parseObjectKey =>
        if c = ':' then
          (ScanOp.scanObjectKey, ⟨StepFn.stateBeginValue, ParseState.parseObjectValue :: rest⟩)
        else s.error
      | ParseState.parseObjectValue =>
        if c = ',' then
          (ScanOp.scanObjectValue, ⟨StepFn.stateBeginString, ParseState.parseObjectKey :: rest⟩)
        else if c = '}' then (ScanOp.scanEndObject, s.popParseState)
        else s.error
      | ParseState.parseArrayValue =>
        if c = ',' then (ScanOp.scanArrayValue, { s with step := StepFn.stateBeginValue })
        else if c = ']' then (ScanOp.scanEndArray, s.popParseState)
        else s.error

/-- Mirror of `stateBeginValue`. -/
def stateBeginValue (s : Scanner) (c : Char) : ScanOp × Scanner :=
  if isSpaceJson c then (ScanOp.scanSkipSpace, s)
  else if c = '{' then
    pushParseState { s with step := StepFn.stateBeginStringOrEmpty } ParseState.parseObjectKey
      ScanOp.scanBeginObject
  else if c = '[' then
    pushParseState { s with step := StepFn.stateBeginValueOrEmpty } ParseState.parseArrayValue
      ScanOp.scanBeginArray
  else if c = '"' then (ScanOp.scanBeginLiteral, { s with step := StepFn.stateInString })
  else if c = '-' then (ScanOp.scanBeginLiteral, { s with step := StepFn.stateNeg })
  else if c = '0' then (ScanOp.scanBeginLiteral, { s with step := StepFn.state0 })
  else if c = 't' then (ScanOp.scanBeginLiteral, { s with step := StepFn.stateT })
  else if c = 'f' then (ScanOp.scanBeginLiteral, { s with step := StepFn.stateF })
  else if c = 'n' then (ScanOp.scanBeginLiteral, { s with step := StepFn.stateN })
  else if '1' ≤ c && c ≤ '9' then (ScanOp.scanBeginLiteral, { s with step := StepFn.state1 })
  else s.error

/-- Mirror of `stateBeginValueOrEmpty`. -/
def stateBeginValueOrEmpty (s : Scanner) (c : Char) : ScanOp × Scanner :=
  if isSpaceJson c then (ScanOp.scanSkipSpace, s)
  else if c = ']' then stateEndValue s c
  else stateBeginValue s c

/-- Mirror of `stateBeginString`. -/
def stateBeginString (s : Scanner) (c : Char) : ScanOp × Scanner :=
  if isSpaceJson c then (ScanOp.scanSkipSpace, s)
  else if c = '"' then (ScanOp.scanBeginLiteral, { s with step := StepFn.stateInString })
  else s.error

/-- Mirror of `stateBeginStringOrEmpty`. -/
def stateBeginStringOrEmpty (s : Scanner) (c : Char) : ScanOp × Scanner :=
  if isSpaceJson c then (ScanOp.scanSkipSpace, s)
  else if c = '}' then
    stateEndValue { s with parseState := ParseState.parseObjectValue :: s.parseState.tail } c
  else stateBeginString s c

/-- Mirror of `stateInString`. -/
def stateInString (s : Scanner) (c : Char) : ScanOp × Scanner :=
  if c = '"' then (ScanOp.scanContinue, { s with step := StepFn.stateEndValue })
  else if c = '\\' then (ScanOp.scanContinue, { s with step := StepFn.stateInStringEsc })
  else if c.toNat < 0x20 then s.error
  else (ScanOp.scanContinue, s)

/-- Mirror of `stateInStringEsc`. -/
def stateInStringEsc (s : Scanner) (c : Char) : ScanOp × Scanner :=
  if c = 'b' || c = 'f' || c = 'n' || c = 'r' || c = 't' || c = '\\' || c = '/' || c = '"' then
    (ScanOp.scanContinue, { s with step := StepFn.stateInString })
  else if c = 'u' then (ScanOp.scanContinue, { s with step := StepFn.stateInStringEscU })
  else s.error

/-- The four states `stateInStringEscU` .. `stateInStringEscU123`: a hexadecimal digit
moves on to `next`. -/
def stateHex (next : StepFn) (s : Scanner) (c : Char) : ScanOp × Scanner :=
  if isHexChar c then (ScanOp.scanContinue, { s with step := next }) else s.error

/-- Mirror of `state0`. -/
def state0 (s : Scanner) (c : Char) : ScanOp × Scanner :=
  if c = '.' then (ScanOp.scanContinue, { s with step := StepFn.stateDot })
  else if c = 'e' || c = 'E' then (ScanOp.scanContinue, { s with step := StepFn.stateE })
  else stateEndValue s c

/-- Mirror of `state1`. -/
def state1 (s : Scanner) (c : Char) : ScanOp × Scanner :=
  if isDigit c then (ScanOp.scanContinue, { s with step := StepFn.state1 }) else state0 s c

/-- Mirror of `stateNeg`. -/
def stateNeg (s : Scanner) (c : Char) : ScanOp × Scanner :=
  if c = '0' then (ScanOp.scanContinue, { s with step := StepFn.state0 })
  else if '1' ≤ c && c ≤ '9' then (ScanOp.scanContinue, { s with step := StepFn.state1 })
  else s.error

/-- Mirror of `stateDot`. -/
def stateDot (s : Scanner) (c : Char) : ScanOp × Scanner :=
  if isDigit c then (ScanOp.scanContinue, { s with step := StepFn.stateDot0 }) else s.error

/-- Mirror of `stateDot0`. -/
def stateDot0 (s : Scanner) (c : Char) : ScanOp × Scanner :=
  if isDigit c then (ScanOp.scanContinue, s)
  else if c = 'e' || c = 'E' then (ScanOp.scanContinue, { s with step := StepFn.stateE })
  else stateEndValue s c

/-- Mirror of `stateESign`. -/
def stateESign (s : Scanner) (c : Char) : ScanOp × Scanner :=
  if isDigit c then (ScanOp.scanContinue, { s with step := StepFn.stateE0 }) else s.error

/-- Mirror of `stateE`. -/
def stateE (s : Scanner) (c : Char) : ScanOp × Scanner :=
  if c = '+' || c = '-' then (ScanOp.scanContinue, { s with step := StepFn.stateESign })
  else stateESign s c

/-- Mirror of `stateE0`. -/
def stateE0 (s : Scanner) (c : Char) : ScanOp × Scanner :=
  if isDigit c then (ScanOp.scanContinue, s) else stateEndValue s c

/-- The states inside the literals `true`, `false` and `null`: the expected letter moves
on to `next`. -/
def stateLetter (expected : Char) (next : StepFn) (s : Scanner) (c : Char) : ScanOp × Scanner :=
  if c = expected then (ScanOp.scanContinue, { s with step := next }) else s.error

/-- One scanner step, `s.step(s, c)`: the call of the current state function. -/
def stepByte (s : Scanner) (c : Char) : ScanOp × Scanner :=
  match s.step with
  | StepFn.stateBeginValue => stateBeginValue s c
  | StepFn.stateBeginValueOrEmpty => stateBeginValueOrEmpty s c
  | StepFn.stateBeginStringOrEmpty => stateBeginStringOrEmpty s c
  | StepFn.stateBeginString => stateBeginString s c
  | StepFn.stateEndValue => stateEndValue s c
  | StepFn.stateEndTop => stateEndTop s c
  | StepFn.stateInString => stateInString s c
  | StepFn.stateInStringEsc => stateInStringEsc s c
  | StepFn.stateInStringEscU => stateHex StepFn.stateInStringEscU1 s c
  | StepFn.stateInStringEscU1 => stateHex StepFn.stateInStringEscU12 s c
  | StepFn.stateInStringEscU12 => stateHex StepFn.stateInStringEscU123 s c
  | StepFn.stateInStringEscU123 => stateHex StepFn.stateInString s c
  | StepFn.stateNeg => stateNeg s c
  | StepFn.state1 => state1 s c
  | StepFn.state0 => state0 s c
  | StepFn.stateDot => stateDot s c
  | StepFn.stateDot0 => stateDot0 s c
  | StepFn.stateE => stateE s c
  | StepFn.stateESign => stateESign s c
  | StepFn.stateE0 => stateE0 s c
  | StepFn.stateT => stateLetter 'r' StepFn.stateTr s c
  | StepFn.stateTr => stateLetter 'u' StepFn.stateTru s c
  | StepFn.stateTru => stateLetter 'e' StepFn.stateEndValue s c
  | StepFn.stateF => stateLetter 'a' StepFn.stateFa s c
  | StepFn.stateFa => stateLetter 'l' StepFn.stateFal s c
  | StepFn.stateFal => stateLetter 's' StepFn.stateFals s c
  | StepFn.stateFals => stateLetter 'e' StepFn.stateEndValue s c
  | StepFn.stateN => stateLetter 'u' StepFn.stateNu s c
  | StepFn.stateNu => stateLetter 'l' StepFn.stateNul s c
  | StepFn.stateNul => stateLetter 'l' StepFn.stateEndValue s c
  | StepFn.stateError => (ScanOp.scanError, s)

end Scanner

/-! ## `encoding/json`: `(*Decoder).Decode` into a struct -/

/-- The ways `Decode` fails. -/
inductive DecodeError
  | eof            -- `io.EOF`: no value in the stream
  | unexpectedEOF  -- `io.ErrUnexpectedEOF`: the stream ends inside a value
  | syntaxError    -- `*json.SyntaxError`
  | typeError      -- `*json.UnmarshalTypeError`
  deriving DecidableEq, Repr

/-- Mirror of `(*Decoder).readValue` on a fresh decoder: the bytes of the first JSON
value of the stream. `acc` holds the bytes consumed so far, last first. The bytes after
the value are not looked at. -/
def readValue : Scanner → Str → Str → Except DecodeError Str
  | s, acc, [] =>
    if (s.stepByte ' ').1 = ScanOp.scanEnd then Except.ok acc.reverse
    else if acc.any (fun c => !isSpaceJson c) then Except.error DecodeError.unexpectedEOF
    else Except.error DecodeError.eof
  | s, acc, c :: cs =>
    match s.stepByte c with
    | (ScanOp.scanEnd, _) => Except.ok acc.reverse
    | (ScanOp.scanEndObject, s1) =>
      if (Scanner.stateEndValue s1 ' ').1 = ScanOp.scanEnd then Except.ok (c :: acc).reverse
      else readValue (Scanner.stateEndValue s1 ' ').2 (c :: acc) cs
    | (ScanOp.scanEndArray, s1) =>
      if (Scanner.stateEndValue s1 ' ').1 = ScanOp.scanEnd then Except.ok (c :: acc).reverse
      else readValue (Scanner.stateEndValue s1 ' ').2 (c :: acc) cs
    | (ScanOp.scanError, _) => Except.error DecodeError.syntaxError
    | (_, s1) => readValue s1 (c :: acc) cs

/-- Value of a hexadecimal digit, as in `getu4`. -/
def hexVal (c : Char) : Option Nat :=
  if '0' ≤ c && c ≤ '9' then some (c.toNat - '0'.toNat)
  else if 'a' ≤ c && c ≤ 'f' then some (c.toNat - 'a'.toNat + 10)
  else if 'A' ≤ c && c ≤ 'F' then some (c.toNat - 'A'.toNat + 10)
  else none

/-- Mirror of `getu4` on the four digits that follow `\u`. -/
def getu4 (a b c d : Char) : Option Nat :=
  match hexVal a, hexVal b, hexVal c, hexVal d with
  | some x, some y, some z, some w => some (((x * 16 + y) * 16 + z) * 16 + w)
  | _, _, _, _ => none

/-- Mirror of `utf16.IsSurrogate`. -/
def isSurrogate (r : Nat) : Bool := 0xD800 ≤ r && r < 0xE000

/-- Mirror of `utf16.DecodeRune`: the code point of a surrogate pair, `U+FFFD` if the two
units are no pair. -/
def decodeSurrogates (r1 r2 : Nat) : Nat :=
  if 0xD800 ≤ r1 && r1 < 0xDC00 && 0xDC00 ≤ r2 && r2 < 0xE000 then
    (r1 - 0xD800) * 1024 + (r2 - 0xDC00) + 0x10000
  else 0xFFFD

/-- The escapes of one character in `unquoteBytes`: the character that `\e` stands for. -/
def unescape (e : Char) : Option Char :=
  if e = '"' || e = '\\' || e = '/' || e = '\x27' then some e
  else if e = 'b' then some (Char.ofNat 0x08)
  else if e = 'f' then some (Char.ofNat 0x0C)
  else if e = 'n' then some '\n'
  else if e = 'r' then some '\r'
  else if e = 't' then some '\t'
  else none

/-- One round of the loop of `unquoteBytes`: the character the text starts with once
decoded, and the number of bytes of the text it takes (`r` advances by it). `none` is
the failure `ok = false`. -/
def unquoteStep (s : Str) : Option (Char × Nat) :=
  match s with
  | [] => none
  | c :: rest =>
    if c = '\\' then
      match rest with
      | [] => none
      | e :: rest1 =>
        if e = 'u' then
          match rest1 with
          | a :: b :: c1 :: d :: rest2 =>
            match getu4 a b c1 d with
            | none => none
            | some rr =>
              if isSurrogate rr then
                match rest2 with
                | b1 :: u1 :: e1 :: f1 :: g1 :: h1 :: _ =>
                  if b1 = '\\' && u1 = 'u' then
                    match getu4 e1 f1 g1 h1 with
                    | some rr1 =>
                      if decodeSurrogates rr rr1 ≠ 0xFFFD then
                        some (Char.ofNat (decodeSurrogates rr rr1), 12)
                      else some (Char.ofNat 0xFFFD, 6)
                    | none => some (Char.ofNat 0xFFFD, 6)
                  else some (Char.ofNat 0xFFFD, 6)
                | _ => some (Char.ofNat 0xFFFD, 6)
              else some (Char.ofNat rr, 6)
          | _ => none
        else
          match unescape e with
          | some x => some (x, 2)
          | none => none
    else if c = '"' || c.toNat < 0x20 then none
    else some (c, 1)

/-- The loop of `unquoteBytes` over the text between the quotes. `fuel` bounds the number
of rounds; every round takes at least one byte, so the length of the text is enough. -/
def unquoteLoop : Nat → Str → Option Str
  | _, [] => some []
  | 0, _ :: _ => none
  | fuel + 1, c :: rest =>
    match unquoteStep (c :: rest) with
    | none => none
    | some (x, n) => (unquoteLoop fuel ((c :: rest).drop n)).map (fun t => x :: t)

/-- The text between the quotes of a literal, unquoted. -/
def unquoteBody (s : Str) : Option Str := unquoteLoop s.length s

/-- Mirror of `unquote`: the text of a JSON string literal, quotes included. -/
def unquote (lit : Str) : Option Str :=
  match lit with
  | '"' :: rest =>
    if rest.getLast? = some '"' then unquoteBody rest.dropLast else none
  | _ => none

/-- What `encoding/json` reads off the declaration of the struct type it decodes into
(here `relay.ProxyParameters`, declared outside `main.go`): its zero value, the field a
key selects (`fields.byExactName[key]`, else `fields.byFoldedName[foldName(key)]`), and
the decoding of a JSON value into a field (`none`: an `UnmarshalTypeError` or another
error was saved). -/
structure StructCodec (P : Type) where
  zero : P
  lookup : Str → Option Nat
  store : P → Nat → Str → Option P

/-- State of the walk over the members of the top-level object: the scanner, whether the
walk is past the colon of the current member, the key literal and the value text read
so far (last byte first), and the members completed so far (last first). -/
structure Split where
  sc : Scanner
  inValue : Bool
  key : Str
  val : Str
  members : List (Str × Str)

/-- One byte of the loop of `(*decodeState).object`: at nesting depth one the scanner's
op codes delimit the key literal, the colon and the value; deeper bytes belong to the
value. -/
def splitStep (st : Split) (c : Char) : Split :=
  let r := st.sc.stepByte c
  if st.inValue then
    if 2 ≤ r.2.parseState.length then { st with sc := r.2, val := c :: st.val }
    else if r.1 = ScanOp.scanSkipSpace then { st with sc := r.2 }
    else if r.1 = ScanOp.scanObjectValue || r.2.parseState.length = 0 then
      { sc := r.2, inValue := false, key := [], val := [],
        members := (st.key.reverse, st.val.reverse) :: st.members }
    else { st with sc := r.2, val := c :: st.val }
  else if r.1 = ScanOp.scanBeginLiteral || r.1 = ScanOp.scanContinue then
    { st with sc := r.2, key := c :: st.key }
  else if r.1 = ScanOp.scanObjectKey then { st with sc := r.2, inValue := true }
  else { st with sc := r.2 }

/-- The members of a scanned object: key literal (quotes included) and value text. -/
def objectMembers (data : Str) : List (Str × Str) :=
  (data.foldl splitStep ⟨Scanner.reset, false, [], [], []⟩).members.reverse

/-- The body of the loop of `(*decodeState).object` for a struct: a key that selects no
field has its value skipped (`DisallowUnknownFields` is not set on the decoder). -/
def storeMembers {P : Type} (codec : StructCodec P) : P → List (Str × Str) → Except DecodeError P
  | p, [] => Except.ok p
  | p, (k, v) :: rest =>
    match unquote k with
    | none => Except.error DecodeError.syntaxError
    | some key =>
      match codec.lookup key with
      | none => storeMembers codec p rest
      | some f =>
        match codec.store p f v with
        | none => Except.error DecodeError.typeError
        | some p1 => storeMembers codec p1 rest

/-- Mirror of `(*decodeState).unmarshal` into a pointer to a struct holding `x`: an
object is stored member by member, `null` leaves the struct as it is, every other
value is an `UnmarshalTypeError`. -/
def unmarshal {P : Type} (codec : StructCodec P) (x : P) (data : Str) : Except DecodeError P :=
  match data.dropWhile isSpaceJson with
  | '{' :: _ => storeMembers codec x (objectMembers data)
  | 'n' :: _ => Except.ok x
  | _ => Except.error DecodeError.typeError

/-- Mirror of `json.NewDecoder(r.Body).Decode(&x)` with `x` the zero value: the first
JSON value of the body is read and stored. -/
def Decode {P : Type} (codec : StructCodec P) (body : Str) : Except DecodeError P :=
  match readValue Scanner.reset [] body with
  | Except.error e => Except.error e
  | Except.ok data => unmarshal codec codec.zero data

/-- Reading a response body the way a client does with `encoding/json`: the first JSON
value of the body, its members, and the text of every key and every value, which have to
be string literals. -/
def readMembers (body : Str) : Option JsonFields :=
  match readValue Scanner.reset [] body with
  | Except.error _ => none
  | Except.ok data =>
    (objectMembers data).mapM (fun kv =>
      match unquote kv.1, unquote kv.2 with
      | some k, some v => some (k, v)
      | _, _ => none)

/-- The scanner runs from `s` over the bytes `l` to `t`, every step returns
`scanContinue` and leaves the parse stack alone: `l` lies inside a literal. -/
def Continues : Scanner → Str → Scanner → Prop
  | s, [], t => s = t
  | s, c :: cs, t =>
    (s.stepByte c).1 = ScanOp.scanContinue ∧ (s.stepByte c).2.parseState = s.parseState
      ∧ Continues (s.stepByte c).2 cs t

/-! ## `main.go`: the request handler -/

/-- Mirror of the type `JsonError`. -/
structure JsonError where
  Status : Str
  Reason : Str
  deriving DecidableEq, Repr

/-- Mirror of `makeJsonError`. -/
def makeJsonError (reason : Str) : JsonError :=
  { Status := "ERROR".toList, Reason := reason }

/-- The fields of a `JsonError` under their `json` tags. -/
def JsonError.fields (e : JsonError) : JsonFields :=
  [("status".toList, e.Status), ("reason".toList, e.Reason)]

/-- The fields of the anonymous struct of the success response under its `json` tag. -/
def wrappedInvoiceFields (WrappedInvoice : Str) : JsonFields :=
  [("proxy_invoice".toList, WrappedInvoice)]

/-- A non-nil `error` returned by `OpenCircuit`: its `Error()` text and the outcome of
`errors.Is(err, relay.ClientFacing)`. -/
structure RelayError where
  text : Str
  clientFacing : Bool
  deriving DecidableEq, Repr

/-- What a run of `specApiHandler` does: the headers it sets, the bytes it writes to the
response and the arguments of its calls of `OpenCircuit`. -/
structure Response (P : Type) where
  header : List (Str × Str)
  body : Str
  calls : List P

/-- Mirror of `specApiHandler`. `OpenCircuit` stands for `lnproxy_relay.OpenCircuit`, which
returns an invoice string and an error (`none` is `nil`). The strings are texts here and
bytes in `Wire.specApiHandler`. -/
def specApiHandler {P : Type} (codec : StructCodec P) (OpenCircuit : P → Str × Option RelayError)
    (body : Str) : Response P :=
  let header : List (Str × Str) :=
    [("Access-Control-Allow-Origin".toList, "*".toList),
     ("Access-Control-Allow-Headers".toList,
      "Origin, X-Requested-With, Content-Type, Accept".toList)]
  match Decode codec body with
  | Except.error _ =>
    { header := header, body := Encode (makeJsonError "bad request".toList).fields, calls := [] }
  | Except.ok x =>
    match OpenCircuit x with
    | (proxy_invoice, err) =>
      match err with
      | some e =>
        if e.clientFacing then
          { header := header, body := Encode (makeJsonError (TrimSpace e.text)).fields,
            calls := [x] }
        else
          { header := header, body := Encode (makeJsonError "internal error".toList).fields,
            calls := [x] }
      | none =>
        { header := header, body := Encode (wrappedInvoiceFields proxy_invoice), calls := [x] }

/-- Modelled from the spec: `relay.ProxyParameters`, declared in the relay package and not
in `main.go`. The spec's example request `\x7b"invoice":"lnbc..."\x7d` names one field,
`invoice`, holding a string. -/
structure ProxyParameters where
  Invoice : Str
  deriving DecidableEq, Repr

/-- ASCII upper case, the folding of `foldName` on the letters of `invoice`. -/
def asciiUpper (c : Char) : Char :=
  if 'a' ≤ c && c ≤ 'z' then Char.ofNat (c.toNat - 32) else c

/-- Modelled from the spec: what `encoding/json` reads off `relay.ProxyParameters` with its
one string field `invoice`: the key matches exactly or up to case, a string literal is
stored, `null` leaves the field, every other value is a type error. -/
def proxyParametersCodec : StructCodec ProxyParameters where
  zero := { Invoice := [] }
  lookup := fun key => if key.map asciiUpper = "INVOICE".toList then some 0 else none
  store := fun p _ raw =>
    match raw with
    | '"' :: _ => (unquote raw).map (fun s => { p with Invoice := s })
    | 'n' :: _ => some p
    | _ => none

/-! ## `encoding/hex` -/

/-- Mirror of `reverseHexTable`: the value of a hexadecimal digit, `none` for the entries
`0xff` of the table. -/
def fromHexChar (c : Char) : Option Nat :=
  if '0' ≤ c && c ≤ '9' then some (c.toNat - '0'.toNat)
  else if 'a' ≤ c && c ≤ 'f' then some (c.toNat - 'a'.toNat + 10)
  else if 'A' ≤ c && c ≤ 'F' then some (c.toNat - 'A'.toNat + 10)
  else none

/-- Mirror of `hex.DecodeString`: `none` is a non-nil error (`InvalidByteError` or
`ErrLength`), `some b` the decoded bytes with a nil error. -/
def hexDecodeString : Str → Option Bytes
  | [] => some []
  | [_] => none
  | p :: q :: rest =>
    match fromHexChar p, fromHexChar q with
    | some a, some b => (hexDecodeString rest).map (fun t => (a * 16 + b) :: t)
    | _, _ => none

/-- Mirror of `hex.EncodeToString`: two lower-case digits for each byte. -/
def hexEncodeToString : Bytes → Str
  | [] => []
  | b :: rest => hexDigit (b / 16) :: hexDigit (b % 16) :: hexEncodeToString rest

/-! ## `encoding/base64`, `StdEncoding` -/

/-- Mirror of `decodeMap` of `StdEncoding`: the value of a character of the alphabet
`A-Z a-z 0-9 + /`, `none` for the entries `0xff`. -/
def decodeMap (c : Char) : Option Nat :=
  if 'A' ≤ c && c ≤ 'Z' then some (c.toNat - 'A'.toNat)
  else if 'a' ≤ c && c ≤ 'z' then some (c.toNat - 'a'.toNat + 26)
  else if '0' ≤ c && c ≤ '9' then some (c.toNat - '0'.toNat + 52)
  else if c = '+' then some 62
  else if c = '/' then some 63
  else none

/-- The characters `decodeQuantum` skips. -/
def isNewline (c : Char) : Bool := c = '\n' || c = '\r'

/-- The end of `decodeQuantum`: the first `dlen - 1` bytes of the 24 bits made of the
6-bit values in `dbuf` (missing values are zero; the encoding is not strict, so the
unused low bits are not checked). -/
def quantumBytes (dbuf : List Nat) : Bytes :=
  let val := dbuf.getD 0 0 * 262144 + dbuf.getD 1 0 * 4096 + dbuf.getD 2 0 * 64 + dbuf.getD 3 0
  ([val / 65536 % 256, val / 256 % 256, val % 256] : List Nat).take (dbuf.length - 1)

/-- Mirror of `(*Encoding).Decode` for `StdEncoding` as the repetition of
`decodeQuantum`; `dbuf` holds the values read in the current quantum. `none` is a
`CorruptInputError`. -/
def base64Decode : List Nat → Str → Option Bytes
  | dbuf, [] => if dbuf.length = 0 then some [] else none
  | dbuf, c :: cs =>
    match decodeMap c with
    | some out =>
      if dbuf.length = 3 then
        (base64Decode [] cs).map (fun t => quantumBytes (dbuf ++ [out]) ++ t)
      else base64Decode (dbuf ++ [out]) cs
    | none =>
      if isNewline c then base64Decode dbuf cs
      else if c ≠ '=' then none
      else if dbuf.length < 2 then none
      else if dbuf.length = 2 then
        match cs.dropWhile isNewline with
        | [] => none
        | p :: cs2 =>
          if p ≠ '=' then none
          else if (cs2.dropWhile isNewline).isEmpty then some (quantumBytes dbuf) else none
      else if (cs.dropWhile isNewline).isEmpty then some (quantumBytes dbuf) else none

/-- Mirror of `base64.StdEncoding.DecodeString`: `none` is a non-nil error; on success
the slice is non-nil, also when it is empty. -/
def base64DecodeString (s : Str) : Option Bytes := base64Decode [] s

/-! ## `main.go`: credentials -/

/-- The file system as `fileOrBase64OrHex` sees it: whether `os.Stat(name)` returns a nil
error, and the result of `os.ReadFile(name)` (`none` is a non-nil error). -/
structure FileSystem where
  stat : Str → Bool
  readFile : Str → Option Bytes

/-- The end of the process by `os.Exit`: the exit status, and whether `flag.Usage` printed
the usage text before it. -/
structure Exit where
  status : Nat
  usagePrinted : Bool
  deriving DecidableEq, Repr

/-- Mirror of `log.Fatalln`: the message is logged and `os.Exit(1)` is called. In
`Except Exit α` an `error e` is the end of the process. -/
def logFatalln {α : Type} : Except Exit α := Except.error ⟨1, false⟩

/-- Mirror of `fileOrBase64OrHex`. The result `none` is the nil slice. -/
def fileOrBase64OrHex (fs : FileSystem) (s : Str) : Except Exit (Option Bytes) :=
  if s = [] then Except.ok none
  else if fs.stat s then
    match fs.readFile s with
    | none => logFatalln
    | some contents => Except.ok (some contents)
  else
    match hexDecodeString s with
    | some b => Except.ok (some b)
    | none =>
      match base64DecodeString s with
      | some b => Except.ok (some b)
      | none => logFatalln

/-! ## `strconv.ParseUint` -/

/-- Largest `uint64`. -/
def maxUint64 : Nat := 2 ^ 64 - 1

/-- The value `ParseUint` gives a byte as a digit: `c - '0'` for a decimal digit,
`lower(c) - 'a' + 10` for a letter. -/
def digitVal (c : Char) : Option Nat :=
  if '0' ≤ c && c ≤ '9' then some (c.toNat - '0'.toNat)
  else if 'a' ≤ c && c ≤ 'z' then some (c.toNat - 'a'.toNat + 10)
  else if 'A' ≤ c && c ≤ 'Z' then some (c.toNat - 'A'.toNat + 10)
  else none

/-- The digit loop of `ParseUint` with bit size 64; `none` is a syntax or range error. -/
def parseUintLoop (base : Nat) (base0 : Bool) : Nat → Str → Option Nat
  | n, [] => some n
  | n, c :: cs =>
    if c = '_' && base0 then parseUintLoop base base0 n cs
    else
      match digitVal c with
      | none => none
      | some d =>
        if d ≥ base then none
        else if n ≥ maxUint64 / base + 1 then none
        else
          let n1 := (n * base + d) % 2 ^ 64
          if n1 < n * base || n1 > maxUint64 then none
          else parseUintLoop base base0 n1 cs

/-- The loop of `underscoreOK`; `saw` is the kind of the last character: `'^'` at the
start, `'0'` a digit, `'_'` an underscore, `'!'` anything else. -/
def underscoreLoop (hex : Bool) : Char → Str → Bool
  | saw, [] => saw != '_'
  | saw, c :: cs =>
    if isDigit c || (hex && (('a' ≤ c && c ≤ 'f') || ('A' ≤ c && c ≤ 'F'))) then
      underscoreLoop hex '0' cs
    else if c = '_' then
      if saw != '0' then false else underscoreLoop hex '_' cs
    else if saw = '_' then false
    else underscoreLoop hex '!' cs

/-- Mirror of `underscoreOK`. -/
def underscoreOK (s : Str) : Bool :=
  let s1 := match s with
    | '-' :: t => t
    | '+' :: t => t
    | _ => s
  match s1 with
  | '0' :: p :: t =>
    if p = 'b' || p = 'B' || p = 'o' || p = 'O' then underscoreLoop false '0' t
    else if p = 'x' || p = 'X' then underscoreLoop true '0' t
    else underscoreLoop false '^' s1
  | _ => underscoreLoop false '^' s1

/-- Mirror of `strconv.ParseUint(s, base, 64)` for `base` 0 or between 2 and 36: `some n`
is the value with a nil error, `none` a non-nil error. -/
def ParseUint (s : Str) (base : Nat) : Option Nat :=
  if s = [] then none
  else if base = 0 then
    let r : Nat × Str :=
      match s with
      | '0' :: p :: q :: t =>
        if p = 'b' || p = 'B' then (2, q :: t)
        else if p = 'o' || p = 'O' then (8, q :: t)
        else if p = 'x' || p = 'X' then (16, q :: t)
        else (8, p :: q :: t)
      | '0' :: t => (8, t)
      | _ => (10, s)
    match parseUintLoop r.1 true 0 r.2 with
    | none => none
    | some n => if r.2.contains '_' && !underscoreOK s then none else some n
  else parseUintLoop base false 0 s

/-! ## `main.go`: environment look-ups -/

/-- The process environment, `os.LookupEnv`. -/
abbrev Env := Str → Option Str

/-- Mirror of `lookupEnvOrUint64`. -/
def lookupEnvOrUint64 (env : Env) (key : Str) (defaultVal : Nat) : Nat :=
  match env key with
  | some val =>
    match ParseUint val 10 with
    | none => defaultVal
    | some res => res
  | none => defaultVal

/-- Mirror of `lookupEnvOrFloat64`; `parseFloat` stands for `strconv.ParseFloat(_, 64)`
(`none` is a non-nil error) and `F` for `float64`. -/
def lookupEnvOrFloat64 {F : Type} (parseFloat : Str → Option F) (env : Env) (key : Str)
    (defaultVal : F) : F :=
  match env key with
  | some val =>
    match parseFloat val with
    | none => defaultVal
    | some res => res
  | none => defaultVal

/-- Mirror of `lookupEnvOrString`. -/
def lookupEnvOrString (env : Env) (key : Str) (defaultVal : Str) : Str :=
  match env key with
  | some val => val
  | none => defaultVal

/-! ## `main.go`: flags and start-up -/

/-- The fields of `relay.RelayParameters` that `main` binds to flags; `F` stands for
`float64`. -/
structure RelayParameters (F : Type) where
  MinAmountMsat : Nat
  MaxAmountMsat : Nat
  RoutingBudgetBeta : Nat
  RoutingFeeBaseMsat : Nat
  RoutingFeePPM : Nat
  CltvDeltaAlpha : Nat
  CltvDeltaBeta : Nat
  MaxCltvExpiry : Nat
  MinCltvExpiry : Nat
  PaymentTimeout : Nat
  PaymentTimePreference : F
  deriving DecidableEq, Repr

/-- The ten `uint64` fields. -/
inductive PolicyField
  | MinAmountMsat | MaxAmountMsat | RoutingBudgetBeta | RoutingFeeBaseMsat | RoutingFeePPM
  | CltvDeltaAlpha | CltvDeltaBeta | MaxCltvExpiry | MinCltvExpiry | PaymentTimeout
  deriving DecidableEq, Repr

/-- The flag name `main` gives each `uint64` field. -/
def PolicyField.flagName : PolicyField → Str
  | MinAmountMsat => "min-amount-msat".toList
  | MaxAmountMsat => "max-amount-msat".toList
  | RoutingBudgetBeta => "routing-budget-beta".toList
  | RoutingFeeBaseMsat => "routing-fee-base-msat".toList
  | RoutingFeePPM => "routing-fee-ppm".toList
  | CltvDeltaAlpha => "cltv-delta-alpha".toList
  | CltvDeltaBeta => "cltv-delta-beta".toList
  | MaxCltvExpiry => "max-cltv-expiry".toList
  | MinCltvExpiry => "min-cltv-expiry".toList
  | PaymentTimeout => "payment-timeout".toList

/-- The environment variable `main` reads for each `uint64` field. -/
def PolicyField.envKey : PolicyField → Str
  | MinAmountMsat => "MIN_AMOUNT_MSAT".toList
  | MaxAmountMsat => "MAX_AMOUNT_MSAT".toList
  | RoutingBudgetBeta => "ROUTING_BUDGET_BETA".toList
  | RoutingFeeBaseMsat => "ROUTING_FEE_BASE_MSAT".toList
  | RoutingFeePPM => "ROUTING_FEE_PPM".toList
  | CltvDeltaAlpha => "CLTV_DELTA_ALPHA".toList
  | CltvDeltaBeta => "CLTV_DELTA_BETA".toList
  | MaxCltvExpiry => "MAX_CLTV_EXPIRY".toList
  | MinCltvExpiry => "MIN_CLTV_EXPIRY".toList
  | PaymentTimeout => "PAYMENT_TIMEOUT".toList

/-- The field a flag name is bound to. -/
def PolicyField.ofFlagName (name : Str) : Option PolicyField :=
  [MinAmountMsat, MaxAmountMsat, RoutingBudgetBeta, RoutingFeeBaseMsat, RoutingFeePPM,
    CltvDeltaAlpha, CltvDeltaBeta, MaxCltvExpiry, MinCltvExpiry, PaymentTimeout].find?
    (fun f => f.flagName = name)

/-- Reading a `uint64` field. -/
def RelayParameters.get {F : Type} (p : RelayParameters F) : PolicyField → Nat
  | PolicyField.MinAmountMsat => p.MinAmountMsat
  | PolicyField.MaxAmountMsat => p.MaxAmountMsat
  | PolicyField.RoutingBudgetBeta => p.RoutingBudgetBeta
  | PolicyField.RoutingFeeBaseMsat => p.RoutingFeeBaseMsat
  | PolicyField.RoutingFeePPM => p.RoutingFeePPM
  | PolicyField.CltvDeltaAlpha => p.CltvDeltaAlpha
  | PolicyField.CltvDeltaBeta => p.CltvDeltaBeta
  | PolicyField.MaxCltvExpiry => p.MaxCltvExpiry
  | PolicyField.MinCltvExpiry => p.MinCltvExpiry
  | PolicyField.PaymentTimeout => p.PaymentTimeout

/-- Writing a `uint64` field through the pointer given to `flag.Uint64Var`. -/
def RelayParameters.set {F : Type} (p : RelayParameters F) (f : PolicyField) (v : Nat) :
    RelayParameters F :=
  match f with
  | PolicyField.MinAmountMsat => { p with MinAmountMsat := v }
  | PolicyField.MaxAmountMsat => { p with MaxAmountMsat := v }
  | PolicyField.RoutingBudgetBeta => { p with RoutingBudgetBeta := v }
  | PolicyField.RoutingFeeBaseMsat => { p with RoutingFeeBaseMsat := v }
  | PolicyField.RoutingFeePPM => { p with RoutingFeePPM := v }
  | PolicyField.CltvDeltaAlpha => { p with CltvDeltaAlpha := v }
  | PolicyField.CltvDeltaBeta => { p with CltvDeltaBeta := v }
  | PolicyField.MaxCltvExpiry => { p with MaxCltvExpiry := v }
  | PolicyField.MinCltvExpiry => { p with MinCltvExpiry := v }
  | PolicyField.PaymentTimeout => { p with PaymentTimeout := v }

/-- The variables the flags of `main` are bound to. -/
structure FlagVars (F : Type) where
  listen : Str
  lndHostString : Str
  lndCert : Str
  lndMacaroon : Str
  params : RelayParameters F
  deriving DecidableEq, Repr

/-- The state of `flag.CommandLine`: the bound variables, the names of the flags that
were set (the keys of the map `actual`), and the history of the successful `Value.Set`
calls as (name, value) pairs, newest first (kept for the specification only). -/
structure FlagSet (F : Type) where
  vars : FlagVars F
  actual : List Str
  history : List (Str × Str)
  deriving DecidableEq, Repr

/-- What the process gets from outside: `os.Args[1:]`, the environment, the file system,
the result of `relay.NewRelayParameters()`, and the two library functions that are kept
abstract, `strconv.ParseFloat(_, 64)` (`none` is an error) and whether `url.Parse` returns
a nil error. -/
structure World (F : Type) where
  args : List Str
  env : Env
  fs : FileSystem
  defaults : RelayParameters F
  parseFloat : Str → Option F
  urlParse : Str → Bool

/-- Lines 128 to 155 of `main`: every flag is defined with the value of its environment
variable, or the built-in default, as its default value. -/
def defineFlags {F : Type} (w : World F) : FlagSet F :=
  let params := w.defaults
  { vars :=
      { listen := lookupEnvOrString w.env "LISTEN".toList "localhost:4747".toList
        lndHostString := lookupEnvOrString w.env "LND".toList "https://127.0.0.1:8080".toList
        lndCert := lookupEnvOrString w.env "LND_CERT".toList ".lnd/tls.cert".toList
        lndMacaroon := lookupEnvOrString w.env "LND_MACAROON".toList
          ".lnd/data/chain/bitcoin/mainnet/invoice.macaroon".toList
        params :=
          { MinAmountMsat := lookupEnvOrUint64 w.env "MIN_AMOUNT_MSAT".toList params.MinAmountMsat
            MaxAmountMsat := lookupEnvOrUint64 w.env "MAX_AMOUNT_MSAT".toList params.MaxAmountMsat
            RoutingBudgetBeta :=
              lookupEnvOrUint64 w.env "ROUTING_BUDGET_BETA".toList params.RoutingBudgetBeta
            RoutingFeeBaseMsat :=
              lookupEnvOrUint64 w.env "ROUTING_FEE_BASE_MSAT".toList params.RoutingFeeBaseMsat
            RoutingFeePPM := lookupEnvOrUint64 w.env "ROUTING_FEE_PPM".toList params.RoutingFeePPM
            CltvDeltaAlpha :=
              lookupEnvOrUint64 w.env "CLTV_DELTA_ALPHA".toList params.CltvDeltaAlpha
            CltvDeltaBeta := lookupEnvOrUint64 w.env "CLTV_DELTA_BETA".toList params.CltvDeltaBeta
            MaxCltvExpiry := lookupEnvOrUint64 w.env "MAX_CLTV_EXPIRY".toList params.MaxCltvExpiry
            MinCltvExpiry := lookupEnvOrUint64 w.env "MIN_CLTV_EXPIRY".toList params.MinCltvExpiry
            PaymentTimeout := lookupEnvOrUint64 w.env "PAYMENT_TIMEOUT".toList params.PaymentTimeout
            PaymentTimePreference :=
              lookupEnvOrFloat64 w.parseFloat w.env "PAYMENT_TIME_PREFERENCE".toList
                params.PaymentTimePreference } }
    actual := []
    history := [] }

/-- The function `main` installs as `flag.Usage`: the usage text is printed and
`os.Exit(2)` is called. -/
def usageExit {α : Type} : Except Exit α := Except.error ⟨2, true⟩

/-- The names of the flags `main` defines, the keys of the map `formal`. -/
def formal : List Str :=
  ["listen".toList, "lnd".toList, "lnd-cert".toList, "lnd-macaroon".toList,
    "min-amount-msat".toList, "max-amount-msat".toList, "routing-budget-beta".toList,
    "routing-fee-base-msat".toList, "routing-fee-ppm".toList, "cltv-delta-alpha".toList,
    "cltv-delta-beta".toList, "max-cltv-expiry".toList, "min-cltv-expiry".toList,
    "payment-timeout".toList, "payment-time-preference".toList]

/-- The call `flag.Value.Set(value)` on the flag called `name`: `none` is a non-nil
error, the value does not parse (`uint64` flags parse with
`strconv.ParseUint(value, 0, 64)`, string flags take every value). -/
def FlagVars.set {F : Type} (parseFloat : Str → Option F) (v : FlagVars F) (name value : Str) :
    Option (FlagVars F) :=
  if name = "listen".toList then some { v with listen := value }
  else if name = "lnd".toList then some { v with lndHostString := value }
  else if name = "lnd-cert".toList then some { v with lndCert := value }
  else if name = "lnd-macaroon".toList then some { v with lndMacaroon := value }
  else if name = "payment-time-preference".toList then
    (parseFloat value).map
      (fun x => { v with params := { v.params with PaymentTimePreference := x } })
  else
    match PolicyField.ofFlagName name with
    | some f => (ParseUint value 0).map (fun n => { v with params := v.params.set f n })
    | none => none

/-- The second half of `parseOne`: the flag `name` is looked up, its value is taken from
the text after `=` or, failing that, from the next argument, and stored. The result is
the new state and the arguments left. Every failure (`failf`, or `-h`/`-help`, which
`main` does not define) runs `flag.Usage`, which exits. -/
def setOne {F : Type} (parseFloat : Str → Option F) (f : FlagSet F) (name : Str)
    (value : Option Str) (rest : List Str) : Except Exit (FlagSet F × List Str) :=
  if !formal.contains name then usageExit
  else
    let arg : Option (Str × List Str) :=
      match value with
      | some v => some (v, rest)
      | none =>
        match rest with
        | v :: rest2 => some (v, rest2)
        | [] => none
    match arg with
    | none => usageExit
    | some (v, rest1) =>
      match f.vars.set parseFloat name v with
      | none => usageExit
      | some vars =>
        Except.ok
          ({ vars := vars
             actual := if name ∈ f.actual then f.actual else name :: f.actual
             history := (name, v) :: f.history }, rest1)

/-- Mirror of `parseOne`: `none` says that the flags have ended (no argument left, a
non-flag argument, or `--`), otherwise the result of setting one flag. -/
def parseOne {F : Type} (parseFloat : Str → Option F) (f : FlagSet F) (args : List Str) :
    Option (Except Exit (FlagSet F × List Str)) :=
  match args with
  | [] => none
  | s :: rest =>
    match s with
    | '-' :: c :: t =>
      if c = '-' && t = [] then none
      else
        match (if c = '-' then t else c :: t) with
        | [] => some usageExit
        | h :: tl =>
          if h = '-' || h = '=' then some usageExit
          else
            match tl.dropWhile (fun x => x != '=') with
            | [] => some (setOne parseFloat f (h :: tl) none rest)
            | _ :: value =>
              some (setOne parseFloat f (h :: tl.takeWhile (fun x => x != '=')) (some value) rest)
    | _ => none

/-- Mirror of `flag.Parse()` on `flag.CommandLine` (error handling `ExitOnError`): the
loop over `parseOne`. `fuel` bounds the number of rounds; every round takes at least one
argument, so `args.length` rounds are enough. -/
def parseLoop {F : Type} (parseFloat : Str → Option F) : Nat → FlagSet F → List Str →
    Except Exit (FlagSet F)
  | 0, f, _ => Except.ok f
  | fuel + 1, f, args =>
    match parseOne parseFloat f args with
    | none => Except.ok f
    | some (Except.error e) => Except.error e
    | some (Except.ok (f1, rest)) => parseLoop parseFloat fuel f1 rest

/-- The call `flag.Parse()` of `main`. -/
def flagParse {F : Type} (w : World F) : Except Exit (FlagSet F) :=
  parseLoop w.parseFloat w.args.length (defineFlags w) w.args

/-- Mirror of `flag.NFlag`. -/
def FlagSet.NFlag {F : Type} (f : FlagSet F) : Nat := f.actual.length

/-- The `*url.URL` that `main` puts into `lnc.Lnd`: the text that `url.Parse` accepted,
which stands for the fields `url.Parse` sets, and the field `Path`, which `main` sets. -/
structure HostURL where
  parsed : Str
  Path : Str
  deriving DecidableEq, Repr

/-- The `lnc.Lnd` value `main` builds: the URL of the host, the PEM bytes of the root
certificate pool of the TLS configuration (`none`: no pool), and the macaroon string. -/
structure Lnd where
  Host : HostURL
  RootCAs : Option Bytes
  Macaroon : Str
  deriving DecidableEq, Repr

/-- What `main` has built when it starts the HTTP server. -/
structure Config (F : Type) where
  Addr : Str
  lnd : Lnd
  params : RelayParameters F
  deriving DecidableEq, Repr

/-- Lines 128 to 205 of `main`: from the definition of the flags to the construction of
the relay. The result is the configuration the server starts with, or the end of the
process. -/
def startup {F : Type} (w : World F) : Except Exit (Config F) :=
  match flagParse w with
  | Except.error e => Except.error e
  | Except.ok f =>
    if f.NFlag = 0 then usageExit
    else
      match fileOrBase64OrHex w.fs f.vars.lndMacaroon with
      | Except.error e => Except.error e
      | Except.ok none => logFatalln
      | Except.ok (some macaroonBytes) =>
        if !w.urlParse f.vars.lndHostString then logFatalln
        else
          match fileOrBase64OrHex w.fs f.vars.lndCert with
          | Except.error e => Except.error e
          | Except.ok lndCertBytes =>
            Except.ok
              { Addr := f.vars.listen
                lnd :=
                  { Host := { parsed := f.vars.lndHostString, Path := "/".toList }
                    RootCAs := lndCertBytes
                    Macaroon := hexEncodeToString macaroonBytes }
                params := f.vars.params }

/-! ## `main.go`: serving and shutdown (lines 207 to 241)

The three goroutines of `main`, the operating system and the relay are one transition
system: a state, and one action for every step one of them can take. An action that is
not enabled in a state has no successor. -/

/-- Where the main goroutine stands. -/
inductive MainPc
  | starting              -- before the `go` statements (line 220)
  | awaitIdleConnsClosed  -- blocked in `<-idleConnsClosed` (line 237)
  | waitGroupWait         -- in `lnproxy_relay.WaitGroup.Wait()` (lines 239 to 241)
  | returned              -- `main` has returned: the process has ended with status 0
  deriving DecidableEq, Repr

/-- Where the goroutine of lines 221 to 230 stands. -/
inductive SignalPc
  | notStarted      -- the `go` statement has not run
  | notify          -- before `signal.Notify(sigint, os.Interrupt)` (line 223)
  | awaitSigint     -- blocked in `<-sigint` (line 224)
  | shutdown        -- inside `server.Shutdown(context.Background())` (line 225)
  | closeIdleConns  -- `Shutdown` has returned, before `close(idleConnsClosed)` (line 228)
  | finished        -- `idleConnsClosed` is closed
  deriving DecidableEq, Repr

/-- The events the drain consists of. -/
inductive Event
  | interruptReceived | shutdownReturned | idleConnsClosedClosed | waitReturned
  deriving DecidableEq, Repr

/-- The state of the running process. `sigintPending` is the content of the channel
`sigint` (capacity one), `notified` says that interrupts are routed to it, `listening`
that the server accepts connections, `handlers` counts the requests being served,
`outstanding` is the counter of `lnproxy_relay.WaitGroup`, `killed` says that an interrupt
ended the process by its default action, and `trace` lists the events so far, newest
first. -/
structure LState where
  main : MainPc
  sig : SignalPc
  sigintPending : Bool
  notified : Bool
  idleConnsClosed : Bool
  listening : Bool
  handlers : Nat
  outstanding : Nat
  killed : Bool
  trace : List Event
  deriving DecidableEq, Repr

/-- The steps of the goroutines and of their environment. -/
inductive Action
  | spawn           -- main: the two `go` statements, then `<-idleConnsClosed` (lines 221 to 237)
  | sigNotify       -- signal goroutine: `signal.Notify` (line 223)
  | interrupt       -- operating system: an interrupt signal arrives
  | sigReceive      -- signal goroutine: `<-sigint` yields, `server.Shutdown` is called
  | shutdownReturn  -- signal goroutine: `server.Shutdown` returns
  | closeIdle       -- signal goroutine: `close(idleConnsClosed)` (line 228)
  | mainResume      -- main: `<-idleConnsClosed` yields, `signal.Reset` (lines 237 to 239)
  | mainReturn      -- main: `WaitGroup.Wait()` returns and `main` returns with it (line 241)
  | listen          -- server goroutine: `ListenAndServe` starts to accept (line 233)
  | requestStart    -- server: a request is accepted and its handler starts
  | requestEnd      -- server: a handler returns
  | opStart         -- relay: `WaitGroup.Add(1)`
  | opDone          -- relay: `WaitGroup.Done()`
  deriving DecidableEq, Repr

/-- The state in which `main` reaches line 220. -/
def LState.init : LState :=
  { main := MainPc.starting, sig := SignalPc.notStarted, sigintPending := false,
    notified := false, idleConnsClosed := false, listening := false, handlers := 0,
    outstanding := 0, killed := false, trace := [] }

/-- One step. The process takes no step once `main` has returned or an interrupt has
killed it. `server.Shutdown` is called with `context.Background()`, so it returns only
when no connection is active; `WaitGroup.Wait()` returns only when the counter is zero;
no statement of `main` lies between that return and the return of `main`. -/
def LState.step (s : LState) (a : Action) : Option LState :=
  if s.main = MainPc.returned || s.killed then none
  else
    match a with
    | Action.spawn =>
      if s.main = MainPc.starting then
        some { s with main := MainPc.awaitIdleConnsClosed, sig := SignalPc.notify }
      else none
    | Action.sigNotify =>
      if s.sig = SignalPc.notify then
        some { s with sig := SignalPc.awaitSigint, notified := true }
      else none
    | Action.interrupt =>
      if s.notified then some { s with sigintPending := true }
      else some { s with killed := true }
    | Action.sigReceive =>
      if s.sig = SignalPc.awaitSigint && s.sigintPending then
        some { s with sig := SignalPc.shutdown, sigintPending := false, listening := false,
                      trace := Event.interruptReceived :: s.trace }
      else none
    | Action.shutdownReturn =>
      if s.sig = SignalPc.shutdown && s.handlers = 0 then
        some { s with sig := SignalPc.closeIdleConns,
                      trace := Event.shutdownReturned :: s.trace }
      else none
    | Action.closeIdle =>
      if s.sig = SignalPc.closeIdleConns then
        some { s with sig := SignalPc.finished, idleConnsClosed := true,
                      trace := Event.idleConnsClosedClosed :: s.trace }
      else none
    | Action.mainResume =>
      if s.main = MainPc.awaitIdleConnsClosed && s.idleConnsClosed then
        some { s with main := MainPc.waitGroupWait, notified := false }
      else none
    | Action.mainReturn =>
      if s.main = MainPc.waitGroupWait && s.outstanding = 0 then
        some { s with main := MainPc.returned, trace := Event.waitReturned :: s.trace }
      else none
    | Action.listen =>
      if s.main ≠ MainPc.starting && s.sig ≠ SignalPc.shutdown && s.sig ≠ SignalPc.closeIdleConns
          && s.sig ≠ SignalPc.finished then
        some { s with listening := true }
      else none
    | Action.requestStart =>
      if s.listening then some { s with handlers := s.handlers + 1 } else none
    | Action.requestEnd =>
      if 0 < s.handlers then some { s with handlers := s.handlers - 1 } else none
    | Action.opStart => some { s with outstanding := s.outstanding + 1 }
    | Action.opDone =>
      if 0 < s.outstanding then some { s with outstanding := s.outstanding - 1 } else none

/-- A run: the actions taken one after the other; `none` if one of them is not enabled. -/
def LState.run : LState → List Action → Option LState
  | s, [] => some s
  | s, a :: rest =>
    match s.step a with
    | none => none
    | some s1 => LState.run s1 rest

/-- The states of the lifecycle. -/
inductive Phase
  | Starting | Serving | Draining | Stopped
  deriving DecidableEq, Repr

/-- The lifecycle state a process state is in: `Stopped` once `main` has returned,
`Draining` from the receipt of the interrupt on, `Serving` once the goroutines run. -/
def LState.phase (s : LState) : Phase :=
  if s.main = MainPc.returned then Phase.Stopped
  else if s.sig = SignalPc.shutdown || s.sig = SignalPc.closeIdleConns
      || s.sig = SignalPc.finished then Phase.Draining
  else if s.main = MainPc.starting then Phase.Starting
  else Phase.Serving

/-- The character of the standard base64 alphabet for a 6-bit value (`encodeStd[k]`). -/
def base64Char (k : Nat) : Char :=
  "ABCDEFGHIJKLMNOPQRSTUVWXYZabcdefghijklmnopqrstuvwxyz0123456789+/".toList.getD k 'A'

/-- Mirror of `base64.StdEncoding.EncodeToString`: four characters for every three
bytes, the last group padded with `=`. -/
def base64EncodeToString : Bytes → Str
  | [] => []
  | [a] => [base64Char (a / 4), base64Char (a % 4 * 16), '=', '=']
  | [a, b] => [base64Char (a / 4), base64Char (a % 4 * 16 + b / 16), base64Char (b % 16 * 4), '=']
  | a :: b :: c :: rest =>
    base64Char (a / 4) :: base64Char (a % 4 * 16 + b / 16) :: base64Char (b % 16 * 4 + c / 64)
      :: base64Char (c % 64) :: base64EncodeToString rest

/-! ## The credential loader as the specification words it -/

/-- A valid hexadecimal string: an even number of characters, all of them hexadecimal
digits. -/
def isHexString (s : Str) : Bool :=
  s.length % 2 = 0 && s.all isHexChar

/-- The bytes a hexadecimal string stands for: one for every two digits. -/
def hexValue : Str → Bytes
  | a :: b :: rest => ((fromHexChar a).getD 0 * 16 + (fromHexChar b).getD 0) :: hexValue rest
  | _ => []

/-- A string `base64.StdEncoding` accepts. -/
def isStdBase64 (s : Str) : Bool := (base64DecodeString s).isSome

/-- The bytes a standard base64 string stands for. -/
def base64Value (s : Str) : Bytes := (base64DecodeString s).getD []

/-- The ordered attempts of the specification (`resolveSecret`): no secret for the empty
value; else the contents of the file the value names, the process ending if it cannot be
read; else the hexadecimal decoding; else the base64 decoding; else the process ends. -/
def resolveSecret (fs : FileSystem) (value : Str) : Except Exit (Option Bytes) :=
  if value = [] then Except.ok none
  else if fs.stat value then
    match fs.readFile value with
    | some contents => Except.ok (some contents)
    | none => logFatalln
  else if isHexString value then Except.ok (some (hexValue value))
  else if isStdBase64 value then Except.ok (some (base64Value value))
  else logFatalln

/-- A credential value none of the three readings applies to: it is not empty, names no
existing path, is no valid hexadecimal string and no valid base64 string. -/
def Unresolvable (fs : FileSystem) (value : Str) : Prop :=
  value ≠ [] ∧ fs.stat value = false ∧ hexDecodeString value = none
    ∧ base64DecodeString value = none

/-- A process started with the given arguments, an empty environment and no files; the
built-in defaults are zero, no text parses as a float, every host string parses as a
URL. Used for concrete runs. -/
def bareWorld (args : List Str) : World Nat :=
  { args := args
    env := fun _ => none
    fs := { stat := fun _ => false, readFile := fun _ => none }
    defaults :=
      { MinAmountMsat := 0, MaxAmountMsat := 0, RoutingBudgetBeta := 0, RoutingFeeBaseMsat := 0,
        RoutingFeePPM := 0, CltvDeltaAlpha := 0, CltvDeltaBeta := 0, MaxCltvExpiry := 0,
        MinCltvExpiry := 0, PaymentTimeout := 0, PaymentTimePreference := 0 }
    parseFloat := fun _ => none
    urlParse := fun _ => true }

/-- The value the command line gave the flag `name` last, if it gave one. -/
def lastValue (history : List (Str × Str)) (name : Str) : Option Str :=
  (history.find? (fun e => e.1 = name)).map Prod.snd

/-- The number a string of decimal digits stands for, continuing from `n`. -/
def decimalValue (n : Nat) (s : Str) : Nat :=
  s.foldl (fun acc c => acc * 10 + (c.toNat - '0'.toNat)) n

/-- A base-10 unsigned 64-bit integer: digits only, at least one, value below `2 ^ 64`. -/
def isUint64Decimal (s : Str) : Bool :=
  !s.isEmpty && s.all isDigit && decide (decimalValue 0 s < 2 ^ 64)

/-- What the flag state has to do with the command line so far: a policy field whose
flag was given holds the value of the last text given, a field whose flag was not given
holds the default the flag was defined with, and `actual` lists the flags given. -/
def FlagInv {F : Type} (parseFloat : Str → Option F) (init : FlagVars F) (f : FlagSet F) : Prop :=
  (∀ fld : PolicyField,
      match lastValue f.history fld.flagName with
      | some v => ParseUint v 0 = some (f.vars.params.get fld)
      | none => f.vars.params.get fld = init.params.get fld)
    ∧ (match lastValue f.history "payment-time-preference".toList with
      | some v => parseFloat v = some f.vars.params.PaymentTimePreference
      | none => f.vars.params.PaymentTimePreference = init.params.PaymentTimePreference)
    ∧ (∀ name, name ∈ f.actual ↔ (lastValue f.history name).isSome)

/-- The invariant of the shutdown sequence: where the signal goroutine stands fixes the
events so far, `idleConnsClosed` is closed exactly when that goroutine has closed it, the
main goroutine is past `<-idleConnsClosed` only then, and has returned only with the
wait group at zero. -/
def LState.Inv (s : LState) : Prop :=
  match s.sig with
  | SignalPc.notStarted =>
    s.main = MainPc.starting ∧ s.trace = [] ∧ s.idleConnsClosed = false
  | SignalPc.notify =>
    s.main = MainPc.awaitIdleConnsClosed ∧ s.trace = [] ∧ s.idleConnsClosed = false
  | SignalPc.awaitSigint =>
    s.main = MainPc.awaitIdleConnsClosed ∧ s.trace = [] ∧ s.idleConnsClosed = false
  | SignalPc.shutdown =>
    s.main = MainPc.awaitIdleConnsClosed ∧ s.trace = [Event.interruptReceived]
      ∧ s.idleConnsClosed = false
  | SignalPc.closeIdleConns =>
    s.main = MainPc.awaitIdleConnsClosed
      ∧ s.trace = [Event.shutdownReturned, Event.interruptReceived]
      ∧ s.idleConnsClosed = false
  | SignalPc.finished =>
    s.idleConnsClosed = true
      ∧ (((s.main = MainPc.awaitIdleConnsClosed ∨ s.main = MainPc.waitGroupWait)
          ∧ s.trace = [Event.idleConnsClosedClosed, Event.shutdownReturned,
              Event.interruptReceived])
        ∨ (s.main = MainPc.returned ∧ s.outstanding = 0
          ∧ s.trace = [Event.waitReturned, Event.idleConnsClosedClosed,
              Event.shutdownReturned, Event.interruptReceived]))

/-- An environment given as a list of variables with their values. -/
def envOf (vars : List (Str × Str)) : Env :=
  fun key => (vars.find? (fun e => e.1 = key)).map Prod.snd

/-! ## Go strings as bytes: `unicode/utf8`

A Go `string` is a sequence of bytes and need not be UTF-8. The definitions above work on
text; the ones below work on the bytes, for the strings `OpenCircuit` hands to the
handler. -/

/-- The rune `utf8.RuneError`, U+FFFD. -/
def RuneError : Nat := 0xFFFD

/-- Mirror of `utf8.EncodeRune` on a valid code point. -/
def EncodeRune (c : Char) : Bytes :=
  let r := c.toNat
  if r < 0x80 then [r]
  else if r < 0x800 then [0xC0 + r / 64, 0x80 + r % 64]
  else if r < 0x10000 then [0xE0 + r / 4096, 0x80 + r / 64 % 64, 0x80 + r % 64]
  else [0xF0 + r / 262144, 0x80 + r / 4096 % 64, 0x80 + r / 64 % 64, 0x80 + r % 64]

/-- The bytes of a text: its UTF-8 encoding. -/
def utf8 (s : Str) : Bytes := s.flatMap EncodeRune

/-- Mirror of the table `first` of `utf8.go` with `acceptRanges`, for a byte that is not
ASCII: the size of the encoding the byte starts and the least and greatest second byte
that may follow it; `none` is the entry `xx`, a byte that starts no encoding. -/
def first (b : Nat) : Option (Nat × Nat × Nat) :=
  if 0xC2 ≤ b ∧ b ≤ 0xDF then some (2, 0x80, 0xBF)
  else if b = 0xE0 then some (3, 0xA0, 0xBF)
  else if 0xE1 ≤ b ∧ b ≤ 0xEC then some (3, 0x80, 0xBF)
  else if b = 0xED then some (3, 0x80, 0x9F)
  else if 0xEE ≤ b ∧ b ≤ 0xEF then some (3, 0x80, 0xBF)
  else if b = 0xF0 then some (4, 0x90, 0xBF)
  else if 0xF1 ≤ b ∧ b ≤ 0xF3 then some (4, 0x80, 0xBF)
  else if b = 0xF4 then some (4, 0x80, 0x8F)
  else none

/-- Mirror of `utf8.DecodeRuneInString`: the first rune of `s` and the number of bytes it
takes; `(RuneError, 1)` where the bytes are no encoding, `(RuneError, 0)` on the empty
string. The masks and shifts of the source are written as remainders and products. -/
def DecodeRuneInString (s : Bytes) : Nat × Nat :=
  match s with
  | [] => (RuneError, 0)
  | s0 :: rest =>
    if s0 < 0x80 then (s0, 1)
    else
      match first s0 with
      | none => (RuneError, 1)
      | some (sz, lo, hi) =>
        if s.length < sz then (RuneError, 1)
        else
          match rest with
          | [] => (RuneError, 1)
          | s1 :: rest1 =>
            if s1 < lo ∨ hi < s1 then (RuneError, 1)
            else if sz ≤ 2 then (s0 % 32 * 64 + s1 % 64, 2)
            else
              match rest1 with
              | [] => (RuneError, 1)
              | s2 :: rest2 =>
                if s2 < 0x80 ∨ 0xBF < s2 then (RuneError, 1)
                else if sz ≤ 3 then (s0 % 16 * 4096 + s1 % 64 * 64 + s2 % 64, 3)
                else
                  match rest2 with
                  | [] => (RuneError, 1)
                  | s3 :: _ =>
                    if s3 < 0x80 ∨ 0xBF < s3 then (RuneError, 1)
                    else (s0 % 8 * 262144 + s1 % 64 * 4096 + s2 % 64 * 64 + s3 % 64, 4)

/-- Mirror of `utf8.RuneStart`: the byte is not a continuation byte. -/
def RuneStart (b : Nat) : Bool := !(0x80 ≤ b && b < 0xC0)

/-- The backward loop of `utf8.DecodeLastRuneInString`, on the bytes before the last one,
nearest first: how many of them the decoding starts before. The loop looks at no more
than `n` bytes for one that starts a rune and stops one byte further if there is none. -/
def backSteps : Nat → Bytes → Nat
  | _, [] => 0
  | 0, _ :: _ => 1
  | n + 1, b :: before => if RuneStart b then 1 else 1 + backSteps n before

/-- Mirror of `utf8.DecodeLastRuneInString`: the last rune of `s` and its size. -/
def DecodeLastRuneInString (s : Bytes) : Nat × Nat :=
  match s.reverse with
  | [] => (RuneError, 0)
  | last :: before =>
    if last < 0x80 then (last, 1)
    else
      let start := s.length - 1 - backSteps 3 before
      let (r, size) := DecodeRuneInString (s.drop start)
      if start + size ≠ s.length then (RuneError, 1) else (r, size)

/-- Mirror of `unicode.IsSpace` on a rune given by its number. -/
def IsSpace (r : Nat) : Bool := isSpaceRune (Char.ofNat r)

/-- Mirror of the table `asciiSpace` of package `strings`. -/
def asciiSpace (c : Nat) : Bool :=
  c = 0x09 || c = 0x0A || c = 0x0B || c = 0x0C || c = 0x0D || c = 0x20

/-- Mirror of `strings.indexFunc`: the index of the first rune `r` of `s` with
`f r = truth`, where `i` is the index `s` starts at; `none` is `-1`. The first argument
bounds the number of runes and is the length of the string where the function is called. -/
def indexFunc (f : Nat → Bool) (truth : Bool) : Nat → Nat → Bytes → Option Nat
  | 0, _, _ => none
  | fuel + 1, i, s =>
    if s = [] then none
    else if f (DecodeRuneInString s).1 = truth then some i
    else indexFunc f truth fuel (i + (DecodeRuneInString s).2) (s.drop (DecodeRuneInString s).2)

/-- Mirror of `strings.lastIndexFunc`: the index of the last rune `r` of `s` with
`f r = truth`, runes being read from the end; `none` is `-1`. -/
def lastIndexFunc (f : Nat → Bool) (truth : Bool) : Nat → Bytes → Option Nat
  | 0, _ => none
  | fuel + 1, s =>
    if s = [] then none
    else if f (DecodeLastRuneInString s).1 = truth then
      some (s.length - (DecodeLastRuneInString s).2)
    else lastIndexFunc f truth fuel (s.take (s.length - (DecodeLastRuneInString s).2))

/-- Mirror of `strings.TrimLeftFunc`. -/
def TrimLeftFunc (s : Bytes) (f : Nat → Bool) : Bytes :=
  match indexFunc f false s.length 0 s with
  | none => []
  | some i => s.drop i

/-- Mirror of `strings.TrimRightFunc`. -/
def TrimRightFunc (s : Bytes) (f : Nat → Bool) : Bytes :=
  match lastIndexFunc f false s.length s with
  | some i =>
    if 0x80 ≤ s.getD i 0 then s.take (i + (DecodeRuneInString (s.drop i)).2)
    else s.take (i + 1)
  | none => []

/-- Mirror of `strings.TrimFunc`. -/
def TrimFunc (s : Bytes) (f : Nat → Bool) : Bytes :=
  TrimRightFunc (TrimLeftFunc s f) f

namespace Wire

/-- The second loop of `strings.TrimSpace`, on `s[start:stop]` reversed: ASCII white
space is cut from the end; at a byte that is not ASCII the rest is left to
`TrimRightFunc`. -/
def trimSpaceStop : Bytes → Bytes
  | [] => []
  | c :: before =>
    if 0x80 ≤ c then TrimRightFunc (c :: before).reverse IsSpace
    else if asciiSpace c then trimSpaceStop before
    else (c :: before).reverse

/-- Mirror of `strings.TrimSpace` on the bytes of a string: ASCII white space is cut from
the start; at a byte that is not ASCII the rest is left to `TrimFunc`. -/
def TrimSpace : Bytes → Bytes
  | [] => []
  | c :: rest =>
    if 0x80 ≤ c then TrimFunc (c :: rest) IsSpace
    else if asciiSpace c then TrimSpace rest
    else trimSpaceStop (c :: rest).reverse

/-- The loop of `appendString` of `encoding/json` (with `escapeHTML` set) on the bytes of
a string: an ASCII byte and a well-formed rune are written as `appendChar` says, a byte
that is no encoding as the six characters `\ufffd`. The first argument bounds the number
of runes. -/
def appendLoop : Nat → Bytes → Str
  | 0, _ => []
  | _ + 1, [] => []
  | fuel + 1, b :: rest =>
    if b < 0x80 then appendChar (Char.ofNat b) ++ appendLoop fuel rest
    else if (DecodeRuneInString ((b :: rest).take 4)).1 = RuneError
        ∧ (DecodeRuneInString ((b :: rest).take 4)).2 = 1 then
      ['\\', 'u', 'f', 'f', 'f', 'd'] ++ appendLoop fuel rest
    else
      appendChar (Char.ofNat (DecodeRuneInString ((b :: rest).take 4)).1)
        ++ appendLoop fuel ((b :: rest).drop (DecodeRuneInString ((b :: rest).take 4)).2)

/-- Mirror of `appendString` of `encoding/json`: the JSON string literal for a Go string.
What is written is well-formed UTF-8 whatever the string is, so it is given as text. -/
def appendString (src : Bytes) : Str :=
  '"' :: (appendLoop src.length src ++ ['"'])

/-- A Go struct value with string fields, seen by `encoding/json`: the fields in
declaration order, each with the key of its tag, keys and values as bytes. -/
abbrev JsonFields := List (Bytes × Bytes)

/-- The members of a JSON object, comma separated. -/
def encodeMembers : JsonFields → Str
  | [] => []
  | [(k, v)] => appendString k ++ ':' :: appendString v
  | (k, v) :: rest => appendString k ++ ':' :: appendString v ++ ',' :: encodeMembers rest

/-- Mirror of `(*json.Encoder).Encode` on a struct of string fields: the object, then a
newline. -/
def Encode (fields : JsonFields) : Str :=
  '\x7b' :: (encodeMembers fields ++ ['\x7d', '\n'])

/-- Mirror of the type `JsonError`, the strings as bytes. -/
structure JsonError where
  Status : Bytes
  Reason : Bytes
  deriving DecidableEq, Repr

/-- Mirror of `makeJsonError`. -/
def makeJsonError (reason : Bytes) : JsonError :=
  { Status := utf8 "ERROR".toList, Reason := reason }

/-- The fields of a `JsonError` under their `json` tags. -/
def JsonError.fields (e : JsonError) : JsonFields :=
  [(utf8 "status".toList, e.Status), (utf8 "reason".toList, e.Reason)]

/-- The fields of the anonymous struct of the success response under its `json` tag. -/
def wrappedInvoiceFields (WrappedInvoice : Bytes) : JsonFields :=
  [(utf8 "proxy_invoice".toList, WrappedInvoice)]

/-- A non-nil `error` returned by `OpenCircuit`: the bytes of its `Error()` string and the
outcome of `errors.Is(err, relay.ClientFacing)`. -/
structure RelayError where
  text : Bytes
  clientFacing : Bool
  deriving DecidableEq, Repr

/-- Mirror of `specApiHandler` with the strings that `OpenCircuit` returns as bytes. The
request body is read by `Decode` as before. -/
def specApiHandler {P : Type} (codec : StructCodec P)
    (OpenCircuit : P → Bytes × Option RelayError) (body : Str) : Response P :=
  let header : List (Str × Str) :=
    [("Access-Control-Allow-Origin".toList, "*".toList),
     ("Access-Control-Allow-Headers".toList,
      "Origin, X-Requested-With, Content-Type, Accept".toList)]
  match Decode codec body with
  | Except.error _ =>
    { header := header, body := Encode (makeJsonError (utf8 "bad request".toList)).fields,
      calls := [] }
  | Except.ok x =>
    match OpenCircuit x with
    | (proxy_invoice, err) =>
      match err with
      | some e =>
        if e.clientFacing then
          { header := header, body := Encode (makeJsonError (TrimSpace e.text)).fields,
            calls := [x] }
        else
          { header := header,
            body := Encode (makeJsonError (utf8 "internal error".toList)).fields,
            calls := [x] }
      | none =>
        { header := header, body := Encode (wrappedInvoiceFields proxy_invoice), calls := [x] }

end Wire

end LnproxyRelay

/-! # Theorems -/

namespace LnproxyRelay

/-! ## The request handler: what is written for each outcome -/

/-- The response body of the three error answers and of the success answer, as text. -/
theorem encode_jsonError (reason : Str) :
    Encode (makeJsonError reason).fields
      = "\x7b\"status\":\"ERROR\",\"reason\":".toList ++ appendString reason ++ "\x7d\n".toList := by
  have h : appendString "status".toList = "\"status\"".toList := by decide
  have h2 : appendString "ERROR".toList = "\"ERROR\"".toList := by decide
  have h3 : appendString "reason".toList = "\"reason\"".toList := by decide
  simp only [Encode, makeJsonError, JsonError.fields, encodeMembers, h, h2, h3]
  simp

/-- A request whose body does not decode: the fixed answer, and no call. -/
theorem specApiHandler_of_decode_error {P : Type} (codec : StructCodec P)
    (OpenCircuit : P → Str × Option RelayError) (body : Str) (e : DecodeError)
    (h : Decode codec body = Except.error e) :
    (specApiHandler codec OpenCircuit body).body
        = Encode (makeJsonError "bad request".toList).fields
      ∧ (specApiHandler codec OpenCircuit body).calls = [] := by
  simp [specApiHandler, h]

/-- A request whose body decodes to `x`: one call, with `x`, and the answer is decided
by what the call returns. -/
theorem specApiHandler_of_decode_ok {P : Type} (codec : StructCodec P)
    (OpenCircuit : P → Str × Option RelayError) (body : Str) (x : P)
    (h : Decode codec body = Except.ok x) :
    (specApiHandler codec OpenCircuit body).calls = [x]
      ∧ (specApiHandler codec OpenCircuit body).body =
          (match (OpenCircuit x).2 with
           | some e =>
             if e.clientFacing then Encode (makeJsonError (TrimSpace e.text)).fields
             else Encode (makeJsonError "internal error".toList).fields
           | none => Encode (wrappedInvoiceFields (OpenCircuit x).1)) := by
  simp only [specApiHandler, h]
  rcases hoc : OpenCircuit x with ⟨inv, err⟩
  cases err with
  | none => simp
  | some e => by_cases hc : e.clientFacing <;> simp [hc]

end LnproxyRelay

namespace LnproxyRelay

/-- The function `TrimSpace` cuts a white-space prefix and a white-space suffix off its argument, and
what is left neither starts nor ends with white space. -/
theorem TrimSpace_spec (s : Str) :
    ∃ pre post, s = pre ++ TrimSpace s ++ post
      ∧ (∀ c ∈ pre, isSpaceRune c = true) ∧ (∀ c ∈ post, isSpaceRune c = true)
      ∧ (∀ c, (TrimSpace s).head? = some c → isSpaceRune c = false)
      ∧ (∀ c, (TrimSpace s).getLast? = some c → isSpaceRune c = false) := by
  have hT : TrimSpace s = (s.dropWhile isSpaceRune).rdropWhile isSpaceRune := rfl
  obtain ⟨post, hpost⟩ := List.rdropWhile_prefix isSpaceRune (l := s.dropWhile isSpaceRune)
  refine ⟨s.takeWhile isSpaceRune, post, ?_, ?_, ?_, ?_, ?_⟩
  · rw [hT, List.append_assoc, hpost, List.takeWhile_append_dropWhile]
  · intro c hc
    exact List.mem_takeWhile_imp hc
  · -- the suffix cut off consists of white space
    intro c hc
    have h1 : (s.dropWhile isSpaceRune).rdropWhile isSpaceRune
        = ((s.dropWhile isSpaceRune).rdropWhile isSpaceRune ++ post).rdropWhile isSpaceRune := by
      rw [hpost]
    by_contra hne
    have hne2 : isSpaceRune c = false := by simpa using hne
    obtain ⟨l1, l2, hl⟩ := List.append_of_mem hc
    -- `post = l1 ++ c :: l2`: trimming keeps everything up to `c`
    have hsplit : (s.dropWhile isSpaceRune).rdropWhile isSpaceRune ++ post
        = (((s.dropWhile isSpaceRune).rdropWhile isSpaceRune ++ l1) ++ [c]) ++ l2 := by
      rw [hl]; simp
    have hpre : ((s.dropWhile isSpaceRune).rdropWhile isSpaceRune ++ l1) ++ [c]
        <+: (((s.dropWhile isSpaceRune).rdropWhile isSpaceRune ++ l1) ++ [c] ++ l2).rdropWhile
          isSpaceRune := by
      unfold List.rdropWhile
      rw [List.reverse_append, List.reverse_append _ [c]]
      generalize l2.reverse = r
      induction r with
      | nil => simp [hne2]
      | cons a r ih =>
        simp only [List.cons_append, List.dropWhile_cons]
        split
        · exact ih
        · simp
    rw [← hsplit, ← h1] at hpre
    have hlen := hpre.length_le
    simp at hlen
  · intro c hc
    rw [hT] at hc
    have hne : (s.dropWhile isSpaceRune).rdropWhile isSpaceRune ≠ [] := by
      intro h; rw [h] at hc; simp at hc
    obtain ⟨post2, hp2⟩ := List.rdropWhile_prefix isSpaceRune (l := s.dropWhile isSpaceRune)
    have hhead : (s.dropWhile isSpaceRune).head? = some c := by
      rw [← hp2]
      cases hx : (s.dropWhile isSpaceRune).rdropWhile isSpaceRune with
      | nil => exact absurd hx hne
      | cons a t => rw [hx] at hc; simpa using hc
    have := List.head?_dropWhile_not isSpaceRune s
    rw [hhead] at this
    simpa using this
  · intro c hc
    rw [hT] at hc
    have hne : (s.dropWhile isSpaceRune).rdropWhile isSpaceRune ≠ [] := by
      intro h; rw [h] at hc; simp at hc
    have h := List.rdropWhile_last_not isSpaceRune (s.dropWhile isSpaceRune) hne
    rw [List.getLast?_eq_getLast _ hne] at hc
    simp only [Option.some.injEq] at hc
    rw [hc] at h
    simpa using h

end LnproxyRelay

namespace LnproxyRelay

/-! ## Reading back what `Encode` writes -/

theorem Continues.append {s m t : Scanner} {l1 l2 : Str} (h1 : Continues s l1 m)
    (h2 : Continues m l2 t) : Continues s (l1 ++ l2) t := by
  induction l1 generalizing s with
  | nil => simp only [Continues] at h1; subst h1; simpa using h2
  | cons c cs ih =>
    simp only [Continues, List.cons_append] at h1 ⊢
    exact ⟨h1.1, h1.2.1, ih h1.2.2⟩

theorem Continues.parseState_eq {s t : Scanner} {l : Str} (h : Continues s l t) :
    t.parseState = s.parseState := by
  induction l generalizing s with
  | nil => simp only [Continues] at h; subst h; rfl
  | cons c cs ih =>
    simp only [Continues] at h
    rw [ih h.2.2, h.2.1]

theorem isHexChar_hexDigit : ∀ k < 16, isHexChar (hexDigit k) = true := by decide

theorem continues_appendChar (c : Char) (ps : List ParseState) :
    Continues ⟨StepFn.stateInString, ps⟩ (appendChar c) ⟨StepFn.stateInString, ps⟩ := by
  unfold appendChar
  split
  · rename_i hlt
    split
    · rename_i hs
      simp only [htmlSafe, Bool.and_eq_true, decide_eq_true_eq, bne_iff_ne, ne_eq] at hs
      have h20 : ¬ c.toNat < 32 := by omega
      simp [Continues, Scanner.stepByte, Scanner.stateInString, hs, h20]
    · split
      · rename_i h
        rcases (by simpa using h : c = '\\' ∨ c = '"') with h | h <;> subst h <;>
          simp [Continues, Scanner.stepByte, Scanner.stateInString, Scanner.stateInStringEsc]
      · split
        · simp [Continues, Scanner.stepByte, Scanner.stateInString, Scanner.stateInStringEsc]
        · split
          · simp [Continues, Scanner.stepByte, Scanner.stateInString, Scanner.stateInStringEsc]
          · split
            · simp [Continues, Scanner.stepByte, Scanner.stateInString, Scanner.stateInStringEsc]
            · split
              · simp [Continues, Scanner.stepByte, Scanner.stateInString,
                  Scanner.stateInStringEsc]
              · split
                · simp [Continues, Scanner.stepByte, Scanner.stateInString,
                    Scanner.stateInStringEsc]
                · have h1 : c.toNat / 16 < 16 := by omega
                  have h2 : c.toNat % 16 < 16 := by omega
                  have h0 : isHexChar '0' = true := by decide
                  simp [Continues, Scanner.stepByte, Scanner.stateInString,
                    Scanner.stateInStringEsc, Scanner.stateHex, isHexChar_hexDigit _ h1,
                    isHexChar_hexDigit _ h2, h0]
  · rename_i hge
    split
    · have h2 : c.toNat % 16 < 16 := by omega
      have h0 : isHexChar '0' = true := by decide
      have h0' : isHexChar '2' = true := by decide
      simp [Continues, Scanner.stepByte, Scanner.stateInString,
        Scanner.stateInStringEsc, Scanner.stateHex, isHexChar_hexDigit _ h2, h0, h0']
    · have h1 : c ≠ '"' := by rintro rfl; exact hge (by decide)
      have h2 : c ≠ '\\' := by rintro rfl; exact hge (by decide)
      have h3 : ¬ c.toNat < 32 := by omega
      simp [Continues, Scanner.stepByte, Scanner.stateInString, h1, h2, h3]

end LnproxyRelay

namespace LnproxyRelay

theorem continues_flatMap (s : Str) (ps : List ParseState) :
    Continues ⟨StepFn.stateInString, ps⟩ (s.flatMap appendChar) ⟨StepFn.stateInString, ps⟩ := by
  induction s with
  | nil => simp [Continues]
  | cons c cs ih =>
    rw [List.flatMap_cons]
    exact (continues_appendChar c ps).append ih

/-- The text between the opening quote of a literal and its end. -/
theorem continues_literal_tail (s : Str) (ps : List ParseState) :
    Continues ⟨StepFn.stateInString, ps⟩ (s.flatMap appendChar ++ ['"'])
      ⟨StepFn.stateEndValue, ps⟩ := by
  refine (continues_flatMap s ps).append ?_
  simp [Continues, Scanner.stepByte, Scanner.stateInString]

/-- The reader `readValue` walks through the inside of a literal. -/
theorem readValue_continues {s t : Scanner} {l : Str} (h : Continues s l t) (acc rest : Str) :
    readValue s acc (l ++ rest) = readValue t (l.reverse ++ acc) rest := by
  induction l generalizing s acc with
  | nil => simp only [Continues] at h; subst h; simp
  | cons c cs ih =>
    simp only [Continues] at h
    obtain ⟨h1, -, h3⟩ := h
    rw [List.cons_append, readValue]
    rcases hsb : s.stepByte c with ⟨op, s1⟩
    rw [hsb] at h1 h3
    simp only at h1 h3
    subst h1
    simp only
    rw [ih h3]
    simp

/-- The walk over the members takes the inside of a key literal into the key. -/
theorem foldl_splitStep_key {t : Scanner} {l : Str} (st : Split) (h : Continues st.sc l t)
    (hk : st.inValue = false) :
    l.foldl splitStep st = { st with sc := t, key := l.reverse ++ st.key } := by
  induction l generalizing st with
  | nil => simp only [Continues] at h; subst h; simp
  | cons c cs ih =>
    simp only [Continues] at h
    obtain ⟨h1, -, h3⟩ := h
    rw [List.foldl_cons]
    have hstep : splitStep st c = { st with sc := (st.sc.stepByte c).2, key := c :: st.key } := by
      simp [splitStep, hk, h1]
    rw [hstep, ih _ (by simpa using h3) (by simpa using hk)]
    simp

/-- The walk over the members takes the inside of a value literal at depth one into the
value. -/
theorem foldl_splitStep_val {t : Scanner} {l : Str} (st : Split) (h : Continues st.sc l t)
    (hk : st.inValue = true) (hd : st.sc.parseState.length = 1) :
    l.foldl splitStep st = { st with sc := t, val := l.reverse ++ st.val } := by
  induction l generalizing st with
  | nil => simp only [Continues] at h; subst h; simp
  | cons c cs ih =>
    simp only [Continues] at h
    obtain ⟨h1, h2, h3⟩ := h
    rw [List.foldl_cons]
    have hstep : splitStep st c = { st with sc := (st.sc.stepByte c).2, val := c :: st.val } := by
      simp [splitStep, hk, h1, h2, hd]
    rw [hstep, ih _ (by simpa using h3) (by simpa using hk) (by simpa [h2] using hd)]
    simp

end LnproxyRelay

namespace LnproxyRelay

theorem getu4_hexDigit : ∀ n < 128,
    getu4 '0' '0' (hexDigit (n / 16)) (hexDigit (n % 16)) = some n := by decide

theorem getu4_hexDigit_2028 : ∀ n < 16,
    getu4 '2' '0' '2' (hexDigit n) = some (0x2020 + n) := by decide

theorem unquoteStep_appendChar (c : Char) (t : Str) :
    unquoteStep (appendChar c ++ t) = some (c, (appendChar c).length) := by
  unfold appendChar
  split
  · rename_i hlt
    split
    · rename_i hs
      simp only [htmlSafe, Bool.and_eq_true, decide_eq_true_eq, bne_iff_ne, ne_eq] at hs
      have h3 : ¬ c.toNat < 32 := by omega
      simp [unquoteStep, hs, h3]
    · split
      · rename_i h
        rcases (by simpa using h : c = '\\' ∨ c = '"') with h | h <;> subst h <;>
          simp [unquoteStep, unescape]
      · split
        · rename_i h
          have hc : c = Char.ofNat 8 := by rw [← h, Char.ofNat_toNat]
          subst hc
          simp [unquoteStep, unescape]
        · split
          · rename_i h
            have hc : c = Char.ofNat 12 := by rw [← h, Char.ofNat_toNat]
            subst hc
            simp [unquoteStep, unescape]
          · split
            · rename_i h; subst h; simp [unquoteStep, unescape]
            · split
              · rename_i h; subst h; simp [unquoteStep, unescape]
              · split
                · rename_i h; subst h; simp [unquoteStep, unescape]
                · have hs : isSurrogate c.toNat = false := by
                    simp only [isSurrogate, Bool.and_eq_false_imp, decide_eq_true_eq,
                      decide_eq_false_iff_not]
                    omega
                  simp [unquoteStep, getu4_hexDigit _ hlt, hs, Char.ofNat_toNat]
  · rename_i hge
    split
    · rename_i h
      have h2 : c.toNat % 16 < 16 := by omega
      have hs : isSurrogate c.toNat = false := by
        simp only [isSurrogate, Bool.and_eq_false_imp, decide_eq_true_eq,
          decide_eq_false_iff_not]
        simp only [Bool.or_eq_true, decide_eq_true_eq] at h
        omega
      have hn : 0x2020 + c.toNat % 16 = c.toNat := by
        simp only [Bool.or_eq_true, decide_eq_true_eq] at h
        omega
      simp [unquoteStep, getu4_hexDigit_2028 _ h2, hn, hs, Char.ofNat_toNat]
    · have h1 : c ≠ '"' := by rintro rfl; exact hge (by decide)
      have h2 : c ≠ '\\' := by rintro rfl; exact hge (by decide)
      have h3 : ¬ c.toNat < 32 := by omega
      simp [unquoteStep, h1, h2, h3]

theorem unquoteLoop_flatMap (s : Str) (fuel : Nat) (h : (s.flatMap appendChar).length ≤ fuel) :
    unquoteLoop fuel (s.flatMap appendChar) = some s := by
  induction s generalizing fuel with
  | nil => cases fuel <;> simp [unquoteLoop]
  | cons c cs ih =>
    rw [List.flatMap_cons] at h ⊢
    rw [List.length_append] at h
    have hpos : 0 < (appendChar c).length := by
      have := unquoteStep_appendChar c []
      rcases hx : appendChar c with _ | ⟨a, l⟩
      · rw [hx] at this; simp [unquoteStep] at this
      · simp
    rcases hx : appendChar c ++ cs.flatMap appendChar with _ | ⟨a, l⟩
    · have := congrArg List.length hx
      rw [List.length_append] at this
      simp only [List.length_nil] at this
      omega
    · cases fuel with
      | zero => omega
      | succ fuel =>
        rw [unquoteLoop, ← hx, unquoteStep_appendChar]
        simp only [List.drop_left]
        rw [ih fuel (by omega)]
        rfl

theorem unquote_appendString (s : Str) : unquote (appendString s) = some s := by
  simp [unquote, appendString, unquoteBody, unquoteLoop_flatMap]

end LnproxyRelay

namespace LnproxyRelay

theorem step_quote_beginString (ps : List ParseState) :
    Scanner.stepByte ⟨StepFn.stateBeginString, ps⟩ '"'
      = (ScanOp.scanBeginLiteral, ⟨StepFn.stateInString, ps⟩) := by
  simp [Scanner.stepByte, Scanner.stateBeginString, isSpaceJson]

theorem step_quote_beginStringOrEmpty (ps : List ParseState) :
    Scanner.stepByte ⟨StepFn.stateBeginStringOrEmpty, ps⟩ '"'
      = (ScanOp.scanBeginLiteral, ⟨StepFn.stateInString, ps⟩) := by
  simp [Scanner.stepByte, Scanner.stateBeginStringOrEmpty, Scanner.stateBeginString, isSpaceJson]

theorem step_quote_beginValue (ps : List ParseState) :
    Scanner.stepByte ⟨StepFn.stateBeginValue, ps⟩ '"'
      = (ScanOp.scanBeginLiteral, ⟨StepFn.stateInString, ps⟩) := by
  simp [Scanner.stepByte, Scanner.stateBeginValue, isSpaceJson]

theorem step_colon :
    Scanner.stepByte ⟨StepFn.stateEndValue, [ParseState.parseObjectKey]⟩ ':'
      = (ScanOp.scanObjectKey, ⟨StepFn.stateBeginValue, [ParseState.parseObjectValue]⟩) := by
  decide

theorem step_comma :
    Scanner.stepByte ⟨StepFn.stateEndValue, [ParseState.parseObjectValue]⟩ ','
      = (ScanOp.scanObjectValue, ⟨StepFn.stateBeginString, [ParseState.parseObjectKey]⟩) := by
  decide

theorem step_close :
    Scanner.stepByte ⟨StepFn.stateEndValue, [ParseState.parseObjectValue]⟩ '}'
      = (ScanOp.scanEndObject, ⟨StepFn.stateEndTop, []⟩) := by
  decide

theorem step_open :
    Scanner.stepByte Scanner.reset '{'
      = (ScanOp.scanBeginObject,
          ⟨StepFn.stateBeginStringOrEmpty, [ParseState.parseObjectKey]⟩) := by
  decide

/-- The reader `readValue` walks through a string literal that starts where a key or a value may
start. -/
theorem readValue_literal (X : StepFn) (ps : List ParseState) (s acc rest : Str)
    (hX : Scanner.stepByte ⟨X, ps⟩ '"' = (ScanOp.scanBeginLiteral, ⟨StepFn.stateInString, ps⟩)) :
    readValue ⟨X, ps⟩ acc (appendString s ++ rest)
      = readValue ⟨StepFn.stateEndValue, ps⟩ ((appendString s).reverse ++ acc) rest := by
  rw [appendString, List.cons_append, readValue, hX]
  simp only
  rw [readValue_continues (continues_literal_tail s ps)]
  simp

/-- One member, from the start of its key to the end of its value. -/
theorem readValue_member (X : StepFn) (k v acc rest : Str)
    (hX : Scanner.stepByte ⟨X, [ParseState.parseObjectKey]⟩ '"'
      = (ScanOp.scanBeginLiteral, ⟨StepFn.stateInString, [ParseState.parseObjectKey]⟩)) :
    readValue ⟨X, [ParseState.parseObjectKey]⟩ acc
        (appendString k ++ ':' :: (appendString v ++ rest))
      = readValue ⟨StepFn.stateEndValue, [ParseState.parseObjectValue]⟩
          ((appendString k ++ ':' :: appendString v).reverse ++ acc) rest := by
  rw [readValue_literal X _ k acc _ hX, readValue, step_colon]
  simp only
  rw [readValue_literal StepFn.stateBeginValue _ v _ rest (step_quote_beginValue _)]
  simp

theorem encodeMembers_cons_cons (k v : Str) (f : Str × Str) (fs : JsonFields) :
    encodeMembers ((k, v) :: f :: fs)
      = appendString k ++ ':' :: (appendString v ++ ',' :: encodeMembers (f :: fs)) := by
  simp [encodeMembers]

theorem encodeMembers_single (k v : Str) :
    encodeMembers [(k, v)] = appendString k ++ ':' :: appendString v := by
  simp [encodeMembers]

/-- The reader `readValue` reads the members of an object up to the closing brace and stops there. -/
theorem readValue_members (fs : JsonFields) (hne : fs ≠ []) (X : StepFn) (acc rest : Str)
    (hX : Scanner.stepByte ⟨X, [ParseState.parseObjectKey]⟩ '"'
      = (ScanOp.scanBeginLiteral, ⟨StepFn.stateInString, [ParseState.parseObjectKey]⟩)) :
    readValue ⟨X, [ParseState.parseObjectKey]⟩ acc (encodeMembers fs ++ '}' :: rest)
      = Except.ok (acc.reverse ++ encodeMembers fs ++ ['}']) := by
  induction fs generalizing X acc with
  | nil => exact absurd rfl hne
  | cons kv tl ih =>
    obtain ⟨k, v⟩ := kv
    cases tl with
    | nil =>
      rw [encodeMembers_single, List.append_assoc, List.cons_append,
        readValue_member X k v acc _ hX, readValue, step_close]
      simp [Scanner.stateEndValue, Scanner.stateEndTop, isSpaceJson]
    | cons f fs =>
      rw [encodeMembers_cons_cons, List.append_assoc, List.cons_append, List.append_assoc,
        readValue_member X k v acc _ hX, List.cons_append, readValue, step_comma]
      simp only
      rw [ih (by simp) StepFn.stateBeginString _ (step_quote_beginString _)]
      simp

theorem readValue_Encode (fs : JsonFields) (hne : fs ≠ []) :
    readValue Scanner.reset [] (Encode fs) = Except.ok ('{' :: (encodeMembers fs ++ ['}'])) := by
  rw [Encode, readValue, step_open]
  simp only
  have : encodeMembers fs ++ ['}', '\n'] = encodeMembers fs ++ '}' :: ['\n'] := rfl
  rw [this, readValue_members fs hne _ _ _ (step_quote_beginStringOrEmpty _)]
  simp

end LnproxyRelay

namespace LnproxyRelay

/-- The walk over the members takes a key literal. -/
theorem foldl_splitStep_keyLiteral (X : StepFn) (ps : List ParseState) (k key val : Str)
    (ms : List (Str × Str))
    (hX : Scanner.stepByte ⟨X, ps⟩ '"' = (ScanOp.scanBeginLiteral, ⟨StepFn.stateInString, ps⟩)) :
    (appendString k).foldl splitStep ⟨⟨X, ps⟩, false, key, val, ms⟩
      = ⟨⟨StepFn.stateEndValue, ps⟩, false, (appendString k).reverse ++ key, val, ms⟩ := by
  rw [appendString, List.foldl_cons]
  have h1 : splitStep ⟨⟨X, ps⟩, false, key, val, ms⟩ '"'
      = ⟨⟨StepFn.stateInString, ps⟩, false, '"' :: key, val, ms⟩ := by
    simp [splitStep, hX]
  rw [h1, foldl_splitStep_key ⟨⟨StepFn.stateInString, ps⟩, false, '"' :: key, val, ms⟩
    (continues_literal_tail k ps) rfl]
  simp

/-- The walk over the members takes a value literal at depth one. -/
theorem foldl_splitStep_valLiteral (v key val : Str) (ms : List (Str × Str)) :
    (appendString v).foldl splitStep
        ⟨⟨StepFn.stateBeginValue, [ParseState.parseObjectValue]⟩, true, key, val, ms⟩
      = ⟨⟨StepFn.stateEndValue, [ParseState.parseObjectValue]⟩, true, key,
          (appendString v).reverse ++ val, ms⟩ := by
  rw [appendString, List.foldl_cons]
  have h1 : splitStep
      ⟨⟨StepFn.stateBeginValue, [ParseState.parseObjectValue]⟩, true, key, val, ms⟩ '"'
      = ⟨⟨StepFn.stateInString, [ParseState.parseObjectValue]⟩, true, key, '"' :: val, ms⟩ := by
    simp [splitStep, step_quote_beginValue]
  rw [h1, foldl_splitStep_val
    ⟨⟨StepFn.stateInString, [ParseState.parseObjectValue]⟩, true, key, '"' :: val, ms⟩
    (continues_literal_tail v _) rfl rfl]
  simp

/-- The walk over one member, from the start of its key to the end of its value. -/
theorem foldl_splitStep_member (X : StepFn) (k v : Str) (ms : List (Str × Str))
    (hX : Scanner.stepByte ⟨X, [ParseState.parseObjectKey]⟩ '"'
      = (ScanOp.scanBeginLiteral, ⟨StepFn.stateInString, [ParseState.parseObjectKey]⟩)) :
    (appendString k ++ ':' :: appendString v).foldl splitStep
        ⟨⟨X, [ParseState.parseObjectKey]⟩, false, [], [], ms⟩
      = ⟨⟨StepFn.stateEndValue, [ParseState.parseObjectValue]⟩, true, (appendString k).reverse,
          (appendString v).reverse, ms⟩ := by
  rw [List.foldl_append, foldl_splitStep_keyLiteral X _ k [] [] ms hX, List.foldl_cons]
  have h1 : splitStep ⟨⟨StepFn.stateEndValue, [ParseState.parseObjectKey]⟩, false,
      (appendString k).reverse ++ [], [], ms⟩ ':'
      = ⟨⟨StepFn.stateBeginValue, [ParseState.parseObjectValue]⟩, true,
          (appendString k).reverse ++ [], [], ms⟩ := by
    simp [splitStep, step_colon]
  rw [h1, foldl_splitStep_valLiteral]
  simp

/-- The walk over the members of an encoded object yields the literals of the fields. -/
theorem foldl_splitStep_members (fs : JsonFields) (hne : fs ≠ []) (X : StepFn)
    (ms : List (Str × Str))
    (hX : Scanner.stepByte ⟨X, [ParseState.parseObjectKey]⟩ '"'
      = (ScanOp.scanBeginLiteral, ⟨StepFn.stateInString, [ParseState.parseObjectKey]⟩)) :
    (encodeMembers fs ++ ['}']).foldl splitStep ⟨⟨X, [ParseState.parseObjectKey]⟩, false, [], [], ms⟩
      = ⟨⟨StepFn.stateEndTop, []⟩, false, [], [],
          (fs.map (fun kv => (appendString kv.1, appendString kv.2))).reverse ++ ms⟩ := by
  induction fs generalizing X ms with
  | nil => exact absurd rfl hne
  | cons kv tl ih =>
    obtain ⟨k, v⟩ := kv
    cases tl with
    | nil =>
      rw [encodeMembers_single, List.foldl_append, foldl_splitStep_member X k v ms hX]
      simp [splitStep, step_close]
    | cons f fs =>
      rw [encodeMembers_cons_cons]
      have hsplit : appendString k ++ ':' :: (appendString v ++ ',' :: encodeMembers (f :: fs))
            ++ ['}']
          = (appendString k ++ ':' :: appendString v) ++ ',' :: (encodeMembers (f :: fs) ++ ['}']) := by
        simp
      rw [hsplit, List.foldl_append, foldl_splitStep_member X k v ms hX, List.foldl_cons]
      have h1 : splitStep ⟨⟨StepFn.stateEndValue, [ParseState.parseObjectValue]⟩, true,
          (appendString k).reverse, (appendString v).reverse, ms⟩ ','
          = ⟨⟨StepFn.stateBeginString, [ParseState.parseObjectKey]⟩, false, [], [],
              (appendString k, appendString v) :: ms⟩ := by
        simp [splitStep, step_comma]
      rw [h1, ih (by simp) StepFn.stateBeginString _ (step_quote_beginString _)]
      simp

theorem objectMembers_encoded (fs : JsonFields) (hne : fs ≠ []) :
    objectMembers ('{' :: (encodeMembers fs ++ ['}']))
      = fs.map (fun kv => (appendString kv.1, appendString kv.2)) := by
  rw [objectMembers, List.foldl_cons]
  have h1 : splitStep ⟨Scanner.reset, false, [], [], []⟩ '{'
      = ⟨⟨StepFn.stateBeginStringOrEmpty, [ParseState.parseObjectKey]⟩, false, [], [], []⟩ := by
    simp [splitStep, step_open]
  rw [h1, foldl_splitStep_members fs hne _ _ (step_quote_beginStringOrEmpty _)]
  simp

/-- What `Encode` writes reads back as the fields it was given. -/
theorem readMembers_Encode (fs : JsonFields) (hne : fs ≠ []) :
    readMembers (Encode fs) = some fs := by
  rw [readMembers, readValue_Encode fs hne]
  simp only [objectMembers_encoded fs hne]
  clear hne
  induction fs with
  | nil => rfl
  | cons kv tl ih =>
    simp only [List.map_cons, List.mapM_cons, unquote_appendString, ih]
    rfl

end LnproxyRelay

namespace LnproxyRelay

/-! ## Strings as bytes: the text-level model is the byte-level one on UTF-8 -/

/-- A code point is below the surrogates, or above them and at most U+10FFFF. -/
theorem char_toNat_valid (c : Char) :
    c.toNat < 0xD800 ∨ (0xDFFF < c.toNat ∧ c.toNat < 0x110000) := by
  have h := c.valid
  simp only [UInt32.isValidChar, Nat.isValidChar] at h
  have : c.toNat = c.val.toNat := rfl
  omega

theorem decode_two (n : Nat) (rest : Bytes) (h1 : 0x80 ≤ n) (h2 : n < 0x800) :
    DecodeRuneInString ((0xC0 + n / 64) :: (0x80 + n % 64) :: rest) = (n, 2) := by
  have hf : first (0xC0 + n / 64) = some (2, 0x80, 0xBF) := by
    unfold first
    rw [if_pos (by omega)]
  have hlt : ¬ (0xC0 + n / 64 < 0x80) := by omega
  simp only [DecodeRuneInString, hf, hlt, if_false, List.length_cons]
  rw [if_neg (by omega), if_neg (by omega), if_pos (by omega)]
  congr 1
  omega

theorem decode_three (n : Nat) (rest : Bytes) (h1 : 0x800 ≤ n) (h2 : n < 0x10000)
    (hs : n < 0xD800 ∨ 0xDFFF < n) :
    DecodeRuneInString ((0xE0 + n / 4096) :: (0x80 + n / 64 % 64) :: (0x80 + n % 64) :: rest)
      = (n, 3) := by
  have hlt : ¬ (0xE0 + n / 4096 < 0x80) := by omega
  have hf : ∃ lo hi, first (0xE0 + n / 4096) = some (3, lo, hi)
      ∧ ¬ (0x80 + n / 64 % 64 < lo ∨ hi < 0x80 + n / 64 % 64) := by
    unfold first
    rw [if_neg (by omega)]
    by_cases a : 0xE0 + n / 4096 = 0xE0
    · rw [if_pos a]; exact ⟨_, _, rfl, by omega⟩
    · rw [if_neg a]
      by_cases b : 0xE1 ≤ 0xE0 + n / 4096 ∧ 0xE0 + n / 4096 ≤ 0xEC
      · rw [if_pos b]; exact ⟨_, _, rfl, by omega⟩
      · rw [if_neg b]
        by_cases d : 0xE0 + n / 4096 = 0xED
        · rw [if_pos d]; exact ⟨_, _, rfl, by omega⟩
        · rw [if_neg d, if_pos (by omega)]; exact ⟨_, _, rfl, by omega⟩
  obtain ⟨lo, hi, hf, hr⟩ := hf
  simp only [DecodeRuneInString, hf, hlt, if_false, List.length_cons]
  rw [if_neg (by omega), if_neg hr, if_neg (by omega), if_neg (by omega), if_pos (by omega)]
  congr 1
  omega

theorem decode_four (n : Nat) (rest : Bytes) (h1 : 0x10000 ≤ n) (h2 : n < 0x110000) :
    DecodeRuneInString ((0xF0 + n / 262144) :: (0x80 + n / 4096 % 64) :: (0x80 + n / 64 % 64)
        :: (0x80 + n % 64) :: rest) = (n, 4) := by
  have hlt : ¬ (0xF0 + n / 262144 < 0x80) := by omega
  have hf : ∃ lo hi, first (0xF0 + n / 262144) = some (4, lo, hi)
      ∧ ¬ (0x80 + n / 4096 % 64 < lo ∨ hi < 0x80 + n / 4096 % 64) := by
    unfold first
    rw [if_neg (by omega), if_neg (by omega), if_neg (by omega), if_neg (by omega),
      if_neg (by omega)]
    by_cases a : 0xF0 + n / 262144 = 0xF0
    · rw [if_pos a]; exact ⟨_, _, rfl, by omega⟩
    · rw [if_neg a]
      by_cases b : 0xF1 ≤ 0xF0 + n / 262144 ∧ 0xF0 + n / 262144 ≤ 0xF3
      · rw [if_pos b]; exact ⟨_, _, rfl, by omega⟩
      · rw [if_neg b, if_pos (by omega)]; exact ⟨_, _, rfl, by omega⟩
  obtain ⟨lo, hi, hf, hr⟩ := hf
  simp only [DecodeRuneInString, hf, hlt, if_false, List.length_cons]
  rw [if_neg (by omega), if_neg hr, if_neg (by omega), if_neg (by omega), if_neg (by omega),
    if_neg (by omega)]
  congr 1
  omega

/-- The four shapes of an encoding. -/
theorem EncodeRune_cases (c : Char) :
    (c.toNat < 0x80 ∧ EncodeRune c = [c.toNat])
    ∨ (0x80 ≤ c.toNat ∧ c.toNat < 0x800
        ∧ EncodeRune c = [0xC0 + c.toNat / 64, 0x80 + c.toNat % 64])
    ∨ (0x800 ≤ c.toNat ∧ c.toNat < 0x10000 ∧ (c.toNat < 0xD800 ∨ 0xDFFF < c.toNat)
        ∧ EncodeRune c
          = [0xE0 + c.toNat / 4096, 0x80 + c.toNat / 64 % 64, 0x80 + c.toNat % 64])
    ∨ (0x10000 ≤ c.toNat ∧ c.toNat < 0x110000
        ∧ EncodeRune c = [0xF0 + c.toNat / 262144, 0x80 + c.toNat / 4096 % 64,
            0x80 + c.toNat / 64 % 64, 0x80 + c.toNat % 64]) := by
  have hv := char_toNat_valid c
  unfold EncodeRune
  simp only []
  by_cases h1 : c.toNat < 0x80
  · left; exact ⟨h1, by rw [if_pos h1]⟩
  · right
    by_cases h2 : c.toNat < 0x800
    · left; exact ⟨by omega, h2, by rw [if_neg h1, if_pos h2]⟩
    · right
      by_cases h3 : c.toNat < 0x10000
      · left; exact ⟨by omega, h3, by omega, by rw [if_neg h1, if_neg h2, if_pos h3]⟩
      · right; exact ⟨by omega, by omega, by rw [if_neg h1, if_neg h2, if_neg h3]⟩

/-- Decoding undoes encoding, whatever follows. -/
theorem DecodeRuneInString_EncodeRune (c : Char) (rest : Bytes) :
    DecodeRuneInString (EncodeRune c ++ rest) = (c.toNat, (EncodeRune c).length) := by
  rcases EncodeRune_cases c with ⟨h, he⟩ | ⟨h1, h2, he⟩ | ⟨h1, h2, h3, he⟩ | ⟨h1, h2, he⟩
  · rw [he]; simp [DecodeRuneInString, h]
  · rw [he]; exact decode_two _ rest h1 h2
  · rw [he]; exact decode_three _ rest h1 h2 h3
  · rw [he]; exact decode_four _ rest h1 h2

end LnproxyRelay

namespace LnproxyRelay

/-- Decoding from the end undoes encoding, whatever comes before. -/
theorem DecodeLastRuneInString_EncodeRune (c : Char) (pre : Bytes) :
    DecodeLastRuneInString (pre ++ EncodeRune c) = (c.toNat, (EncodeRune c).length) := by
  rcases EncodeRune_cases c with ⟨h, he⟩ | ⟨h1, h2, he⟩ | ⟨h1, h2, h3, he⟩ | ⟨h1, h2, he⟩
  · rw [he]; simp [DecodeLastRuneInString, h]
  · rw [he]
    have hd := decode_two c.toNat [] h1 h2
    have hr : RuneStart (0xC0 + c.toNat / 64) = true := by
      simp only [RuneStart, Bool.not_eq_true', Bool.and_eq_false_imp, decide_eq_true_eq,
        decide_eq_false_iff_not]
      omega
    have hdrop : (pre ++ [0xC0 + c.toNat / 64, 0x80 + c.toNat % 64]).drop
        ((pre ++ [0xC0 + c.toNat / 64, 0x80 + c.toNat % 64]).length - 1 - 1)
        = [0xC0 + c.toNat / 64, 0x80 + c.toNat % 64] := by
      simp
    simp only [DecodeLastRuneInString, List.reverse_append, List.reverse_cons, List.reverse_nil,
      List.nil_append, List.cons_append, backSteps, hr, if_true]
    rw [if_neg (by omega), hdrop, hd]
    simp
  · rw [he]
    have hd := decode_three c.toNat [] h1 h2 h3
    have hr : RuneStart (0xE0 + c.toNat / 4096) = true := by
      simp only [RuneStart, Bool.not_eq_true', Bool.and_eq_false_imp, decide_eq_true_eq,
        decide_eq_false_iff_not]
      omega
    have hr2 : RuneStart (0x80 + c.toNat / 64 % 64) = false := by
      simp only [RuneStart, Bool.not_eq_false', Bool.and_eq_true, decide_eq_true_eq]
      omega
    have hdrop : (pre ++ [0xE0 + c.toNat / 4096, 0x80 + c.toNat / 64 % 64, 0x80 + c.toNat % 64]).drop
        ((pre ++ [0xE0 + c.toNat / 4096, 0x80 + c.toNat / 64 % 64,
          0x80 + c.toNat % 64]).length - 1 - (1 + 1))
        = [0xE0 + c.toNat / 4096, 0x80 + c.toNat / 64 % 64, 0x80 + c.toNat % 64] := by
      simp
    simp only [DecodeLastRuneInString, List.reverse_append, List.reverse_cons, List.reverse_nil,
      List.nil_append, List.cons_append, backSteps, hr, hr2, if_true, if_false, Bool.false_eq_true]
    rw [if_neg (by omega), hdrop, hd]
    simp
  · rw [he]
    have hd := decode_four c.toNat [] h1 h2
    have hr : RuneStart (0xF0 + c.toNat / 262144) = true := by
      simp only [RuneStart, Bool.not_eq_true', Bool.and_eq_false_imp, decide_eq_true_eq,
        decide_eq_false_iff_not]
      omega
    have hr2 : RuneStart (0x80 + c.toNat / 4096 % 64) = false := by
      simp only [RuneStart, Bool.not_eq_false', Bool.and_eq_true, decide_eq_true_eq]
      omega
    have hr3 : RuneStart (0x80 + c.toNat / 64 % 64) = false := by
      simp only [RuneStart, Bool.not_eq_false', Bool.and_eq_true, decide_eq_true_eq]
      omega
    have hdrop : (pre ++ [0xF0 + c.toNat / 262144, 0x80 + c.toNat / 4096 % 64,
          0x80 + c.toNat / 64 % 64, 0x80 + c.toNat % 64]).drop
        ((pre ++ [0xF0 + c.toNat / 262144, 0x80 + c.toNat / 4096 % 64,
          0x80 + c.toNat / 64 % 64, 0x80 + c.toNat % 64]).length - 1 - (1 + (1 + 1)))
        = [0xF0 + c.toNat / 262144, 0x80 + c.toNat / 4096 % 64,
          0x80 + c.toNat / 64 % 64, 0x80 + c.toNat % 64] := by
      simp
    simp only [DecodeLastRuneInString, List.reverse_append, List.reverse_cons, List.reverse_nil,
      List.nil_append, List.cons_append, backSteps, hr, hr2, hr3, if_true, if_false,
      Bool.false_eq_true]
    rw [if_neg (by omega), hdrop, hd]
    simp

end LnproxyRelay

namespace LnproxyRelay

theorem utf8_nil : utf8 [] = [] := rfl

theorem utf8_cons (c : Char) (t : Str) : utf8 (c :: t) = EncodeRune c ++ utf8 t := by
  simp [utf8]

theorem utf8_append (s t : Str) : utf8 (s ++ t) = utf8 s ++ utf8 t := by
  simp [utf8]

theorem IsSpace_toNat (c : Char) : IsSpace c.toNat = isSpaceRune c := by
  simp [IsSpace, Char.ofNat_toNat]

theorem asciiSpace_toNat (c : Char) (h : c.toNat < 0x80) : asciiSpace c.toNat = isSpaceRune c := by
  unfold asciiSpace isSpaceRune
  simp only []
  rw [if_pos (by omega)]
  have h1 : decide (c.toNat = 0x85) = false := by simp; omega
  have h2 : decide (c.toNat = 0xA0) = false := by simp; omega
  rw [h1, h2]
  simp

/-- The first byte of an encoding: the code point itself, alone, or a byte that is not
ASCII. -/
theorem EncodeRune_head (c : Char) :
    ∃ b tl, EncodeRune c = b :: tl
      ∧ ((b < 0x80 ∧ tl = [] ∧ b = c.toNat) ∨ (0x80 ≤ b ∧ 2 ≤ (EncodeRune c).length)) := by
  rcases EncodeRune_cases c with ⟨h, he⟩ | ⟨h1, h2, he⟩ | ⟨h1, h2, h3, he⟩ | ⟨h1, h2, he⟩
  · exact ⟨_, _, he, Or.inl ⟨h, rfl, rfl⟩⟩
  · exact ⟨_, _, he, Or.inr ⟨by omega, by rw [he]; simp⟩⟩
  · exact ⟨_, _, he, Or.inr ⟨by omega, by rw [he]; simp⟩⟩
  · exact ⟨_, _, he, Or.inr ⟨by omega, by rw [he]; simp⟩⟩

/-- The last byte of an encoding: the code point itself, alone, or a byte that is not
ASCII. -/
theorem EncodeRune_last (c : Char) :
    ∃ init b, EncodeRune c = init ++ [b]
      ∧ ((b < 0x80 ∧ init = [] ∧ b = c.toNat) ∨ 0x80 ≤ b) := by
  rcases EncodeRune_cases c with ⟨h, he⟩ | ⟨h1, h2, he⟩ | ⟨h1, h2, h3, he⟩ | ⟨h1, h2, he⟩
  · exact ⟨[], _, he, Or.inl ⟨h, rfl, rfl⟩⟩
  · exact ⟨[_], _, he, Or.inr (by omega)⟩
  · exact ⟨[_, _], _, he, Or.inr (by omega)⟩
  · exact ⟨[_, _, _], _, he, Or.inr (by omega)⟩

theorem EncodeRune_length_le (c : Char) : (EncodeRune c).length ≤ 4 := by
  rcases EncodeRune_cases c with ⟨h, he⟩ | ⟨h1, h2, he⟩ | ⟨h1, h2, h3, he⟩ | ⟨h1, h2, he⟩ <;>
    rw [he] <;> simp

theorem EncodeRune_ne_nil (c : Char) : EncodeRune c ≠ [] := by
  obtain ⟨b, tl, he, _⟩ := EncodeRune_head c
  rw [he]; simp

theorem length_le_utf8 (t : Str) : t.length ≤ (utf8 t).length := by
  induction t with
  | nil => simp
  | cons c t ih =>
    rw [utf8_cons, List.length_append, List.length_cons]
    have := List.length_pos.mpr (EncodeRune_ne_nil c)
    omega

/-- On the bytes of a text `indexFunc` finds the first rune that is not white space. -/
theorem indexFunc_utf8 (t : Str) (fuel i : Nat) (h : t.length ≤ fuel) :
    indexFunc IsSpace false fuel i (utf8 t)
      = if t.dropWhile isSpaceRune = [] then none
        else some (i + (utf8 (t.takeWhile isSpaceRune)).length) := by
  induction t generalizing fuel i with
  | nil => cases fuel <;> simp [indexFunc, utf8_nil]
  | cons c cs ih =>
    cases fuel with
    | zero => simp at h
    | succ fuel =>
      have hne : utf8 (c :: cs) ≠ [] := by
        rw [utf8_cons]; simp [EncodeRune_ne_nil]
      rw [indexFunc, if_neg hne]
      rw [utf8_cons, DecodeRuneInString_EncodeRune]
      simp only [IsSpace_toNat, List.drop_left]
      by_cases hs : isSpaceRune c = true
      · rw [if_neg (by simp [hs]), ih fuel _ (by simpa using h)]
        simp only [List.dropWhile_cons, List.takeWhile_cons, hs, if_true, utf8_cons,
          List.length_append]
        split <;> simp [Nat.add_assoc]
      · have hs2 : isSpaceRune c = false := by simpa using hs
        rw [if_pos hs2]
        simp [List.dropWhile_cons, List.takeWhile_cons, hs2, utf8_nil]

theorem TrimLeftFunc_utf8 (t : Str) :
    TrimLeftFunc (utf8 t) IsSpace = utf8 (t.dropWhile isSpaceRune) := by
  unfold TrimLeftFunc
  rw [indexFunc_utf8 t _ 0 (length_le_utf8 t)]
  by_cases h : t.dropWhile isSpaceRune = []
  · simp [h, utf8_nil]
  · simp only [h, if_false, Nat.zero_add]
    conv_lhs => rw [← List.takeWhile_append_dropWhile isSpaceRune t, utf8_append]
    simp

/-- On the bytes of a text `lastIndexFunc` finds the last rune that is not white space. -/
theorem lastIndexFunc_utf8 (t : Str) (fuel : Nat) (h : t.length ≤ fuel) :
    lastIndexFunc IsSpace false fuel (utf8 t)
      = match (t.rdropWhile isSpaceRune).getLast? with
        | none => none
        | some c => some ((utf8 (t.rdropWhile isSpaceRune)).length - (EncodeRune c).length) := by
  induction t using List.reverseRecOn generalizing fuel with
  | nil => cases fuel <;> simp [lastIndexFunc, utf8_nil]
  | append_singleton t c ih =>
    cases fuel with
    | zero => simp at h
    | succ fuel =>
      have hu : utf8 (t ++ [c]) = utf8 t ++ EncodeRune c := by
        rw [utf8_append, utf8_cons, utf8_nil, List.append_nil]
      have hne : utf8 (t ++ [c]) ≠ [] := by
        rw [hu]; simp [EncodeRune_ne_nil]
      rw [lastIndexFunc, if_neg hne, hu, DecodeLastRuneInString_EncodeRune]
      simp only [IsSpace_toNat, List.length_append, Nat.add_sub_cancel, List.take_left,
        List.rdropWhile_concat]
      by_cases hs : isSpaceRune c = true
      · rw [if_neg (by simp [hs]), ih fuel (by simpa using h)]
        simp [hs]
      · have hs2 : isSpaceRune c = false := by simpa using hs
        rw [if_pos hs2]
        simp [hs2, hu]

theorem TrimRightFunc_utf8 (t : Str) :
    TrimRightFunc (utf8 t) IsSpace = utf8 (t.rdropWhile isSpaceRune) := by
  unfold TrimRightFunc
  rw [lastIndexFunc_utf8 t _ (length_le_utf8 t)]
  obtain ⟨post, hpost⟩ := List.rdropWhile_prefix isSpaceRune (l := t)
  generalize t.rdropWhile isSpaceRune = r at hpost
  induction r using List.reverseRecOn with
  | nil => simp [utf8_nil]
  | append_singleton r c _ =>
    have hu : utf8 t = utf8 r ++ (EncodeRune c ++ utf8 post) := by
      rw [← hpost, utf8_append, utf8_append, utf8_cons, utf8_nil, List.append_nil,
        List.append_assoc]
    have hr : utf8 (r ++ [c]) = utf8 r ++ EncodeRune c := by
      rw [utf8_append, utf8_cons, utf8_nil, List.append_nil]
    have hl : (r ++ [c]).getLast? = some c := by simp
    rw [hl]
    simp only [hr, List.length_append, Nat.add_sub_cancel]
    rw [hu]
    obtain ⟨b, tl, he, hb⟩ := EncodeRune_head c
    have hget : (utf8 r ++ (EncodeRune c ++ utf8 post)).getD (utf8 r).length 0 = b := by
      rw [he, List.getD_eq_getElem?_getD, List.getElem?_append_right (Nat.le_refl _)]
      simp
    rw [hget, List.drop_left, DecodeRuneInString_EncodeRune]
    rcases hb with ⟨hlt, htl, _⟩ | ⟨hge, _⟩
    · rw [if_neg (by omega), he, htl]
      simp [List.take_append_eq_append_take]
    · rw [if_pos hge]
      simp only [List.take_append_eq_append_take, List.take_left]
      simp [List.take_of_length_le]

theorem trimSpaceStop_utf8 (t : Str) :
    Wire.trimSpaceStop (utf8 t).reverse = utf8 (t.rdropWhile isSpaceRune) := by
  induction t using List.reverseRecOn with
  | nil => simp [utf8_nil, Wire.trimSpaceStop]
  | append_singleton t c ih =>
    have hu : utf8 (t ++ [c]) = utf8 t ++ EncodeRune c := by
      rw [utf8_append, utf8_cons, utf8_nil, List.append_nil]
    obtain ⟨init, b, he, hb⟩ := EncodeRune_last c
    have hrev : (utf8 (t ++ [c])).reverse = b :: (init.reverse ++ (utf8 t).reverse) := by
      rw [hu, he]; simp
    have hback : (b :: (init.reverse ++ (utf8 t).reverse)).reverse = utf8 (t ++ [c]) := by
      rw [← hrev, List.reverse_reverse]
    rw [hrev, Wire.trimSpaceStop]
    rcases hb with ⟨hlt, hinit, hbn⟩ | hge
    · rw [if_neg (by omega)]
      have hsp : asciiSpace b = isSpaceRune c := by
        rw [hbn]; exact asciiSpace_toNat c (by omega)
      rw [hsp, hinit]
      simp only [List.reverse_nil, List.nil_append, List.rdropWhile_concat]
      by_cases hs : isSpaceRune c = true
      · rw [if_pos hs, ih]; simp [hs]
      · have hs2 : isSpaceRune c = false := by simpa using hs
        rw [hs2]
        simp only [Bool.false_eq_true, if_false]
        rw [hinit] at hback
        simpa using hback
    · rw [if_pos hge, hback, TrimRightFunc_utf8]

/-- On the bytes of a text `strings.TrimSpace` cuts the white-space runes off both ends. -/
theorem TrimSpace_utf8 (t : Str) : Wire.TrimSpace (utf8 t) = utf8 (TrimSpace t) := by
  have hT : ∀ s : Str, TrimSpace s = (s.dropWhile isSpaceRune).rdropWhile isSpaceRune :=
    fun _ => rfl
  induction t with
  | nil => simp [utf8_nil, Wire.TrimSpace, TrimSpace]
  | cons c cs ih =>
    obtain ⟨b, tl, he, hb⟩ := EncodeRune_head c
    have hu : utf8 (c :: cs) = b :: (tl ++ utf8 cs) := by
      rw [utf8_cons, he]; simp
    rw [hu, Wire.TrimSpace, ← hu]
    rcases hb with ⟨hlt, htl, hbn⟩ | ⟨hge, _⟩
    · rw [if_neg (by omega)]
      have hsp : asciiSpace b = isSpaceRune c := by
        rw [hbn]; exact asciiSpace_toNat c (by omega)
      rw [hsp]
      by_cases hs : isSpaceRune c = true
      · rw [if_pos hs, htl, List.nil_append, ih, hT, hT]
        simp [List.dropWhile_cons, hs]
      · have hs2 : isSpaceRune c = false := by simpa using hs
        rw [if_neg hs, trimSpaceStop_utf8, hT]
        simp [List.dropWhile_cons, hs2]
    · rw [if_pos hge, TrimFunc, TrimLeftFunc_utf8, TrimRightFunc_utf8, hT]

end LnproxyRelay

namespace LnproxyRelay

theorem DecodeRuneInString_take4 (c : Char) (rest : Bytes) :
    DecodeRuneInString ((EncodeRune c ++ rest).take 4) = (c.toNat, (EncodeRune c).length) := by
  have h := EncodeRune_length_le c
  rw [List.take_append_eq_append_take, List.take_of_length_le h, DecodeRuneInString_EncodeRune]

/-- On the bytes of a text the loop of `appendString` writes what the text-level
`appendChar` writes for each of its code points. -/
theorem appendLoop_utf8 (t : Str) (fuel : Nat) (h : t.length ≤ fuel) :
    Wire.appendLoop fuel (utf8 t) = t.flatMap appendChar := by
  induction t generalizing fuel with
  | nil => cases fuel <;> simp [Wire.appendLoop, utf8_nil]
  | cons c cs ih =>
    cases fuel with
    | zero => simp at h
    | succ fuel =>
      have hf : cs.length ≤ fuel := by simpa using h
      obtain ⟨b, tl, he, hb⟩ := EncodeRune_head c
      have hu : utf8 (c :: cs) = b :: (tl ++ utf8 cs) := by
        rw [utf8_cons, he]; simp
      have hd : DecodeRuneInString ((b :: (tl ++ utf8 cs)).take 4)
          = (c.toNat, (EncodeRune c).length) := by
        rw [← List.cons_append, ← he]
        exact DecodeRuneInString_take4 c (utf8 cs)
      rw [hu, Wire.appendLoop]
      rcases hb with ⟨hlt, htl, hbn⟩ | ⟨hge, hlen⟩
      · rw [if_pos hlt, htl, List.nil_append, ih fuel hf, hbn, Char.ofNat_toNat]
        simp
      · rw [if_neg (by omega)]
        rw [hd]
        simp only []
        rw [if_neg (fun hh => by omega), Char.ofNat_toNat]
        have hdrop : (b :: (tl ++ utf8 cs)).drop (EncodeRune c).length = utf8 cs := by
          rw [← List.cons_append, ← he, List.drop_left]
        rw [hdrop, ih fuel hf]
        simp

theorem appendString_utf8 (t : Str) : Wire.appendString (utf8 t) = appendString t := by
  unfold Wire.appendString appendString
  rw [appendLoop_utf8 t _ (length_le_utf8 t)]

/-- The text-level encoder is the byte-level one on the bytes of the text. -/
theorem Encode_utf8 (fields : JsonFields) :
    Wire.Encode (fields.map (fun kv => (utf8 kv.1, utf8 kv.2))) = Encode fields := by
  have h : ∀ fs : JsonFields,
      Wire.encodeMembers (fs.map (fun kv => (utf8 kv.1, utf8 kv.2))) = encodeMembers fs := by
    intro fs
    induction fs with
    | nil => rfl
    | cons kv rest ih =>
      obtain ⟨k, v⟩ := kv
      cases rest with
      | nil => simp [Wire.encodeMembers, encodeMembers, appendString_utf8]
      | cons kv2 rest2 =>
        simp only [List.map_cons] at ih ⊢
        simp [Wire.encodeMembers, encodeMembers, ih, appendString_utf8]
  unfold Wire.Encode Encode
  rw [h]

/-- The handler on text is the handler on bytes, at the bytes of the text: the text-level
model is the byte-level one restricted to strings that are well-formed UTF-8. -/
theorem specApiHandler_utf8 {P : Type} (codec : StructCodec P)
    (OpenCircuit : P → Str × Option RelayError) (body : Str) :
    Wire.specApiHandler codec
        (fun x => (utf8 (OpenCircuit x).1,
          (OpenCircuit x).2.map (fun e => { text := utf8 e.text, clientFacing := e.clientFacing })))
        body
      = specApiHandler codec OpenCircuit body := by
  have hE : ∀ reason : Str, Wire.Encode (Wire.makeJsonError (utf8 reason)).fields
      = Encode (makeJsonError reason).fields := by
    intro reason
    rw [← Encode_utf8]
    rfl
  have hW : ∀ inv : Str, Wire.Encode (Wire.wrappedInvoiceFields (utf8 inv))
      = Encode (wrappedInvoiceFields inv) := by
    intro inv
    rw [← Encode_utf8]
    rfl
  unfold Wire.specApiHandler specApiHandler
  cases hdec : Decode codec body with
  | error e => simp only [hE]
  | ok x =>
    rcases hoc : OpenCircuit x with ⟨inv, err⟩
    cases err with
    | none => simp only [hoc, Option.map_none', hW]
    | some e =>
      by_cases hc : e.clientFacing = true
      · simp only [hoc, Option.map_some', hc, if_true, TrimSpace_utf8, hE]
      · simp only [hoc, Option.map_some', hc, if_false, hE, Bool.false_eq_true]

end LnproxyRelay

namespace LnproxyRelay

/-! ## The bounds on the loops over bytes are enough -/

/-- A rune read off a string that is not empty takes at least one byte. -/
theorem DecodeRuneInString_size_pos (s : Bytes) (h : s ≠ []) : 1 ≤ (DecodeRuneInString s).2 := by
  unfold DecodeRuneInString
  cases s with
  | nil => exact absurd rfl h
  | cons s0 rest =>
    simp only
    repeat' split
    all_goals simp

/-- A rune read off the end of a string that is not empty takes at least one byte. -/
theorem DecodeLastRuneInString_size_pos (s : Bytes) (h : s ≠ []) :
    1 ≤ (DecodeLastRuneInString s).2 := by
  unfold DecodeLastRuneInString
  split
  · rename_i hr
    exact absurd (List.reverse_eq_nil_iff.mp hr) h
  · rename_i last before hr
    have hlen : s.length = before.length + 1 := by
      have := congrArg List.length hr
      simpa using this
    split
    · simp
    · simp only []
      split
      · simp
      · apply DecodeRuneInString_size_pos
        intro hd
        have := congrArg List.length hd
        simp only [List.length_drop, List.length_nil] at this
        omega

/-- The function `indexFunc` gives the same result for every bound that is at least the length of the string. -/
theorem indexFunc_fuel (f : Nat → Bool) (truth : Bool) (n m i : Nat) (s : Bytes)
    (hn : s.length ≤ n) (hm : s.length ≤ m) :
    indexFunc f truth n i s = indexFunc f truth m i s := by
  induction n generalizing m i s with
  | zero =>
    have hs : s = [] := List.length_eq_zero.mp (by omega)
    subst hs
    cases m <;> simp [indexFunc]
  | succ n ih =>
    cases m with
    | zero =>
      have hs : s = [] := List.length_eq_zero.mp (by omega)
      subst hs
      simp [indexFunc]
    | succ m =>
      rw [indexFunc, indexFunc]
      by_cases hs : s = []
      · rw [if_pos hs, if_pos hs]
      · rw [if_neg hs, if_neg hs]
        have hpos := DecodeRuneInString_size_pos s hs
        have hl : 0 < s.length := List.length_pos.mpr hs
        split
        · rfl
        · apply ih
          · rw [List.length_drop]; omega
          · rw [List.length_drop]; omega

/-- The function `lastIndexFunc` gives the same result for every bound that is at least the length of the
string. -/
theorem lastIndexFunc_fuel (f : Nat → Bool) (truth : Bool) (n m : Nat) (s : Bytes)
    (hn : s.length ≤ n) (hm : s.length ≤ m) :
    lastIndexFunc f truth n s = lastIndexFunc f truth m s := by
  induction n generalizing m s with
  | zero =>
    have hs : s = [] := List.length_eq_zero.mp (by omega)
    subst hs
    cases m <;> simp [lastIndexFunc]
  | succ n ih =>
    cases m with
    | zero =>
      have hs : s = [] := List.length_eq_zero.mp (by omega)
      subst hs
      simp [lastIndexFunc]
    | succ m =>
      rw [lastIndexFunc, lastIndexFunc]
      by_cases hs : s = []
      · rw [if_pos hs, if_pos hs]
      · rw [if_neg hs, if_neg hs]
        have hpos := DecodeLastRuneInString_size_pos s hs
        have hl : 0 < s.length := List.length_pos.mpr hs
        split
        · rfl
        · apply ih
          · rw [List.length_take]; omega
          · rw [List.length_take]; omega

/-- The loop of `appendString` gives the same result for every bound that is at least the length of the
string. -/
theorem appendLoop_fuel (n m : Nat) (s : Bytes) (hn : s.length ≤ n) (hm : s.length ≤ m) :
    Wire.appendLoop n s = Wire.appendLoop m s := by
  induction n generalizing m s with
  | zero =>
    have hs : s = [] := List.length_eq_zero.mp (by omega)
    subst hs
    cases m <;> simp [Wire.appendLoop]
  | succ n ih =>
    cases m with
    | zero =>
      have hs : s = [] := List.length_eq_zero.mp (by omega)
      subst hs
      simp [Wire.appendLoop]
    | succ m =>
      cases s with
      | nil => simp [Wire.appendLoop]
      | cons b rest =>
        simp only [List.length_cons] at hn hm
        rw [Wire.appendLoop, Wire.appendLoop]
        have hpos : 1 ≤ (DecodeRuneInString ((b :: rest).take 4)).2 :=
          DecodeRuneInString_size_pos _ (by simp)
        have hrest := ih m rest (by omega) (by omega)
        have hdrop := ih m ((b :: rest).drop (DecodeRuneInString ((b :: rest).take 4)).2)
          (by rw [List.length_drop, List.length_cons]; omega)
          (by rw [List.length_drop, List.length_cons]; omega)
        rw [hrest, hdrop]

end LnproxyRelay

namespace LnproxyRelay

/-! ## Claims about the request handler -/

/-- C1. Internal errors are masked: when the body decodes and `OpenCircuit` returns an
error that is not client facing, the body written is exactly the JSON object
`\x7b"status":"ERROR","reason":"internal error"\x7d` (followed by the newline of `Encode`),
whatever the text of the error and whatever invoice comes with it; a second run that
differs only in that text and that invoice writes the same bytes. -/
theorem internal_error_masked {P : Type} (codec : StructCodec P)
    (OpenCircuit OpenCircuit2 : P → Str × Option RelayError) (body : Str) (x : P)
    (invoice invoice2 : Str) (e e2 : RelayError)
    (hdec : Decode codec body = Except.ok x)
    (hoc : OpenCircuit x = (invoice, some e)) (he : e.clientFacing = false)
    (hoc2 : OpenCircuit2 x = (invoice2, some e2)) (he2 : e2.clientFacing = false) :
    (specApiHandler codec OpenCircuit body).body
        = "\x7b\"status\":\"ERROR\",\"reason\":\"internal error\"\x7d\n".toList
      ∧ readMembers (specApiHandler codec OpenCircuit body).body
        = some [("status".toList, "ERROR".toList), ("reason".toList, "internal error".toList)]
      ∧ (specApiHandler codec OpenCircuit2 body).body
        = (specApiHandler codec OpenCircuit body).body := by
  have h1 := (specApiHandler_of_decode_ok codec OpenCircuit body x hdec).2
  have h2 := (specApiHandler_of_decode_ok codec OpenCircuit2 body x hdec).2
  rw [hoc] at h1
  rw [hoc2] at h2
  simp only [he, he2, Bool.false_eq_true, if_false] at h1 h2
  have henc : Encode (makeJsonError "internal error".toList).fields
      = "\x7b\"status\":\"ERROR\",\"reason\":\"internal error\"\x7d\n".toList := by decide
  refine ⟨by rw [h1, henc], ?_, by rw [h1, h2]⟩
  rw [h1]
  exact readMembers_Encode _ (by simp [JsonError.fields])

/-- C2, amended. Client-facing errors are echoed modulo trimming where the error text is
well-formed UTF-8: when the body decodes and `OpenCircuit` returns a client-facing error
whose `Error()` string is the UTF-8 encoding of a text `t`, the body written is the JSON
object with status `ERROR` and a reason that reads back as `TrimSpace t`; that is `t`
without a prefix and a suffix of white space, neither starting nor ending with white
space, and its bytes are what `strings.TrimSpace` returns. -/
theorem client_facing_error_echoed {P : Type} (codec : StructCodec P)
    (OpenCircuit : P → Bytes × Option Wire.RelayError) (body : Str) (x : P) (invoice : Bytes)
    (e : Wire.RelayError) (t : Str) (hdec : Decode codec body = Except.ok x)
    (hoc : OpenCircuit x = (invoice, some e)) (he : e.clientFacing = true)
    (ht : e.text = utf8 t) :
    (Wire.specApiHandler codec OpenCircuit body).body
        = "\x7b\"status\":\"ERROR\",\"reason\":".toList ++ appendString (TrimSpace t)
            ++ "\x7d\n".toList
      ∧ readMembers (Wire.specApiHandler codec OpenCircuit body).body
        = some [("status".toList, "ERROR".toList), ("reason".toList, TrimSpace t)]
      ∧ Wire.TrimSpace e.text = utf8 (TrimSpace t)
      ∧ ∃ pre post, t = pre ++ TrimSpace t ++ post
          ∧ (∀ c ∈ pre, isSpaceRune c = true) ∧ (∀ c ∈ post, isSpaceRune c = true)
          ∧ (∀ c, (TrimSpace t).head? = some c → isSpaceRune c = false)
          ∧ (∀ c, (TrimSpace t).getLast? = some c → isSpaceRune c = false) := by
  have h1 : (Wire.specApiHandler codec OpenCircuit body).body
      = Encode (makeJsonError (TrimSpace t)).fields := by
    have hE : Wire.Encode (Wire.makeJsonError (utf8 (TrimSpace t))).fields
        = Encode (makeJsonError (TrimSpace t)).fields := by
      rw [← Encode_utf8]
      rfl
    simp only [Wire.specApiHandler, hdec, hoc, he, if_true, ht, TrimSpace_utf8, hE]
  refine ⟨by rw [h1, encode_jsonError], ?_, by rw [ht, TrimSpace_utf8], TrimSpace_spec t⟩
  rw [h1]
  exact readMembers_Encode _ (by simp [JsonError.fields])

/-- C2 fails on the code as it is worded, for every error. The `Error()` string of a Go
error is a sequence of bytes. With the client-facing text of the bytes `a0 ff`, the
ASCII text ` amount ` and the byte `85`, none of the three bytes being part of a
UTF-8 encoding, `strings.TrimSpace` cuts nothing off, and the encoder writes `\ufffd`
for each of the three: the reason reads back as U+FFFD U+FFFD, ` amount `, U+FFFD, whose
bytes are no part of the error text. -/
theorem client_facing_error_text_altered :
    Wire.TrimSpace ([0xA0, 0xFF] ++ utf8 " amount ".toList ++ [0x85])
        = [0xA0, 0xFF] ++ utf8 " amount ".toList ++ [0x85]
      ∧ (Wire.specApiHandler proxyParametersCodec
          (fun _ => ([], some ⟨[0xA0, 0xFF] ++ utf8 " amount ".toList ++ [0x85], true⟩))
          "\x7b\"invoice\":\"lnbc1\"\x7d".toList).body
        = "\x7b\"status\":\"ERROR\",\"reason\":\"\\ufffd\\ufffd amount \\ufffd\"\x7d\n".toList
      ∧ readMembers (Wire.specApiHandler proxyParametersCodec
          (fun _ => ([], some ⟨[0xA0, 0xFF] ++ utf8 " amount ".toList ++ [0x85], true⟩))
          "\x7b\"invoice\":\"lnbc1\"\x7d".toList).body
        = some [("status".toList, "ERROR".toList),
            ("reason".toList,
              [Char.ofNat 0xFFFD, Char.ofNat 0xFFFD] ++ " amount ".toList ++ [Char.ofNat 0xFFFD])]
      ∧ ¬ List.IsInfix
          (utf8 ([Char.ofNat 0xFFFD, Char.ofNat 0xFFFD] ++ " amount ".toList ++ [Char.ofNat 0xFFFD]))
          ([0xA0, 0xFF] ++ utf8 " amount ".toList ++ [0x85]) := by
  refine ⟨by decide, by decide, ?_, by decide⟩
  set_option maxRecDepth 4000 in decide

/-- C3. Exactly one result shape per request: for every body and every behaviour of
`OpenCircuit` the body written reads back as one JSON object whose keys are either
`proxy_invoice` alone or `status` and `reason`; it is `proxy_invoice` exactly when the
body decoded and `OpenCircuit` returned a nil error, and its value is then the invoice
returned. -/
theorem one_result_shape {P : Type} (codec : StructCodec P)
    (OpenCircuit : P → Str × Option RelayError) (body : Str) :
    ∃ fields, (specApiHandler codec OpenCircuit body).body = Encode fields
      ∧ readMembers (specApiHandler codec OpenCircuit body).body = some fields
      ∧ (fields.map Prod.fst = ["proxy_invoice".toList]
          ∨ fields.map Prod.fst = ["status".toList, "reason".toList])
      ∧ (fields.map Prod.fst = ["proxy_invoice".toList]
          ↔ ∃ x, Decode codec body = Except.ok x ∧ (OpenCircuit x).2 = none)
      ∧ (∀ x, Decode codec body = Except.ok x → (OpenCircuit x).2 = none →
          fields = [("proxy_invoice".toList, (OpenCircuit x).1)]) := by
  have hk : "proxy_invoice".toList ≠ "status".toList := by decide
  cases hdec : Decode codec body with
  | error err =>
    have h1 := (specApiHandler_of_decode_error codec OpenCircuit body err hdec).1
    refine ⟨(makeJsonError "bad request".toList).fields, h1, ?_, ?_, ?_, ?_⟩
    · rw [h1]; exact readMembers_Encode _ (by simp [JsonError.fields])
    · right; rfl
    · simp [JsonError.fields, makeJsonError]
    · intro x hx; cases hx
  | ok x =>
    have h1 := (specApiHandler_of_decode_ok codec OpenCircuit body x hdec).2
    cases herr : (OpenCircuit x).2 with
    | none =>
      rw [herr] at h1
      refine ⟨wrappedInvoiceFields (OpenCircuit x).1, h1, ?_, ?_, ?_, ?_⟩
      · rw [h1]; exact readMembers_Encode _ (by simp [wrappedInvoiceFields])
      · left; rfl
      · simp [wrappedInvoiceFields, herr]
      · intro y hy _
        cases hy
        rfl
    | some e =>
      rw [herr] at h1
      by_cases hc : e.clientFacing = true
      · simp only [hc, if_true] at h1
        refine ⟨(makeJsonError (TrimSpace e.text)).fields, h1, ?_, ?_, ?_, ?_⟩
        · rw [h1]; exact readMembers_Encode _ (by simp [JsonError.fields])
        · right; rfl
        · simp [JsonError.fields, makeJsonError, herr]
        · intro y hy hn
          cases hy
          rw [herr] at hn
          cases hn
      · simp only [hc, if_false] at h1
        refine ⟨(makeJsonError "internal error".toList).fields, h1, ?_, ?_, ?_, ?_⟩
        · rw [h1]; exact readMembers_Encode _ (by simp [JsonError.fields])
        · right; rfl
        · simp [JsonError.fields, makeJsonError, herr]
        · intro y hy hn
          cases hy
          rw [herr] at hn
          cases hn

end LnproxyRelay

namespace LnproxyRelay

/-- A closing brace ends a value, is an error, or lies inside a string. -/
theorem stepByte_brace (s : Scanner) :
    (s.stepByte '}').1 = ScanOp.scanEnd ∨ (s.stepByte '}').1 = ScanOp.scanEndObject
      ∨ (s.stepByte '}').1 = ScanOp.scanError
      ∨ ((s.stepByte '}').1 = ScanOp.scanContinue
          ∧ ((s.stepByte '}').2.stepByte ' ').1 = ScanOp.scanContinue) := by
  obtain ⟨step, ps⟩ := s
  have hs : isSpaceJson '}' = false := by decide
  have hd : isDigit '}' = false := by decide
  have hh : isHexChar '}' = false := by decide
  cases step <;> rcases ps with _ | ⟨p, ps⟩ <;> try cases p
  all_goals
    simp [Scanner.stepByte, Scanner.stateBeginValue, Scanner.stateBeginValueOrEmpty,
      Scanner.stateBeginStringOrEmpty, Scanner.stateBeginString, Scanner.stateEndValue,
      Scanner.stateEndTop, Scanner.stateInString, Scanner.stateInStringEsc, Scanner.stateHex,
      Scanner.stateNeg, Scanner.state1, Scanner.state0, Scanner.stateDot, Scanner.stateDot0,
      Scanner.stateE, Scanner.stateESign, Scanner.stateE0, Scanner.stateLetter, Scanner.error,
      hs, hd, hh, isSpaceJson]

/-- After a closing bracket that does not end the top-level value, the end of the stream
does not end it either. -/
theorem stateEndValue_space (s : Scanner) (h : (Scanner.stateEndValue s ' ').1 ≠ ScanOp.scanEnd) :
    ((Scanner.stateEndValue s ' ').2.stepByte ' ').1 ≠ ScanOp.scanEnd := by
  obtain ⟨step, ps⟩ := s
  rcases ps with _ | ⟨p, ps⟩
  · exfalso
    apply h
    simp only [Scanner.stateEndValue, Scanner.stateEndTop]
    split <;> rfl
  · simp [Scanner.stateEndValue, Scanner.stepByte, isSpaceJson]

/-- The first value of a stream that ends in a closing brace was ended by that brace, so
the bytes after it do not matter. -/
theorem readValue_append_of_brace (l : Str) (s : Scanner) (acc suffix : Str)
    (h : readValue s acc (l ++ ['}']) = Except.ok (acc.reverse ++ l ++ ['}'])) :
    readValue s acc (l ++ '}' :: suffix) = Except.ok (acc.reverse ++ l ++ ['}']) := by
  induction l generalizing s acc with
  | nil =>
    simp only [List.nil_append, List.append_nil] at h ⊢
    rw [readValue] at h ⊢
    have hb := stepByte_brace s
    rcases hsb : s.stepByte '}' with ⟨op, s1⟩
    rw [hsb] at h hb
    simp only at hb
    rcases hb with hb | hb | hb | ⟨hb, hb2⟩ <;> subst hb <;> simp only at h ⊢
    · simp at h
    · by_cases hc : (Scanner.stateEndValue s1 ' ').1 = ScanOp.scanEnd
      · simp [hc]
      · exfalso
        simp only [hc, if_false] at h
        rw [readValue] at h
        simp [stateEndValue_space s1 hc] at h
        split at h <;> simp at h
    · simp at h
    · rw [readValue] at h
      simp [hb2] at h
      split at h <;> simp at h
  | cons c cs ih =>
    rw [List.cons_append, readValue] at h ⊢
    rcases hsb : s.stepByte c with ⟨op, s1⟩
    rw [hsb] at h
    have hacc : (c :: acc).reverse ++ cs ++ ['}'] = acc.reverse ++ c :: cs ++ ['}'] := by simp
    cases op <;> simp only at h ⊢
    case scanEnd =>
      have := congrArg (fun r => (r.toOption.map List.length)) h
      simp [Except.toOption] at this
    case scanError => simp at h
    case scanEndObject =>
      by_cases hc : (Scanner.stateEndValue s1 ' ').1 = ScanOp.scanEnd
      · simp only [hc, if_true] at h
        have := congrArg (fun r => (r.toOption.map List.length)) h
        simp [Except.toOption] at this
      · simp only [hc, if_false] at h ⊢
        rw [← hacc] at h ⊢
        exact ih _ _ h
    case scanEndArray =>
      by_cases hc : (Scanner.stateEndValue s1 ' ').1 = ScanOp.scanEnd
      · simp only [hc, if_true] at h
        have := congrArg (fun r => (r.toOption.map List.length)) h
        simp [Except.toOption] at this
      · simp only [hc, if_false] at h ⊢
        rw [← hacc] at h ⊢
        exact ih _ _ h
    all_goals
      rw [← hacc] at h ⊢
      exact ih _ _ h

end LnproxyRelay

namespace LnproxyRelay

/-- C4, as the code has it. A body whose first JSON value does not decode is answered with
`\x7b"status":"ERROR","reason":"bad request"\x7d` and without a call of `OpenCircuit`, and
only such a body is: a body that decodes leads to exactly one call. The empty body, a
truncated body and text that is not JSON do not decode, whatever the struct. What follows
a top-level object is not read, and a member whose key selects no field is skipped. -/
theorem undecodable_body_rejected {P : Type} (codec : StructCodec P)
    (OpenCircuit : P → Str × Option RelayError) (body : Str) :
    (∀ e, Decode codec body = Except.error e →
        (specApiHandler codec OpenCircuit body).body
            = "\x7b\"status\":\"ERROR\",\"reason\":\"bad request\"\x7d\n".toList
          ∧ (specApiHandler codec OpenCircuit body).calls = [])
      ∧ (∀ x, Decode codec body = Except.ok x →
          (specApiHandler codec OpenCircuit body).calls = [x])
      ∧ Decode codec [] = Except.error DecodeError.eof
      ∧ Decode codec "\x7b\"invoice\":\"lnbc1".toList = Except.error DecodeError.unexpectedEOF
      ∧ Decode codec "lnbc1, please".toList = Except.error DecodeError.syntaxError
      ∧ (∀ l suffix, readValue Scanner.reset [] (l ++ ['}']) = Except.ok (l ++ ['}']) →
          Decode codec (l ++ '}' :: suffix) = Decode codec (l ++ ['}']))
      ∧ (∀ p k v key rest, unquote k = some key → codec.lookup key = none →
          storeMembers codec p ((k, v) :: rest) = storeMembers codec p rest) := by
  refine ⟨?_, ?_, ?_, ?_, ?_, ?_, ?_⟩
  · intro e he
    have h := specApiHandler_of_decode_error codec OpenCircuit body e he
    refine ⟨?_, h.2⟩
    rw [h.1]
    decide
  · intro x hx
    exact (specApiHandler_of_decode_ok codec OpenCircuit body x hx).1
  · have h : readValue Scanner.reset [] [] = Except.error DecodeError.eof := by decide
    simp [Decode, h]
  · have h : readValue Scanner.reset [] "\x7b\"invoice\":\"lnbc1".toList
        = Except.error DecodeError.unexpectedEOF := by decide
    simp only [Decode, h]
  · have h : readValue Scanner.reset [] "lnbc1, please".toList
        = Except.error DecodeError.syntaxError := by decide
    simp only [Decode, h]
  · intro l suffix h
    have h2 := readValue_append_of_brace l Scanner.reset [] suffix (by simpa using h)
    simp only [List.reverse_nil, List.nil_append] at h2
    simp only [Decode, h, h2]
  · intro p k v key rest hk hl
    simp [storeMembers, hk, hl]

/-- C4, as the spec has it, fails. The body `\x7b\x7d, and no JSON` is a JSON value followed
by text that is not JSON, and the body `\x7b"memo":1,"invoice":"lnbc1"\x7d` has a key that
names no field of `ProxyParameters`; both decode, `OpenCircuit` is called, and the
answer is the invoice it returns. -/
theorem malformed_body_accepted :
    (specApiHandler proxyParametersCodec (fun _ => ("lnbc1p".toList, none))
        "\x7b\x7d, and no JSON".toList).body = "\x7b\"proxy_invoice\":\"lnbc1p\"\x7d\n".toList
      ∧ (specApiHandler proxyParametersCodec (fun _ => ("lnbc1p".toList, none))
        "\x7b\x7d, and no JSON".toList).calls = [{ Invoice := [] }]
      ∧ readValue Scanner.reset [] ", and no JSON".toList
        = Except.error DecodeError.syntaxError
      ∧ (specApiHandler proxyParametersCodec (fun _ => ("lnbc1p".toList, none))
        "\x7b\"memo\":1,\"invoice\":\"lnbc1\"\x7d".toList).body
          = "\x7b\"proxy_invoice\":\"lnbc1p\"\x7d\n".toList
      ∧ (specApiHandler proxyParametersCodec (fun _ => ("lnbc1p".toList, none))
        "\x7b\"memo\":1,\"invoice\":\"lnbc1\"\x7d".toList).calls
          = [{ Invoice := "lnbc1".toList }] := by
  decide

end LnproxyRelay

namespace LnproxyRelay

/-! ## Claims about the credentials -/

theorem fromHexChar_isSome (c : Char) : (fromHexChar c).isSome = isHexChar c := by
  unfold fromHexChar isHexChar
  by_cases h1 : ('0' ≤ c && c ≤ '9') = true
  · simp [h1]
  · by_cases h2 : ('a' ≤ c && c ≤ 'f') = true
    · simp [h1, h2]
    · by_cases h3 : ('A' ≤ c && c ≤ 'F') = true
      · simp [h1, h2, h3]
      · simp [h1, h2, h3]

/-- The call `hex.DecodeString` succeeds on the valid hexadecimal strings, and only on them, with
the bytes they stand for. -/
theorem hexDecodeString_eq (s : Str) :
    hexDecodeString s = if isHexString s then some (hexValue s) else none := by
  induction s using hexDecodeString.induct with
  | case1 => rfl
  | case2 c => simp [hexDecodeString, isHexString]
  | case3 p q rest a b h1 h2 ih =>
    have hp := fromHexChar_isSome p
    have hq := fromHexChar_isSome q
    cases ha : fromHexChar p with
    | none => simp_all
    | some a1 =>
      cases hb : fromHexChar q with
      | none => simp_all
      | some b1 =>
        rw [ha] at hp
        rw [hb] at hq
        simp only [Option.isSome_some] at hp hq
        rw [hexDecodeString, ha, hb]
        simp only [ih]
        simp only [isHexString, List.length_cons, List.all_cons, ← hp, ← hq, hexValue, ha, hb,
          Option.getD_some, Bool.true_and]
        have : (rest.length + 1 + 1) % 2 = rest.length % 2 := by omega
        simp only [this]
        split <;> simp
  | case4 p q rest hne =>
    rw [hexDecodeString]
    have : isHexString (p :: q :: rest) = false := by
      have hp := fromHexChar_isSome p
      have hq := fromHexChar_isSome q
      cases ha : fromHexChar p with
      | none => rw [ha] at hp; simp [isHexString, ← hp]
      | some a =>
        cases hb : fromHexChar q with
        | none => rw [hb] at hq; simp [isHexString, ← hq]
        | some b => exact absurd hb (hne a b ha)
    rw [this]
    split
    · rename_i a b ha hb
      exact absurd hb (hne a b ha)
    · rfl

end LnproxyRelay

namespace LnproxyRelay

/-- C5. `fileOrBase64OrHex` is the ordered-attempt definition: for every string and every
file system its result is that of `resolveSecret`; a non-empty string that names no
file and is valid hexadecimal yields its hexadecimal decoding, whether it is valid
base64 or not; `abcd` is both and stands for the bytes `ab cd` in hexadecimal, for
`69 b7 1d` in base64. -/
theorem fileOrBase64OrHex_eq_resolveSecret (fs : FileSystem) (s : Str) :
    fileOrBase64OrHex fs s = resolveSecret fs s
      ∧ (s ≠ [] → fs.stat s = false → isHexString s = true →
          fileOrBase64OrHex fs s = Except.ok (some (hexValue s)))
      ∧ isHexString "abcd".toList = true ∧ isStdBase64 "abcd".toList = true
      ∧ hexValue "abcd".toList = [0xab, 0xcd]
      ∧ base64Value "abcd".toList = [0x69, 0xb7, 0x1d] := by
  have key : fileOrBase64OrHex fs s = resolveSecret fs s := by
    unfold fileOrBase64OrHex resolveSecret
    by_cases h1 : s = []
    · simp [h1]
    · simp only [h1, if_false]
      by_cases h2 : fs.stat s = true
      · simp only [h2, if_true]
        cases fs.readFile s <;> rfl
      · simp only [h2, Bool.false_eq_true, if_false]
        rw [hexDecodeString_eq]
        by_cases h3 : isHexString s = true
        · simp [h3]
        · simp only [h3, Bool.false_eq_true, if_false]
          unfold isStdBase64 base64Value
          cases base64DecodeString s <;> simp
  refine ⟨key, ?_, by decide, by decide, by decide, by decide⟩
  intro h1 h2 h3
  rw [key]
  simp [resolveSecret, h1, h2, h3]

/-- C6, as the spec has it, fails. With the flag `-lnd-macaroon` set to `?`, which is not
empty, names no file, is no hexadecimal and no base64 string, the process ends with
status 1, not 2, and without the usage text. -/
theorem unresolvable_macaroon_exit_status_one :
    startup (bareWorld ["-lnd-macaroon".toList, "?".toList]) = Except.error ⟨1, false⟩
      ∧ hexDecodeString "?".toList = none ∧ base64DecodeString "?".toList = none := by
  decide

/-- C6, as the code has it. In every run in which flag parsing succeeds and at least one
flag is set, an unresolvable macaroon value or an unresolvable certificate value ends
the process with exit status 1 and without the usage text, so start-up never reaches the
HTTP server. -/
theorem unresolvable_credential_fatal {F : Type} (w : World F) (f : FlagSet F)
    (hparse : flagParse w = Except.ok f) (hn : f.NFlag ≠ 0)
    (hbad : Unresolvable w.fs f.vars.lndMacaroon ∨ Unresolvable w.fs f.vars.lndCert) :
    startup w = Except.error ⟨1, false⟩ := by
  have hfatal : ∀ v, Unresolvable w.fs v → fileOrBase64OrHex w.fs v = Except.error ⟨1, false⟩ := by
    intro v hv
    obtain ⟨h1, h2, h3, h4⟩ := hv
    simp [fileOrBase64OrHex, h1, h2, h3, h4, logFatalln]
  have hexit : ∀ v e, fileOrBase64OrHex w.fs v = Except.error e → e = ⟨1, false⟩ := by
    intro v e he
    unfold fileOrBase64OrHex at he
    split at he
    · cases he
    · split at he
      · split at he
        · simpa [logFatalln] using he.symm
        · cases he
      · split at he
        · cases he
        · split at he
          · cases he
          · simpa [logFatalln] using he.symm
  unfold startup
  simp only [hparse, hn, if_false]
  rcases hbad with hbad | hbad
  · rw [hfatal _ hbad]
  · cases hm : fileOrBase64OrHex w.fs f.vars.lndMacaroon with
    | error e => rw [hexit _ e hm]
    | ok mb =>
      cases mb with
      | none => rfl
      | some b =>
        simp only
        split
        · rfl
        · rw [hfatal _ hbad]

/-- C7 fails on the code. With the macaroon value set to a line feed, which names no file
and which `base64.StdEncoding` decodes to the empty slice, and again with a macaroon
that names an existing empty file, start-up does not abort and the macaroon handed to
the backend is the empty string. -/
theorem empty_macaroon_accepted :
    (startup (bareWorld ["-lnd-macaroon".toList, "\n".toList, "-lnd-cert".toList, []])).map
        (fun cfg => cfg.lnd.Macaroon) = Except.ok []
      ∧ base64DecodeString "\n".toList = some []
      ∧ (startup
          { bareWorld ["-lnd-macaroon".toList, "empty.macaroon".toList, "-lnd-cert".toList, []]
            with fs := { stat := fun name => name = "empty.macaroon".toList,
                         readFile := fun _ => some [] } }).map
        (fun cfg => cfg.lnd.Macaroon) = Except.ok [] := by
  decide

end LnproxyRelay

namespace LnproxyRelay

/-! ## Claims about the configuration -/

theorem digitVal_of_isDigit (c : Char) (h : isDigit c = true) :
    digitVal c = some (c.toNat - '0'.toNat) ∧ c.toNat - '0'.toNat < 10 := by
  simp only [isDigit, Bool.and_eq_true, decide_eq_true_eq] at h
  have h1 : '0'.toNat ≤ c.toNat := h.1
  have h2 : c.toNat ≤ '9'.toNat := h.2
  have e0 : '0'.toNat = 48 := by decide
  have e9 : '9'.toNat = 57 := by decide
  refine ⟨?_, by omega⟩
  simp [digitVal, h.1, h.2]

theorem digitVal_ge_ten (c : Char) (h : isDigit c = false) (d : Nat) (hd : digitVal c = some d) :
    10 ≤ d := by
  unfold digitVal at hd
  have h' : ('0' ≤ c && c ≤ '9') = false := h
  simp only [h', Bool.false_eq_true, if_false] at hd
  split at hd
  · simp only [Option.some.injEq] at hd; omega
  · split at hd
    · simp only [Option.some.injEq] at hd; omega
    · cases hd

theorem le_decimalValue (s : Str) (n : Nat) : n ≤ decimalValue n s := by
  induction s generalizing n with
  | nil => simp [decimalValue]
  | cons c cs ih =>
    simp only [decimalValue, List.foldl_cons]
    have := ih (n * 10 + (c.toNat - '0'.toNat))
    simp only [decimalValue] at this
    omega

/-- The digit loop of `ParseUint` in base 10 accepts the digit strings whose value fits
64 bits. -/
theorem parseUintLoop_ten (s : Str) (n : Nat) (hn : n < 2 ^ 64) :
    parseUintLoop 10 false n s
      = if s.all isDigit && decide (decimalValue n s < 2 ^ 64) then some (decimalValue n s)
        else none := by
  induction s generalizing n with
  | nil =>
    have hn' : n < 18446744073709551616 := by omega
    simp [parseUintLoop, decimalValue, hn']
  | cons c cs ih =>
    rw [parseUintLoop]
    simp only [Bool.and_false, Bool.false_eq_true, if_false]
    by_cases hc : isDigit c = true
    · obtain ⟨hd, hlt⟩ := digitVal_of_isDigit c hc
      rw [hd]
      simp only
      have hge : ¬ (c.toNat - '0'.toNat ≥ 10) := by omega
      simp only [hge, if_false]
      have hstep : decimalValue n (c :: cs) = decimalValue (n * 10 + (c.toNat - '0'.toNat)) cs := by
        simp [decimalValue]
      have hmono := le_decimalValue cs (n * 10 + (c.toNat - '0'.toNat))
      by_cases hbig : n * 10 + (c.toNat - '0'.toNat) < 2 ^ 64
      · have hcut : ¬ (n ≥ maxUint64 / 10 + 1) := by
          simp only [maxUint64]; omega
        have hmod : (n * 10 + (c.toNat - '0'.toNat)) % 2 ^ 64 = n * 10 + (c.toNat - '0'.toNat) :=
          Nat.mod_eq_of_lt hbig
        simp only [hcut, if_false, hmod]
        have h1 : ¬ (n * 10 + (c.toNat - '0'.toNat) < n * 10) := by omega
        have h2 : ¬ (n * 10 + (c.toNat - '0'.toNat) > maxUint64) := by
          simp only [maxUint64]; omega
        simp only [h1, h2, or_self, if_false]
        rw [ih _ hbig, hstep]
        simp [hc]
      · have hfinal : ¬ (decimalValue n (c :: cs) < 2 ^ 64) := by rw [hstep]; omega
        have hres : (if ((c :: cs).all isDigit && decide (decimalValue n (c :: cs) < 2 ^ 64)) = true
            then some (decimalValue n (c :: cs)) else none) = none := by
          apply if_neg
          simp only [Bool.and_eq_true, decide_eq_true_eq]
          exact fun h => hfinal h.2
        rw [hres]
        by_cases hcut : n ≥ maxUint64 / 10 + 1
        · simp [hcut]
        · simp only [hcut, if_false]
          have h3 : (n * 10 + (c.toNat - '0'.toNat)) % 2 ^ 64 < n * 10 := by
            simp only [maxUint64] at hcut
            have hlt2 : n * 10 + (c.toNat - '0'.toNat) < 2 ^ 64 + 2 ^ 64 := by omega
            have : (n * 10 + (c.toNat - '0'.toNat)) % 2 ^ 64
                = n * 10 + (c.toNat - '0'.toNat) - 2 ^ 64 := by
              rw [Nat.mod_eq_sub_mod (by omega), Nat.mod_eq_of_lt (by omega)]
            omega
          simp only [h3, decide_True, Bool.true_or, if_true]
    · have hc' : isDigit c = false := by simpa using hc
      have hres : (if ((c :: cs).all isDigit && decide (decimalValue n (c :: cs) < 2 ^ 64)) = true
          then some (decimalValue n (c :: cs)) else none) = none := by
        simp [hc']
      rw [hres]
      cases hd : digitVal c with
      | none => rfl
      | some d =>
        have := digitVal_ge_ten c hc' d hd
        simp [this]

/-- The call `strconv.ParseUint(s, 10, 64)` succeeds exactly on the base-10 unsigned 64-bit
integers, with their value. -/
theorem ParseUint_ten (s : Str) :
    ParseUint s 10 = if isUint64Decimal s then some (decimalValue 0 s) else none := by
  unfold ParseUint isUint64Decimal
  by_cases h : s = []
  · simp [h]
  · simp only [h, if_false]
    have : (10 : Nat) ≠ 0 := by decide
    simp only [this, if_false]
    rw [parseUintLoop_ten s 0 (by decide)]
    cases s with
    | nil => exact absurd rfl h
    | cons c cs => simp [Bool.and_assoc]

end LnproxyRelay

namespace LnproxyRelay

theorem ofFlagName_flagName (fld : PolicyField) :
    PolicyField.ofFlagName fld.flagName = some fld := by
  cases fld <;> decide

theorem flagName_of_ofFlagName (name : Str) (g : PolicyField)
    (h : PolicyField.ofFlagName name = some g) : g.flagName = name := by
  unfold PolicyField.ofFlagName at h
  have := List.find?_some h
  simpa using this

theorem flagName_injective (g fld : PolicyField) (h : g.flagName = fld.flagName) : g = fld := by
  have h1 := ofFlagName_flagName g
  rw [h, ofFlagName_flagName] at h1
  exact (Option.some.inj h1).symm

theorem get_set_same {F : Type} (p : RelayParameters F) (fld : PolicyField) (n : Nat) :
    (p.set fld n).get fld = n := by
  cases fld <;> rfl

theorem get_set_other {F : Type} (p : RelayParameters F) (g fld : PolicyField) (n : Nat)
    (h : g ≠ fld) : (p.set g n).get fld = p.get fld := by
  cases g <;> cases fld <;> first | rfl | exact absurd rfl h

theorem float_set {F : Type} (p : RelayParameters F) (g : PolicyField) (n : Nat) :
    (p.set g n).PaymentTimePreference = p.PaymentTimePreference := by
  cases g <;> rfl

theorem flagName_ne_special (fld : PolicyField) :
    fld.flagName ≠ "listen".toList ∧ fld.flagName ≠ "lnd".toList
      ∧ fld.flagName ≠ "lnd-cert".toList ∧ fld.flagName ≠ "lnd-macaroon".toList
      ∧ fld.flagName ≠ "payment-time-preference".toList := by
  cases fld <;> decide

theorem ofFlagName_float : PolicyField.ofFlagName "payment-time-preference".toList = none := by
  decide

theorem lastValue_cons (name v : Str) (h : List (Str × Str)) (n : Str) :
    lastValue ((name, v) :: h) n = if name = n then some v else lastValue h n := by
  unfold lastValue
  by_cases hn : name = n
  · simp [hn]
  · simp [List.find?_cons, hn]

/-- What a successful `Value.Set` changes: the field of the flag, and nothing else. -/
theorem FlagVars.set_spec {F : Type} (parseFloat : Str → Option F) (v vars : FlagVars F)
    (name value : Str) (h : v.set parseFloat name value = some vars) :
    (∀ fld : PolicyField,
        (fld.flagName = name → ParseUint value 0 = some (vars.params.get fld))
          ∧ (fld.flagName ≠ name → vars.params.get fld = v.params.get fld))
      ∧ (name = "payment-time-preference".toList →
          parseFloat value = some vars.params.PaymentTimePreference)
      ∧ (name ≠ "payment-time-preference".toList →
          vars.params.PaymentTimePreference = v.params.PaymentTimePreference) := by
  unfold FlagVars.set at h
  split at h
  · rename_i h1
    cases h
    refine ⟨fun fld => ⟨fun hf => absurd (hf.trans h1) (flagName_ne_special fld).1, fun _ => rfl⟩,
      fun hn => absurd (h1.symm.trans hn) (by decide), fun _ => rfl⟩
  · split at h
    · rename_i h1
      cases h
      refine ⟨fun fld => ⟨fun hf => absurd (hf.trans h1) (flagName_ne_special fld).2.1,
        fun _ => rfl⟩, fun hn => absurd (h1.symm.trans hn) (by decide), fun _ => rfl⟩
    · split at h
      · rename_i h1
        cases h
        refine ⟨fun fld => ⟨fun hf => absurd (hf.trans h1) (flagName_ne_special fld).2.2.1,
          fun _ => rfl⟩, fun hn => absurd (h1.symm.trans hn) (by decide), fun _ => rfl⟩
      · split at h
        · rename_i h1
          cases h
          refine ⟨fun fld => ⟨fun hf => absurd (hf.trans h1) (flagName_ne_special fld).2.2.2.1,
            fun _ => rfl⟩, fun hn => absurd (h1.symm.trans hn) (by decide), fun _ => rfl⟩
        · split at h
          · rename_i h1
            cases hp : parseFloat value with
            | none => rw [hp] at h; cases h
            | some x =>
              rw [hp] at h
              cases h
              refine ⟨fun fld => ⟨fun hf => absurd (hf.trans h1) (flagName_ne_special fld).2.2.2.2,
                fun _ => ?_⟩, fun _ => rfl, fun hn => absurd h1 hn⟩
              cases fld <;> rfl
          · rename_i h1
            split at h
            · rename_i g hg
              have hgn := flagName_of_ofFlagName name g hg
              cases hp : ParseUint value 0 with
              | none => rw [hp] at h; cases h
              | some n =>
                rw [hp] at h
                cases h
                refine ⟨fun fld => ⟨fun hf => ?_, fun hf => ?_⟩, fun hn => absurd hn h1,
                  fun _ => float_set _ _ _⟩
                · have : g = fld := flagName_injective g fld (hgn.trans hf.symm)
                  subst this
                  simp [get_set_same]
                · have : g ≠ fld := fun hgf => hf (by rw [← hgf, hgn])
                  simp [get_set_other _ _ _ _ this]
            · cases h

end LnproxyRelay

namespace LnproxyRelay

/-- Setting one flag keeps the flag state consistent with the command line. -/
theorem setOne_inv {F : Type} (parseFloat : Str → Option F) (init : FlagVars F)
    (f f1 : FlagSet F) (name : Str) (value : Option Str) (rest rest1 : List Str)
    (h : setOne parseFloat f name value rest = Except.ok (f1, rest1))
    (hinv : FlagInv parseFloat init f) : FlagInv parseFloat init f1 := by
  unfold setOne at h
  split at h
  · cases h
  · simp only at h
    split at h
    · cases h
    · rename_i v rest2 harg
      split at h
      · cases h
      · rename_i vars hset
        simp only [Except.ok.injEq, Prod.mk.injEq] at h
        obtain ⟨hf, -⟩ := h
        subst hf
        obtain ⟨ha, hb, hc⟩ := hinv
        obtain ⟨sa, sb, sc⟩ := FlagVars.set_spec parseFloat f.vars vars name v hset
        refine ⟨?_, ?_, ?_⟩
        · intro fld
          simp only [lastValue_cons]
          by_cases hn : name = fld.flagName
          · simp only [hn, if_true]
            exact (sa fld).1 hn.symm
          · simp only [hn, if_false]
            have := ha fld
            rw [(sa fld).2 (fun h => hn h.symm)]
            exact this
        · simp only [lastValue_cons]
          by_cases hn : name = "payment-time-preference".toList
          · simp only [hn, if_true]
            exact sb hn
          · simp only [hn, if_false]
            rw [sc hn]
            exact hb
        · intro n
          simp only [lastValue_cons]
          by_cases hn : name = n
          · subst hn
            by_cases hm : name ∈ f.actual <;> simp [hm]
          · simp only [hn, if_false]
            rw [← hc n]
            by_cases hm : name ∈ f.actual
            · simp [hm]
            · simp only [hm, if_false, List.mem_cons]
              constructor
              · rintro (h | h)
                · exact absurd h.symm hn
                · exact h
              · exact Or.inr

theorem parseOne_inv {F : Type} (parseFloat : Str → Option F) (init : FlagVars F)
    (f f1 : FlagSet F) (args rest1 : List Str)
    (h : parseOne parseFloat f args = some (Except.ok (f1, rest1)))
    (hinv : FlagInv parseFloat init f) : FlagInv parseFloat init f1 := by
  unfold parseOne at h
  split at h
  · cases h
  · split at h
    · split at h
      · cases h
      · split at h
        · simp [usageExit] at h
        · split at h
          · simp [usageExit] at h
          · split at h
            · simp only [Option.some.injEq] at h
              exact setOne_inv parseFloat init f f1 _ _ _ _ h hinv
            · simp only [Option.some.injEq] at h
              exact setOne_inv parseFloat init f f1 _ _ _ _ h hinv
    · cases h

theorem parseLoop_inv {F : Type} (parseFloat : Str → Option F) (init : FlagVars F) (fuel : Nat)
    (f f1 : FlagSet F) (args : List Str)
    (h : parseLoop parseFloat fuel f args = Except.ok f1)
    (hinv : FlagInv parseFloat init f) : FlagInv parseFloat init f1 := by
  induction fuel generalizing f args with
  | zero =>
    simp only [parseLoop, Except.ok.injEq] at h
    subst h
    exact hinv
  | succ n ih =>
    rw [parseLoop] at h
    split at h
    · simp only [Except.ok.injEq] at h
      subst h
      exact hinv
    · cases h
    · rename_i f2 rest hp
      exact ih f2 rest h (parseOne_inv parseFloat init f f2 args rest hp hinv)

theorem flagParse_inv {F : Type} (w : World F) (f : FlagSet F)
    (h : flagParse w = Except.ok f) : FlagInv w.parseFloat (defineFlags w).vars f := by
  refine parseLoop_inv w.parseFloat _ _ _ f _ h ?_
  refine ⟨fun fld => ?_, ?_, fun name => ?_⟩ <;> simp [defineFlags, lastValue]

theorem defineFlags_get {F : Type} (w : World F) (fld : PolicyField) :
    (defineFlags w).vars.params.get fld
      = lookupEnvOrUint64 w.env fld.envKey (w.defaults.get fld) := by
  cases fld <;> rfl

/-- C8. Per-field precedence flag, environment, default. In every run in which flag
parsing succeeds, a `uint64` policy field whose flag was given holds what
`ParseUint(_, 0, 64)` reads from the last value given; a field whose flag was not given
holds the value of its environment variable if that is set and is a base-10 unsigned
64-bit integer, and the default of `relay.NewRelayParameters()` otherwise; the same holds of
`PaymentTimePreference` with `ParseFloat`; `actual` holds the flags given; and the
configuration the server starts with carries these values. The empty string, `-5`,
`12abc` and `18446744073709551616` are no such integers. -/
theorem flag_env_default_precedence {F : Type} (w : World F) (f : FlagSet F)
    (hparse : flagParse w = Except.ok f) :
    (∀ fld : PolicyField, ∀ v, lastValue f.history fld.flagName = some v →
        ParseUint v 0 = some (f.vars.params.get fld))
      ∧ (∀ fld : PolicyField, lastValue f.history fld.flagName = none →
          f.vars.params.get fld =
            match w.env fld.envKey with
            | some s => if isUint64Decimal s then decimalValue 0 s else w.defaults.get fld
            | none => w.defaults.get fld)
      ∧ (∀ v, lastValue f.history "payment-time-preference".toList = some v →
          w.parseFloat v = some f.vars.params.PaymentTimePreference)
      ∧ (lastValue f.history "payment-time-preference".toList = none →
          f.vars.params.PaymentTimePreference =
            match w.env "PAYMENT_TIME_PREFERENCE".toList with
            | some s =>
              (match w.parseFloat s with
               | some x => x
               | none => w.defaults.PaymentTimePreference)
            | none => w.defaults.PaymentTimePreference)
      ∧ (∀ name, name ∈ f.actual ↔ (lastValue f.history name).isSome)
      ∧ (∀ cfg, startup w = Except.ok cfg → cfg.params = f.vars.params)
      ∧ isUint64Decimal [] = false ∧ isUint64Decimal "-5".toList = false
      ∧ isUint64Decimal "12abc".toList = false
      ∧ isUint64Decimal "18446744073709551616".toList = false := by
  obtain ⟨ha, hb, hc⟩ := flagParse_inv w f hparse
  refine ⟨?_, ?_, ?_, ?_, hc, ?_, by decide, by decide, by decide, by decide⟩
  · intro fld v hv
    have := ha fld
    rw [hv] at this
    exact this
  · intro fld hv
    have := ha fld
    rw [hv] at this
    simp only at this
    rw [this, defineFlags_get, lookupEnvOrUint64]
    cases w.env fld.envKey with
    | none => rfl
    | some s =>
      simp only [ParseUint_ten]
      by_cases hs : isUint64Decimal s = true <;> simp [hs]
  · intro v hv
    rw [hv] at hb
    exact hb
  · intro hv
    rw [hv] at hb
    simp only at hb
    rw [hb]
    simp only [defineFlags, lookupEnvOrFloat64]
    cases w.env "PAYMENT_TIME_PREFERENCE".toList with
    | none => rfl
    | some s => cases hp : w.parseFloat s <;> simp [hp]
  · intro cfg hcfg
    unfold startup at hcfg
    rw [hparse] at hcfg
    simp only at hcfg
    split at hcfg
    · cases hcfg
    · split at hcfg
      · cases hcfg
      · cases hcfg
      · split at hcfg
        · cases hcfg
        · split at hcfg
          · cases hcfg
          · simp only [Except.ok.injEq] at hcfg
            rw [← hcfg]

end LnproxyRelay

namespace LnproxyRelay

/-- Whether `Value.Set` succeeds depends on the flag and the text, not on what the
variables hold. -/
theorem FlagVars.set_isSome {F : Type} (parseFloat : Str → Option F) (v v1 : FlagVars F)
    (name value : Str) :
    (v.set parseFloat name value).isSome = (v1.set parseFloat name value).isSome := by
  unfold FlagVars.set
  split
  · rfl
  · split
    · rfl
    · split
      · rfl
      · split
        · rfl
        · split
          · cases parseFloat value <;> rfl
          · split
            · cases ParseUint value 0 <;> rfl
            · rfl

/-- The flags a command line sets, and whether it parses, do not depend on the values
the flags were defined with. -/
theorem setOne_trace {F : Type} (parseFloat : Str → Option F) (f g : FlagSet F) (name : Str)
    (value : Option Str) (rest : List Str) (ha : f.actual = g.actual)
    (hh : f.history = g.history) :
    (∃ e, setOne parseFloat f name value rest = Except.error e
        ∧ setOne parseFloat g name value rest = Except.error e)
      ∨ (∃ f1 g1 rest1, setOne parseFloat f name value rest = Except.ok (f1, rest1)
        ∧ setOne parseFloat g name value rest = Except.ok (g1, rest1)
        ∧ f1.actual = g1.actual ∧ f1.history = g1.history) := by
  unfold setOne
  split
  · exact Or.inl ⟨_, rfl, rfl⟩
  · simp only
    split
    · exact Or.inl ⟨_, rfl, rfl⟩
    · rename_i v rest1 harg
      have hs := FlagVars.set_isSome parseFloat f.vars g.vars name v
      cases hf : f.vars.set parseFloat name v with
      | none =>
        rw [hf] at hs
        cases hg : g.vars.set parseFloat name v with
        | none => exact Or.inl ⟨_, rfl, rfl⟩
        | some y => rw [hg] at hs; cases hs
      | some x =>
        rw [hf] at hs
        cases hg : g.vars.set parseFloat name v with
        | none => rw [hg] at hs; cases hs
        | some y =>
          refine Or.inr ⟨_, _, _, rfl, rfl, ?_, ?_⟩
          · simp only [ha]
          · simp only [hh]

theorem parseOne_trace {F : Type} (parseFloat : Str → Option F) (f g : FlagSet F)
    (args : List Str) (ha : f.actual = g.actual) (hh : f.history = g.history) :
    (parseOne parseFloat f args = none ∧ parseOne parseFloat g args = none)
      ∨ (∃ e, parseOne parseFloat f args = some (Except.error e)
        ∧ parseOne parseFloat g args = some (Except.error e))
      ∨ (∃ f1 g1 rest1, parseOne parseFloat f args = some (Except.ok (f1, rest1))
        ∧ parseOne parseFloat g args = some (Except.ok (g1, rest1))
        ∧ f1.actual = g1.actual ∧ f1.history = g1.history) := by
  have key : ∀ name value rest,
      (∃ e, some (setOne parseFloat f name value rest) = some (Except.error e)
        ∧ some (setOne parseFloat g name value rest) = some (Except.error e))
      ∨ (∃ f1 g1 rest1, some (setOne parseFloat f name value rest) = some (Except.ok (f1, rest1))
        ∧ some (setOne parseFloat g name value rest) = some (Except.ok (g1, rest1))
        ∧ f1.actual = g1.actual ∧ f1.history = g1.history) := by
    intro name value rest
    rcases setOne_trace parseFloat f g name value rest ha hh with ⟨e, h1, h2⟩ | ⟨f1, g1, r, h1, h2, h3⟩
    · exact Or.inl ⟨e, by rw [h1], by rw [h2]⟩
    · exact Or.inr ⟨f1, g1, r, by rw [h1], by rw [h2], h3⟩
  unfold parseOne
  split
  · exact Or.inl ⟨rfl, rfl⟩
  · split
    · split
      · exact Or.inl ⟨rfl, rfl⟩
      · split
        · exact Or.inr (Or.inl ⟨_, rfl, rfl⟩)
        · split
          · exact Or.inr (Or.inl ⟨_, rfl, rfl⟩)
          · split
            · exact Or.inr (key _ _ _)
            · exact Or.inr (key _ _ _)
    · exact Or.inl ⟨rfl, rfl⟩

theorem parseLoop_trace {F : Type} (parseFloat : Str → Option F) (fuel : Nat) (f g : FlagSet F)
    (args : List Str) (ha : f.actual = g.actual) (hh : f.history = g.history) :
    (parseLoop parseFloat fuel f args).map (fun x => (x.actual, x.history))
      = (parseLoop parseFloat fuel g args).map (fun x => (x.actual, x.history)) := by
  induction fuel generalizing f g args with
  | zero => simp [parseLoop, Except.map, ha, hh]
  | succ n ih =>
    rw [parseLoop, parseLoop]
    rcases parseOne_trace parseFloat f g args ha hh with
      ⟨h1, h2⟩ | ⟨e, h1, h2⟩ | ⟨f1, g1, r, h1, h2, h3, h4⟩
    · rw [h1, h2]; simp [Except.map, ha, hh]
    · rw [h1, h2]
    · rw [h1, h2]
      exact ih f1 g1 r h3 h4

/-- C9. Zero flags is a usage error. Once flag parsing has succeeded, start-up prints the
usage text and exits with status 2 if and only if no flag was set: every other end of
the process has another status and prints no usage, and a configuration is produced
only with at least one flag. The environment has no part in it: with another
environment the same command line parses as well and sets the same flags, and without
arguments no flag is set. -/
theorem zero_flags_usage_exit {F : Type} (w : World F) (f : FlagSet F)
    (hparse : flagParse w = Except.ok f) :
    (startup w = Except.error ⟨2, true⟩ ↔ f.NFlag = 0)
      ∧ (∀ e, startup w = Except.error e →
          (e.status = 2 ↔ f.NFlag = 0) ∧ (e.usagePrinted = true ↔ f.NFlag = 0))
      ∧ (∀ cfg, startup w = Except.ok cfg → 0 < f.NFlag)
      ∧ (∀ env1 : Env, ∃ f1, flagParse { w with env := env1 } = Except.ok f1
          ∧ f1.NFlag = f.NFlag)
      ∧ (w.args = [] → f.NFlag = 0) := by
  have hexit : ∀ v e, fileOrBase64OrHex w.fs v = Except.error e → e = ⟨1, false⟩ := by
    intro v e he
    unfold fileOrBase64OrHex at he
    split at he
    · cases he
    · split at he
      · split at he
        · simpa [logFatalln] using he.symm
        · cases he
      · split at he
        · cases he
        · split at he
          · cases he
          · simpa [logFatalln] using he.symm
  have hstart : f.NFlag ≠ 0 → ∀ e, startup w = Except.error e → e = ⟨1, false⟩ := by
    intro hn e he
    unfold startup at he
    rw [hparse] at he
    simp only [hn, if_false] at he
    split at he
    · rename_i e1 h1
      cases he
      exact hexit _ _ h1
    · simpa [logFatalln] using he.symm
    · split at he
      · simpa [logFatalln] using he.symm
      · split at he
        · rename_i e1 h1
          cases he
          exact hexit _ _ h1
        · cases he
  have hzero : f.NFlag = 0 → startup w = Except.error ⟨2, true⟩ := by
    intro hn
    unfold startup
    rw [hparse]
    simp [hn, usageExit]
  refine ⟨⟨?_, hzero⟩, ?_, ?_, ?_, ?_⟩
  · intro h
    by_contra hn
    have := hstart hn _ h
    simp at this
  · intro e he
    by_cases hn : f.NFlag = 0
    · rw [hzero hn] at he
      cases he
      simp [hn]
    · have := hstart hn e he
      subst this
      simp [hn]
  · intro cfg hcfg
    by_contra hn
    have hn0 : f.NFlag = 0 := by omega
    rw [hzero hn0] at hcfg
    cases hcfg
  · intro env1
    have htr := parseLoop_trace w.parseFloat w.args.length (defineFlags { w with env := env1 })
      (defineFlags w) w.args rfl rfl
    unfold flagParse at hparse ⊢
    rw [hparse] at htr
    simp only
    cases hp : parseLoop w.parseFloat w.args.length (defineFlags { w with env := env1 }) w.args with
    | error e => rw [hp] at htr; simp [Except.map] at htr
    | ok f1 =>
      rw [hp] at htr
      simp only [Except.map, Except.ok.injEq, Prod.mk.injEq] at htr
      exact ⟨f1, rfl, by simp [FlagSet.NFlag, htr.1]⟩
  · intro hargs
    unfold flagParse at hparse
    rw [hargs] at hparse
    simp only [List.length_nil, parseLoop, Except.ok.injEq] at hparse
    rw [← hparse]
    rfl

end LnproxyRelay

namespace LnproxyRelay

/-! ## Claims about the lifecycle -/

theorem LState.step_inv (s s1 : LState) (a : Action) (h : s.step a = some s1) (hinv : s.Inv) :
    s1.Inv := by
  obtain ⟨main, sig, pending, notified, closed, listening, handlers, outstanding, killed, trace⟩ := s
  unfold LState.step at h
  split at h
  · cases h
  · rename_i halive
    simp only [Bool.or_eq_true, decide_eq_true_eq, not_or] at halive
    cases a <;> simp only at h
    all_goals try split at h
    all_goals cases h
    all_goals cases main <;> cases sig <;> simp_all [LState.Inv]

theorem LState.run_inv (acts : List Action) (s s1 : LState) (h : s.run acts = some s1)
    (hinv : s.Inv) : s1.Inv := by
  induction acts generalizing s with
  | nil =>
    simp only [LState.run, Option.some.injEq] at h
    subst h
    exact hinv
  | cons a rest ih =>
    rw [LState.run] at h
    split at h
    · cases h
    · rename_i s2 hs
      exact ih s2 h (LState.step_inv s s2 a hs hinv)

/-- C10. Drain before exit. In every run of the process from line 220 on, whatever the
order in which the goroutines, the operating system, the server and the relay take
their steps, a state in which `main` has returned (the lifecycle state `Stopped`) has
the wait group at zero and `idleConnsClosed` closed, and the events before it are,
oldest first: the interrupt was received, `server.Shutdown` returned, `idleConnsClosed` was
closed, `WaitGroup.Wait()` returned. -/
theorem drain_before_exit (acts : List Action) (s : LState)
    (hrun : LState.init.run acts = some s) (hstop : s.phase = Phase.Stopped) :
    s.outstanding = 0 ∧ s.idleConnsClosed = true ∧ s.sig = SignalPc.finished
      ∧ s.trace.reverse = [Event.interruptReceived, Event.shutdownReturned,
          Event.idleConnsClosedClosed, Event.waitReturned] := by
  have hinv : s.Inv := LState.run_inv acts _ s hrun (by simp [LState.Inv, LState.init])
  have hmain : s.main = MainPc.returned := by
    unfold LState.phase at hstop
    split at hstop
    · assumption
    · split at hstop
      · cases hstop
      · split at hstop <;> cases hstop
  obtain ⟨main, sig, pending, notified, closed, listening, handlers, outstanding, killed, trace⟩ := s
  simp only at hmain
  subst hmain
  cases sig <;> simp_all [LState.Inv]

/-- A run that reaches `Stopped`: a request is served and an operation of the relay is
outstanding when the interrupt arrives. -/
theorem drain_before_exit_witness :
    LState.init.run [Action.spawn, Action.listen, Action.sigNotify, Action.requestStart,
        Action.opStart, Action.interrupt, Action.sigReceive, Action.requestEnd,
        Action.shutdownReturn, Action.closeIdle, Action.mainResume, Action.opDone,
        Action.mainReturn]
      = some { main := MainPc.returned, sig := SignalPc.finished, sigintPending := false,
               notified := false, idleConnsClosed := true, listening := false, handlers := 0,
               outstanding := 0, killed := false,
               trace := [Event.waitReturned, Event.idleConnsClosedClosed,
                 Event.shutdownReturned, Event.interruptReceived] }
      ∧ (0 = 0 ∧ true = true ∧ SignalPc.finished = SignalPc.finished
        ∧ [Event.waitReturned, Event.idleConnsClosedClosed, Event.shutdownReturned,
            Event.interruptReceived].reverse
          = [Event.interruptReceived, Event.shutdownReturned, Event.idleConnsClosedClosed,
              Event.waitReturned]) :=
  ⟨by decide,
    drain_before_exit
      [Action.spawn, Action.listen, Action.sigNotify, Action.requestStart,
        Action.opStart, Action.interrupt, Action.sigReceive, Action.requestEnd,
        Action.shutdownReturn, Action.closeIdle, Action.mainResume, Action.opDone,
        Action.mainReturn]
      { main := MainPc.returned, sig := SignalPc.finished, sigintPending := false,
        notified := false, idleConnsClosed := true, listening := false, handlers := 0,
        outstanding := 0, killed := false,
        trace := [Event.waitReturned, Event.idleConnsClosedClosed,
          Event.shutdownReturned, Event.interruptReceived] }
      (by decide) (by decide)⟩

end LnproxyRelay

namespace LnproxyRelay

/-! ## Concrete runs -/

/-- C1 at a request for the invoice `lnbc1`: the backend reports a refused connection in
one run and a timeout, with an invoice, in the other. -/
theorem internal_error_masked_witness :
    (specApiHandler proxyParametersCodec
        (fun _ => ([], some ⟨"dial tcp 127.0.0.1:8080: connection refused".toList, false⟩))
        "\x7b\"invoice\":\"lnbc1\"\x7d".toList).body
        = "\x7b\"status\":\"ERROR\",\"reason\":\"internal error\"\x7d\n".toList
      ∧ readMembers (specApiHandler proxyParametersCodec
        (fun _ => ([], some ⟨"dial tcp 127.0.0.1:8080: connection refused".toList, false⟩))
        "\x7b\"invoice\":\"lnbc1\"\x7d".toList).body
        = some [("status".toList, "ERROR".toList), ("reason".toList, "internal error".toList)]
      ∧ (specApiHandler proxyParametersCodec
        (fun _ => ("lnbc2".toList, some ⟨"payment timed out".toList, false⟩))
        "\x7b\"invoice\":\"lnbc1\"\x7d".toList).body
        = (specApiHandler proxyParametersCodec
        (fun _ => ([], some ⟨"dial tcp 127.0.0.1:8080: connection refused".toList, false⟩))
        "\x7b\"invoice\":\"lnbc1\"\x7d".toList).body :=
  internal_error_masked proxyParametersCodec
    (fun _ => ([], some ⟨"dial tcp 127.0.0.1:8080: connection refused".toList, false⟩))
    (fun _ => ("lnbc2".toList, some ⟨"payment timed out".toList, false⟩))
    "\x7b\"invoice\":\"lnbc1\"\x7d".toList { Invoice := "lnbc1".toList } [] "lnbc2".toList
    ⟨"dial tcp 127.0.0.1:8080: connection refused".toList, false⟩
    ⟨"payment timed out".toList, false⟩ (by decide) rfl rfl rfl rfl

/-- C2 at a request for the invoice `lnbc1` that the backend refuses with the
client-facing text `amount below minimum`, wrapped in line feeds and a no-break space. -/
theorem client_facing_error_echoed_witness :
    TrimSpace "\n amount below minimum\u00a0\n".toList = "amount below minimum".toList
      ∧ (Wire.specApiHandler proxyParametersCodec
          (fun _ => ([], some ⟨utf8 "\n amount below minimum\u00a0\n".toList, true⟩))
          "\x7b\"invoice\":\"lnbc1\"\x7d".toList).body
        = "\x7b\"status\":\"ERROR\",\"reason\":".toList
            ++ appendString (TrimSpace "\n amount below minimum\u00a0\n".toList)
            ++ "\x7d\n".toList :=
  ⟨by decide,
    (client_facing_error_echoed proxyParametersCodec
      (fun _ => ([], some ⟨utf8 "\n amount below minimum\u00a0\n".toList, true⟩))
      "\x7b\"invoice\":\"lnbc1\"\x7d".toList { Invoice := "lnbc1".toList } []
      ⟨utf8 "\n amount below minimum\u00a0\n".toList, true⟩
      "\n amount below minimum\u00a0\n".toList (by decide) rfl rfl rfl).1⟩

/-- C6 at a run whose macaroon is the hexadecimal string `abcd` and whose certificate
value `*` is unresolvable: exit status 1. -/
theorem unresolvable_credential_fatal_witness :
    Unresolvable (bareWorld []).fs "*".toList
      ∧ startup (bareWorld ["-lnd-macaroon".toList, "abcd".toList, "-lnd-cert".toList,
          "*".toList]) = Except.error ⟨1, false⟩ :=
  ⟨by unfold Unresolvable; decide,
    unresolvable_credential_fatal
      (bareWorld ["-lnd-macaroon".toList, "abcd".toList, "-lnd-cert".toList, "*".toList])
      { vars := { (defineFlags (bareWorld [])).vars with
                  lndMacaroon := "abcd".toList, lndCert := "*".toList }
        actual := ["lnd-cert".toList, "lnd-macaroon".toList]
        history := [("lnd-cert".toList, "*".toList), ("lnd-macaroon".toList, "abcd".toList)] }
      (by decide) (by decide) (Or.inr (by unfold Unresolvable; decide))⟩

/-- C8 at a run with the flag `-min-amount-msat 0x10` and the environment
`MIN_AMOUNT_MSAT=5`, `MAX_AMOUNT_MSAT=70`, `ROUTING_FEE_PPM=-5`: the flag wins for the first
field, the environment gives the second, the default stays for the third. -/
theorem flag_env_default_precedence_witness :
    ParseUint "0x10".toList 0 = some 16
      ∧ (if isUint64Decimal "70".toList then decimalValue 0 "70".toList else 0) = 70
      ∧ (if isUint64Decimal "-5".toList then decimalValue 0 "-5".toList else 0) = 0
      ∧ (∀ fld : PolicyField, ∀ v,
          lastValue [("min-amount-msat".toList, "0x10".toList)] fld.flagName = some v →
            ParseUint v 0 = some
              ((({ (defineFlags { bareWorld [] with
                      env := envOf [("MIN_AMOUNT_MSAT".toList, "5".toList),
                        ("MAX_AMOUNT_MSAT".toList, "70".toList),
                        ("ROUTING_FEE_PPM".toList, "-5".toList)] }).vars.params with
                    MinAmountMsat := 16 } : RelayParameters Nat)).get fld)) :=
  ⟨by decide, by decide, by decide,
    (flag_env_default_precedence
      { bareWorld ["-min-amount-msat".toList, "0x10".toList] with
        env := envOf [("MIN_AMOUNT_MSAT".toList, "5".toList),
          ("MAX_AMOUNT_MSAT".toList, "70".toList), ("ROUTING_FEE_PPM".toList, "-5".toList)] }
      { vars := { (defineFlags { bareWorld [] with
                    env := envOf [("MIN_AMOUNT_MSAT".toList, "5".toList),
                      ("MAX_AMOUNT_MSAT".toList, "70".toList),
                      ("ROUTING_FEE_PPM".toList, "-5".toList)] }).vars with
                  params := { (defineFlags { bareWorld [] with
                      env := envOf [("MIN_AMOUNT_MSAT".toList, "5".toList),
                        ("MAX_AMOUNT_MSAT".toList, "70".toList),
                        ("ROUTING_FEE_PPM".toList, "-5".toList)] }).vars.params with
                    MinAmountMsat := 16 } }
        actual := ["min-amount-msat".toList]
        history := [("min-amount-msat".toList, "0x10".toList)] }
      (by decide)).1⟩

/-- C9 at a run without arguments whose settings all come from the environment: no flag
is set, and the process prints the usage text and exits with status 2. -/
theorem zero_flags_usage_exit_witness :
    startup { bareWorld [] with
        env := envOf [("LND_MACAROON".toList, "abcd".toList), ("LND_CERT".toList, [])] }
      = Except.error ⟨2, true⟩ :=
  (zero_flags_usage_exit
    { bareWorld [] with
        env := envOf [("LND_MACAROON".toList, "abcd".toList), ("LND_CERT".toList, [])] }
    (defineFlags { bareWorld [] with
        env := envOf [("LND_MACAROON".toList, "abcd".toList), ("LND_CERT".toList, [])] })
    (by decide)).1.2 (by decide)

end LnproxyRelay

namespace LnproxyRelay

/-! ## The bounds on the loops are enough -/

theorem setOne_length {F : Type} (parseFloat : Str → Option F) (f f1 : FlagSet F) (name : Str)
    (value : Option Str) (rest rest1 : List Str)
    (h : setOne parseFloat f name value rest = Except.ok (f1, rest1)) :
    rest1.length ≤ rest.length := by
  unfold setOne at h
  split at h
  · cases h
  · simp only at h
    split at h
    · cases h
    · rename_i v rest2 harg
      split at h
      · cases h
      · simp only [Except.ok.injEq, Prod.mk.injEq] at h
        obtain ⟨-, hr⟩ := h
        subst hr
        cases value with
        | some x =>
          simp only [Option.some.injEq, Prod.mk.injEq] at harg
          rw [harg.2]
        | none =>
          cases rest with
          | nil => simp at harg
          | cons a r =>
            simp only [Option.some.injEq, Prod.mk.injEq] at harg
            rw [← harg.2]
            simp

theorem parseOne_length {F : Type} (parseFloat : Str → Option F) (f f1 : FlagSet F)
    (args rest1 : List Str) (h : parseOne parseFloat f args = some (Except.ok (f1, rest1))) :
    rest1.length < args.length := by
  unfold parseOne at h
  split at h
  · cases h
  · split at h
    · split at h
      · cases h
      · split at h
        · simp [usageExit] at h
        · split at h
          · simp [usageExit] at h
          · split at h
            · simp only [Option.some.injEq] at h
              have := setOne_length parseFloat f f1 _ _ _ _ h
              simp only [List.length_cons]
              omega
            · simp only [Option.some.injEq] at h
              have := setOne_length parseFloat f f1 _ _ _ _ h
              simp only [List.length_cons]
              omega
    · cases h

/-- The loop of `flag.Parse` never runs out of rounds: with more rounds than arguments
the result is the same. -/
theorem parseLoop_fuel {F : Type} (parseFloat : Str → Option F) (n : Nat) (f : FlagSet F)
    (args : List Str) (h : args.length ≤ n) :
    parseLoop parseFloat (n + 1) f args = parseLoop parseFloat n f args := by
  induction n generalizing f args with
  | zero =>
    have : args = [] := List.length_eq_zero.mp (by omega)
    subst this
    simp [parseLoop, parseOne]
  | succ n ih =>
    rw [parseLoop]
    conv_rhs => rw [parseLoop]
    split
    · rfl
    · rfl
    · rename_i f1 rest hp
      have := parseOne_length parseFloat f f1 args rest hp
      exact ih f1 rest (by omega)

theorem unquoteStep_pos (s : Str) (x : Char) (n : Nat) (h : unquoteStep s = some (x, n)) :
    1 ≤ n := by
  unfold unquoteStep at h
  repeat' split at h
  all_goals (cases h <;> omega)

/-- The loop of `unquoteBytes` never runs out of rounds: with more rounds than bytes the
result is the same. -/
theorem unquoteLoop_fuel (n : Nat) (s : Str) (h : s.length ≤ n) :
    unquoteLoop (n + 1) s = unquoteLoop n s := by
  induction n generalizing s with
  | zero =>
    have : s = [] := List.length_eq_zero.mp (by omega)
    subst this
    simp [unquoteLoop]
  | succ n ih =>
    cases s with
    | nil => simp [unquoteLoop]
    | cons c rest =>
      rw [unquoteLoop]
      conv_rhs => rw [unquoteLoop]
      split
      · rfl
      · rename_i x k hs
        have hk := unquoteStep_pos _ _ _ hs
        rw [ih _ (by simp only [List.length_drop, List.length_cons] at h ⊢; omega)]

/-! ## The macaroon handed to the backend -/

theorem fromHexChar_hexDigit : ∀ k < 16, fromHexChar (hexDigit k) = some k := by decide

/-- The call `hex.EncodeToString` writes two digits for each byte, and `hex.DecodeString` reads the
bytes back. -/
theorem hexDecodeString_hexEncodeToString (b : Bytes) (h : ∀ x ∈ b, x < 256) :
    hexDecodeString (hexEncodeToString b) = some b
      ∧ (hexEncodeToString b).length = 2 * b.length := by
  induction b with
  | nil => exact ⟨rfl, rfl⟩
  | cons x rest ih =>
    have hx : x < 256 := h x (List.mem_cons_self _ _)
    obtain ⟨ih1, ih2⟩ := ih (fun y hy => h y (List.mem_cons_of_mem _ hy))
    constructor
    · rw [hexEncodeToString, hexDecodeString, fromHexChar_hexDigit _ (by omega),
        fromHexChar_hexDigit _ (by omega)]
      simp only [ih1, Option.map_some']
      congr 2
      omega
    · simp only [hexEncodeToString, List.length_cons, ih2]
      omega

/-- Whenever start-up completes, the macaroon of the backend client is the hexadecimal
encoding of the bytes `fileOrBase64OrHex` resolved, a non-nil slice. -/
theorem macaroon_of_startup {F : Type} (w : World F) (cfg : Config F)
    (h : startup w = Except.ok cfg) :
    ∃ f b, flagParse w = Except.ok f
      ∧ fileOrBase64OrHex w.fs f.vars.lndMacaroon = Except.ok (some b)
      ∧ cfg.lnd.Macaroon = hexEncodeToString b := by
  unfold startup at h
  split at h
  · cases h
  · rename_i f hf
    split at h
    · cases h
    · split at h
      · cases h
      · cases h
      · rename_i b hb
        split at h
        · cases h
        · split at h
          · cases h
          · simp only [Except.ok.injEq] at h
            exact ⟨f, b, hf, hb, by rw [← h]⟩

end LnproxyRelay

namespace LnproxyRelay

theorem decodeMap_base64Char : ∀ k < 64, decodeMap (base64Char k) = some k := by decide

/-- The encoding `base64.StdEncoding` decodes what it encodes: the standard encoding of a byte string
is a valid base64 string and stands for these bytes. -/
theorem base64DecodeString_encode (b : Bytes) (h : ∀ x ∈ b, x < 256) :
    base64DecodeString (base64EncodeToString b) = some b := by
  unfold base64DecodeString
  induction b using base64EncodeToString.induct with
  | case1 => rfl
  | case2 a =>
    have ha : a < 256 := h a (by simp)
    have h1 := decodeMap_base64Char (a / 4) (by omega)
    have h2 := decodeMap_base64Char (a % 4 * 16) (by omega)
    have hp : decodeMap '=' = none := by decide
    simp only [base64EncodeToString, base64Decode, h1, h2, hp]
    simp [isNewline, quantumBytes]
    omega
  | case3 a b =>
    have ha : a < 256 := h a (by simp)
    have hb : b < 256 := h b (by simp)
    have h1 := decodeMap_base64Char (a / 4) (by omega)
    have h2 := decodeMap_base64Char (a % 4 * 16 + b / 16) (by omega)
    have h3 := decodeMap_base64Char (b % 16 * 4) (by omega)
    have hp : decodeMap '=' = none := by decide
    simp only [base64EncodeToString, base64Decode, h1, h2, h3, hp]
    simp [isNewline, quantumBytes]
    omega
  | case4 a b c rest ih =>
    have ha : a < 256 := h a (by simp)
    have hb : b < 256 := h b (by simp)
    have hc : c < 256 := h c (by simp)
    have h1 := decodeMap_base64Char (a / 4) (by omega)
    have h2 := decodeMap_base64Char (a % 4 * 16 + b / 16) (by omega)
    have h3 := decodeMap_base64Char (b % 16 * 4 + c / 64) (by omega)
    have h4 := decodeMap_base64Char (c % 64) (by omega)
    have ih' := ih (fun x hx => h x (by simp [hx]))
    simp only [base64EncodeToString, base64Decode, h1, h2, h3, h4]
    simp [ih', quantumBytes]
    omega

end LnproxyRelay
